import Mathlib

/-!
# MLh magnitude plugin (`plugins/magnitudes/MLh/ml.cpp`)

A shallow embedding of the MLh amplitude combiner and magnitude estimator.
Floating point numbers are idealised as elements of an arbitrary linearly
ordered field `α` (exact arithmetic); instantiating `α` with `ℚ` makes every
definition executable, instantiating with `ℝ` gives the real-number reading.
-/

namespace MLh

/-! ## Constants -/

/-- Macro `DELTA_MIN`: the magnitude is only valid within 0-20 degrees. -/
def DELTA_MIN {α : Type} [LinearOrderedField α] : α := 0

/-- Macro `DELTA_MAX`. -/
def DELTA_MAX {α : Type} [LinearOrderedField α] : α := 20

/-- Macro `DEPTH_MAX`: only valid for depths up to 80 km. -/
def DEPTH_MAX {α : Type} [LinearOrderedField α] : α := 80

/-- Global `ExpectedAmplitudeUnit`. -/
def ExpectedAmplitudeUnit : String := "mm"

/-! ## Amplitude values and times -/

/-- The type `Processing::AmplitudeProcessor::AmplitudeValue`: a value with
optional lower and upper uncertainties. -/
structure AmplitudeValue (α : Type) where
  value : α
  lowerUncertainty : Option α
  upperUncertainty : Option α
  deriving DecidableEq, Repr

/-- The type `Processing::AmplitudeProcessor::AmplitudeTime`: a reference time
with a window given by the relative offsets `begin` and `end`. The field
`end` of the source is spelled `end_` here. -/
structure AmplitudeTime (α : Type) where
  reference : α
  begin : α
  end_ : α
  deriving DecidableEq, Repr

set_option linter.unusedVariables false in
/-- The function `average(const AmplitudeValue &v0, const AmplitudeValue &v1)`.
The four assignments to `u` each start again from `l`, exactly as the source
writes them. -/
def AmplitudeValue.average {α : Type} [LinearOrderedField α]
    (v0 v1 : AmplitudeValue α) : AmplitudeValue α :=
  let value := (v0.value + v1.value) * 0.5
  let v0l := v0.value
  let v0u := v0.value
  let v1l := v1.value
  let v1u := v1.value
  let v0l := match v0.lowerUncertainty with | some x => v0l - x | none => v0l
  let v0u := match v0.upperUncertainty with | some x => v0u + x | none => v0u
  let v1l := match v1.lowerUncertainty with | some x => v1l - x | none => v1l
  let v1u := match v1.upperUncertainty with | some x => v1u + x | none => v1u
  let l : α := 0
  let u : α := 0
  let l := max l (value - v0l)
  let l := max l (value - v0u)
  let l := max l (value - v1l)
  let l := max l (value - v1u)
  let u := max l (v0l - value)
  let u := max l (v0u - value)
  let u := max l (v1l - value)
  let u := max l (v1u - value)
  { value := value, lowerUncertainty := some l, upperUncertainty := some u }

/-- The function `average(const AmplitudeTime &t0, const AmplitudeTime &t1)`. -/
def AmplitudeTime.average {α : Type} [LinearOrderedField α]
    (t0 t1 : AmplitudeTime α) : AmplitudeTime α :=
  let reference := (t0.reference + t1.reference) * 0.5
  let t0b := t0.reference + t0.begin
  let t0e := t0.reference + t0.end_
  let t1b := t1.reference + t1.begin
  let t1e := t1.reference + t1.end_
  let minTime := reference
  let maxTime := reference
  let minTime := min minTime t0b
  let minTime := min minTime t0e
  let minTime := min minTime t1b
  let minTime := min minTime t1e
  let maxTime := max maxTime t0b
  let maxTime := max maxTime t0e
  let maxTime := max maxTime t1b
  let maxTime := max maxTime t1e
  { reference := reference, begin := minTime - reference, end_ := maxTime - reference }

/-! ## Calibration table -/

/-- The struct `MagnitudeProcessor_ML::param_struct`. -/
structure param_struct (α : Type) where
  dist : α
  A : α
  B : α
  nomag : Bool
  deriving DecidableEq, Repr

/-- One iteration of the loop of `selectParameters`; the loop state is the pair
`(last_dist, selected_parameters)`. -/
def selectParameters.step {α : Type} [LinearOrderedField α] (distance : α)
    (st : α × param_struct α) (paramit : param_struct α) : α × param_struct α :=
  if paramit.dist < st.1 ∧ paramit.dist ≥ distance then (paramit.dist, paramit) else st

/-- The method `MagnitudeProcessor_ML::selectParameters`. -/
def selectParameters {α : Type} [LinearOrderedField α] (distance : α)
    (paramlist : List (param_struct α)) : param_struct α :=
  let last_dist : α := 1000000
  let selected_parameters : param_struct α := { nomag := true, dist := 0, A := 0, B := 0 }
  (paramlist.foldl (selectParameters.step distance) (last_dist, selected_parameters)).2

/-! ## Magnitude estimator -/

/-- The status codes of `Processing::MagnitudeProcessor::Status` that
`MagnitudeProcessor_ML` returns. -/
inductive MagnitudeStatus where
  | OK
  | DistanceOutOfRange
  | InvalidAmplitudeUnit
  | IncompleteConfiguration
  | Error
  deriving DecidableEq, Repr

/-- The library functions the estimator calls and that live outside this
plugin: `Math::Geo::deg2km`, `sqrt`, `log10` and
`MagnitudeProcessor::convertAmplitude`. The latter updates the amplitude in
place and returns a flag; here it returns the converted amplitude, or `none`
when the flag is false. -/
structure Library (α : Type) where
  deg2km : α → α
  sqrt : α → α
  log10 : α → α
  convertAmplitude : α → String → String → Option α

/-- The data members of class `MagnitudeProcessor_ML`. -/
structure MagnitudeProcessor_ML (α : Type) where
  list_of_parametersets : List (param_struct α)
  selected_parameterset : param_struct α
  deriving DecidableEq, Repr

/-- The method `MagnitudeProcessor_ML::compute_ML_sed`. The argument `mag` is
the content of `*mag` on entry; the result holds the status, the content of
`*mag` on return and the processor after the call. -/
def MagnitudeProcessor_ML.compute_ML_sed {α : Type} [LinearOrderedField α]
    (lib : Library α) (self : MagnitudeProcessor_ML α)
    (amplitude delta depth : α) (mag : α) :
    MagnitudeStatus × α × MagnitudeProcessor_ML α :=
  if self.list_of_parametersets.length = 0 then
    (MagnitudeStatus.IncompleteConfiguration, mag, self)
  else if amplitude ≤ 0 then
    (MagnitudeStatus.Error, 0, self)
  else
    let epdistkm := lib.deg2km delta
    let hypdistkm := lib.sqrt (epdistkm * epdistkm + depth * depth)
    let self := { self with
      selected_parameterset := selectParameters hypdistkm self.list_of_parametersets }
    if self.selected_parameterset.nomag then
      (MagnitudeStatus.DistanceOutOfRange, mag, self)
    else
      (MagnitudeStatus.OK,
        lib.log10 amplitude + self.selected_parameterset.A * hypdistkm
          + self.selected_parameterset.B,
        self)

set_option linter.unusedVariables false in
/-- The method `MagnitudeProcessor_ML::computeMagnitude`. The argument `value`
is the content of the output reference on entry; the result holds the status,
the content of the reference on return and the processor after the call. The
pointer arguments, which the body never reads, are left out. -/
def MagnitudeProcessor_ML.computeMagnitude {α : Type} [LinearOrderedField α]
    (lib : Library α) (self : MagnitudeProcessor_ML α)
    (amplitude : α) (unit : String) (period snr delta depth : α) (value : α) :
    MagnitudeStatus × α × MagnitudeProcessor_ML α :=
  if delta < DELTA_MIN ∨ delta > DELTA_MAX then
    (MagnitudeStatus.DistanceOutOfRange, value, self)
  else
    match lib.convertAmplitude amplitude unit ExpectedAmplitudeUnit with
    | none => (MagnitudeStatus.InvalidAmplitudeUnit, value, self)
    | some amplitude => self.compute_ML_sed lib amplitude delta depth value

/-! ## Dual channel combiner -/

/-- Modelled from the spec: the status type `WaveformProcessor::Status` of
the host library, `{WaitingForData, InProgress, Finished, <ErrorKind>}`,
ordered such that any error variant compares greater than `Finished`. The
error kinds are numbered by `kind`. -/
inductive Status where
  | WaitingForData
  | InProgress
  | Finished
  | Failed (kind : Nat)
  deriving DecidableEq, Repr

/-- The numeric code of a status, which gives the order of the enumeration. -/
def Status.code : Status → Nat
  | Status.WaitingForData => 0
  | Status.InProgress => 1
  | Status.Finished => 100
  | Status.Failed kind => 101 + kind

instance : LT Status := ⟨fun a b => a.code < b.code⟩

instance (a b : Status) : Decidable (a < b) := Nat.decLt a.code b.code

/-- The enumeration `UsedComponent` of the host library. -/
inductive UsedComponent where
  | Vertical
  | FirstHorizontal
  | SecondHorizontal
  | Horizontal
  | Any
  deriving DecidableEq, Repr

/-- The enumeration `AmplitudeProcessor_ML2h::CombinerProc`. -/
inductive CombinerProc where
  | Maximum
  | Average
  | Minimum
  deriving DecidableEq, Repr

/-- The struct `AmplitudeProcessor_ML2h::ComponentResult`. -/
structure ComponentResult (α : Type) where
  value : AmplitudeValue α
  time : AmplitudeTime α
  deriving DecidableEq, Repr

/-- The struct `AmplitudeProcessor::Result` of the host library; `record` is
the record pointer. -/
structure Result (α : Type) where
  record : Nat
  component : UsedComponent
  amplitude : AmplitudeValue α
  time : AmplitudeTime α
  period : α
  snr : α
  deriving DecidableEq, Repr

/-- What the combiner reads and writes of a channel unit
`AmplitudeProcessor_MLh`: its status, status value and used component, and its
member `ClippingThreshold`, which the constructor leaves unset (`none`) and
`setup` sets. -/
structure AmplitudeProcessor_MLh (α : Type) where
  status : Status
  statusValue : α
  usedComponent : UsedComponent
  ClippingThreshold : Option α
  deriving DecidableEq, Repr

/-- The class `AmplitudeProcessor_ML2h`: its own status, the two channel
units, the combiner policy, the two stored results `_results[0]` and
`_results[1]`, and the list of results handed to `emitAmplitude` so far. -/
structure AmplitudeProcessor_ML2h (α : Type) where
  status : Status
  statusValue : α
  _ampE : AmplitudeProcessor_MLh α
  _ampN : AmplitudeProcessor_MLh α
  _combiner : CombinerProc
  _results_0 : Option (ComponentResult α)
  _results_1 : Option (ComponentResult α)
  emitted : List (Result α)
  deriving DecidableEq, Repr

/-- The `proc` argument of `newAmplitude`: the address of `_ampE`, the address
of `_ampN`, or any other processor. -/
inductive Proc where
  | ampE
  | ampN
  | other
  deriving DecidableEq, Repr

/-- Modelled from the spec: `WaveformProcessor::isFinished` of the host
library; a processor is finished once its status is `Finished` or an error,
that is, greater than `InProgress`. -/
def AmplitudeProcessor_ML2h.isFinished {α : Type} (self : AmplitudeProcessor_ML2h α) : Bool :=
  decide (Status.InProgress < self.status)

/-- The library call `setStatus(status, value)`. -/
def AmplitudeProcessor_ML2h.setStatus {α : Type} (self : AmplitudeProcessor_ML2h α)
    (status : Status) (value : α) : AmplitudeProcessor_ML2h α :=
  { self with status := status, statusValue := value }

/-- The library call `emitAmplitude(res)`: the result is published. -/
def AmplitudeProcessor_ML2h.emitAmplitude {α : Type} (self : AmplitudeProcessor_ML2h α)
    (res : Result α) : AmplitudeProcessor_ML2h α :=
  { self with emitted := self.emitted ++ [res] }

/-- The constructor `AmplitudeProcessor_ML2h()`: `_ampN` uses the first and
`_ampE` the second horizontal component, and the combiner is `Maximum`. -/
def AmplitudeProcessor_ML2h.construct {α : Type} [LinearOrderedField α] :
    AmplitudeProcessor_ML2h α :=
  { status := Status.WaitingForData
    statusValue := 0
    _ampE := { status := Status.WaitingForData, statusValue := 0,
               usedComponent := UsedComponent.SecondHorizontal,
               ClippingThreshold := none }
    _ampN := { status := Status.WaitingForData, statusValue := 0,
               usedComponent := UsedComponent.FirstHorizontal,
               ClippingThreshold := none }
    _combiner := CombinerProc.Maximum
    _results_0 := none
    _results_1 := none
    emitted := [] }

/-- The method `AmplitudeProcessor_ML2h::newAmplitude`. The `default` branch
of the switch has no counterpart: `CombinerProc` has exactly three values. -/
def AmplitudeProcessor_ML2h.newAmplitude {α : Type} [LinearOrderedField α]
    (self : AmplitudeProcessor_ML2h α) (proc : Proc) (res : Result α) :
    AmplitudeProcessor_ML2h α :=
  if self.isFinished then self
  else
    let idx : Nat := match proc with
      | Proc.ampE => 0
      | Proc.ampN => 1
      | Proc.other => 0
    let stored : ComponentResult α := { value := res.amplitude, time := res.time }
    let self := if idx = 0 then { self with _results_0 := some stored }
                else { self with _results_1 := some stored }
    match self._results_0, self._results_1 with
    | some r0, some r1 =>
      let self := self.setStatus Status.Finished 100
      let newRes : Result α :=
        match self._combiner with
        | CombinerProc.Average =>
          { record := res.record, component := UsedComponent.Horizontal,
            amplitude := r0.value.average r1.value, time := r0.time.average r1.time,
            period := -1, snr := -1 }
        | CombinerProc.Maximum =>
          if r0.value.value ≥ r1.value.value then
            { record := res.record, component := self._ampE.usedComponent,
              amplitude := r0.value, time := r0.time, period := -1, snr := -1 }
          else
            { record := res.record, component := self._ampN.usedComponent,
              amplitude := r1.value, time := r1.time, period := -1, snr := -1 }
        | CombinerProc.Minimum =>
          if r0.value.value ≤ r1.value.value then
            { record := res.record, component := self._ampE.usedComponent,
              amplitude := r0.value, time := r0.time, period := -1, snr := -1 }
          else
            { record := res.record, component := self._ampN.usedComponent,
              amplitude := r1.value, time := r1.time, period := -1, snr := -1 }
      self.emitAmplitude newRes
    | _, _ => self

/-- Modelled from the spec: `WaveformProcessor::isFinished` of the host
library, for a channel unit. -/
def AmplitudeProcessor_MLh.isFinished {α : Type} (self : AmplitudeProcessor_MLh α) : Bool :=
  decide (Status.InProgress < self.status)

/-- The observable effect of one call into a channel unit (`_ampN.feed`,
`_ampE.feed`, `_ampN.reprocess`, `_ampE.reprocess`), which is library code:
the status and status value the unit has when the call returns, and the
results it hands to its publish function during the call, in order. -/
structure UnitCall (α : Type) where
  status : Status
  statusValue : α
  published : List (Result α)
  deriving DecidableEq, Repr

/-- A call into the unit `_ampN`: the unit takes its new status, and every
result it publishes arrives at `newAmplitude` with `proc == &_ampN`, as bound
in the constructor by `setPublishFunction`. -/
def AmplitudeProcessor_ML2h.call_ampN {α : Type} [LinearOrderedField α]
    (self : AmplitudeProcessor_ML2h α) (call : UnitCall α) : AmplitudeProcessor_ML2h α :=
  call.published.foldl (fun s res => s.newAmplitude Proc.ampN res)
    { self with _ampN := { self._ampN with status := call.status,
                                           statusValue := call.statusValue } }

/-- A call into the unit `_ampE`: the unit takes its new status, and every
result it publishes arrives at `newAmplitude` with `proc == &_ampE`. -/
def AmplitudeProcessor_ML2h.call_ampE {α : Type} [LinearOrderedField α]
    (self : AmplitudeProcessor_ML2h α) (call : UnitCall α) : AmplitudeProcessor_ML2h α :=
  call.published.foldl (fun s res => s.newAmplitude Proc.ampE res)
    { self with _ampE := { self._ampE with status := call.status,
                                           statusValue := call.statusValue } }

/-- The enumeration `Component` of the host library, the index type of
`_streamConfig`. -/
inductive Component where
  | VerticalComponent
  | FirstHorizontalComponent
  | SecondHorizontalComponent
  deriving DecidableEq, Repr

/-- What `feed` reads of a `Record`: its channel code. -/
structure Record where
  channelCode : String
  deriving DecidableEq, Repr

/-- The method `AmplitudeProcessor_ML2h::feed`. The member `_streamConfig`,
which `feed` only reads, is passed as the channel code of each component;
`call` is what the unit does if the record is forwarded to it. The result
holds the returned flag and the combiner after the call. -/
def AmplitudeProcessor_ML2h.feed {α : Type} [LinearOrderedField α]
    (self : AmplitudeProcessor_ML2h α) (_streamConfig : Component → String)
    (record : Record) (call : UnitCall α) : Bool × AmplitudeProcessor_ML2h α :=
  if self._ampE.isFinished && self._ampN.isFinished then (false, self)
  else if Status.Finished < self.status then (false, self)
  else if record.channelCode = _streamConfig Component.FirstHorizontalComponent then
    if !self._ampN.isFinished then
      let self := self.call_ampN call
      if self._ampN.status = Status.InProgress then
        (true, self.setStatus Status.InProgress self._ampN.statusValue)
      else if self._ampN.isFinished && self._ampE.isFinished then
        if !self.isFinished then
          if self._ampE.status = Status.Finished then
            (true, self.setStatus self._ampN.status self._ampN.statusValue)
          else
            (true, self.setStatus self._ampE.status self._ampE.statusValue)
        else (true, self)
      else (true, self)
    else (true, self)
  else if record.channelCode = _streamConfig Component.SecondHorizontalComponent then
    if !self._ampE.isFinished then
      let self := self.call_ampE call
      if self._ampE.status = Status.InProgress then
        (true, self.setStatus Status.InProgress self._ampE.statusValue)
      else if self._ampE.isFinished && self._ampN.isFinished then
        if !self.isFinished then
          if self._ampN.status = Status.Finished then
            (true, self.setStatus self._ampE.status self._ampE.statusValue)
          else
            (true, self.setStatus self._ampN.status self._ampN.statusValue)
        else (true, self)
      else (true, self)
    else (true, self)
  else (true, self)

set_option linter.unusedVariables false in
/-- The method `AmplitudeProcessor_ML2h::reprocess`. The search bounds are only
handed on to the units; `callN` and `callE` are what `_ampN.reprocess` and
`_ampE.reprocess` do. The copies of the configuration into the units concern
members outside this state. -/
def AmplitudeProcessor_ML2h.reprocess {α : Type} [LinearOrderedField α]
    (self : AmplitudeProcessor_ML2h α) (searchBegin searchEnd : Option α)
    (callN callE : UnitCall α) : AmplitudeProcessor_ML2h α :=
  let self := self.setStatus Status.WaitingForData 0
  let self := { self with _results_0 := none, _results_1 := none }
  let self := self.call_ampN callN
  let self := self.call_ampE callE
  if !self.isFinished then
    if Status.Finished < self._ampN.status then
      self.setStatus self._ampN.status self._ampN.statusValue
    else
      self.setStatus self._ampE.status self._ampE.statusValue
  else self

/-- One `feed` call of a run: the record and what the unit it is forwarded to
does with it. -/
structure FeedCall (α : Type) where
  record : Record
  call : UnitCall α
  deriving DecidableEq, Repr

/-- A run: a sequence of `feed` calls on the combiner, without `reset` or
`reprocess` in between. -/
def AmplitudeProcessor_ML2h.feeds {α : Type} [LinearOrderedField α]
    (self : AmplitudeProcessor_ML2h α) (_streamConfig : Component → String)
    (calls : List (FeedCall α)) : AmplitudeProcessor_ML2h α :=
  calls.foldl (fun s c => (s.feed _streamConfig c.record c.call).2) self

/-- A unit call is a completion notification when the unit publishes only on
reaching the status `Finished`. -/
def UnitCall.completion {α : Type} (call : UnitCall α) : Prop :=
  call.published ≠ [] → call.status = Status.Finished

/-- The invariant of a run that started with the emitted results `e0` and no
stored results: a stored result belongs to a unit with the status `Finished`;
a finished combiner has two finished units; as long as a result is missing
nothing has been emitted; and once both are stored the combiner is `Finished`
and has emitted exactly one result. -/
def AmplitudeProcessor_ML2h.RunInvariant {α : Type} (e0 : List (Result α))
    (s : AmplitudeProcessor_ML2h α) : Prop :=
  (s._results_0 ≠ none → s._ampE.status = Status.Finished) ∧
  (s._results_1 ≠ none → s._ampN.status = Status.Finished) ∧
  (s.isFinished = true → s._ampE.isFinished = true ∧ s._ampN.isFinished = true) ∧
  (s._results_0 = none ∨ s._results_1 = none → s.emitted = e0) ∧
  (s._results_0 ≠ none → s._results_1 ≠ none →
    s.status = Status.Finished ∧ ∃ r, s.emitted = e0 ++ [r])

/-- The method `AmplitudeProcessor_ML2h::reset`. Modelled from the spec: the
call `AmplitudeProcessor::reset()` of the base class resets the overall status
to `WaitingForData`. `callE` and `callN` are what `_ampE.reset()` and
`_ampN.reset()` do, in the order of the source. -/
def AmplitudeProcessor_ML2h.reset {α : Type} [LinearOrderedField α]
    (self : AmplitudeProcessor_ML2h α) (callE callN : UnitCall α) :
    AmplitudeProcessor_ML2h α :=
  let self := self.setStatus Status.WaitingForData 0
  let self := { self with _results_0 := none, _results_1 := none }
  let self := self.call_ampE callE
  let self := self.call_ampN callN
  self

/-- A unit call in which the unit publishes exactly when it reaches the status
`Finished`. -/
def UnitCall.exact {α : Type} (call : UnitCall α) : Prop :=
  call.published ≠ [] ↔ call.status = Status.Finished

/-- An event of the life of a combiner after its construction: a `feed` call,
a `reset` or a `reprocess`. -/
inductive Event (α : Type) where
  | feed (record : Record) (call : UnitCall α)
  | reset (callE callN : UnitCall α)
  | reprocess (searchBegin searchEnd : Option α) (callN callE : UnitCall α)

/-- The unit calls of an event publish exactly on reaching `Finished`. -/
def Event.exact {α : Type} : Event α → Prop
  | Event.feed _ call => call.exact
  | Event.reset callE callN => callE.exact ∧ callN.exact
  | Event.reprocess _ _ callN callE => callN.exact ∧ callE.exact

/-- The event is a `reprocess`. -/
def Event.isReprocess {α : Type} : Event α → Bool
  | Event.reprocess _ _ _ _ => true
  | _ => false

/-- The combiner after an event. -/
def AmplitudeProcessor_ML2h.step {α : Type} [LinearOrderedField α]
    (self : AmplitudeProcessor_ML2h α) (_streamConfig : Component → String) :
    Event α → AmplitudeProcessor_ML2h α
  | Event.feed record call => (self.feed _streamConfig record call).2
  | Event.reset callE callN => self.reset callE callN
  | Event.reprocess searchBegin searchEnd callN callE =>
    self.reprocess searchBegin searchEnd callN callE

/-- The combiner after a sequence of events. -/
def AmplitudeProcessor_ML2h.steps {α : Type} [LinearOrderedField α]
    (self : AmplitudeProcessor_ML2h α) (_streamConfig : Component → String)
    (events : List (Event α)) : AmplitudeProcessor_ML2h α :=
  events.foldl (fun s e => s.step _streamConfig e) self

/-- The part of the invariant of a run that every event keeps: a stored result
belongs to a unit with the status `Finished`, and once both results are stored
the combiner has the status `Finished`. -/
def AmplitudeProcessor_ML2h.StoredInvariant {α : Type}
    (s : AmplitudeProcessor_ML2h α) : Prop :=
  (s._results_0 ≠ none → s._ampE.status = Status.Finished) ∧
  (s._results_1 ≠ none → s._ampN.status = Status.Finished) ∧
  (s._results_0 ≠ none → s._results_1 ≠ none → s.status = Status.Finished)

/-- The stored results match the statuses: a unit with the status `Finished`
has its result stored, and a combiner with the status `Finished` has both
results stored. -/
def AmplitudeProcessor_ML2h.ResultsMatchStatus {α : Type}
    (s : AmplitudeProcessor_ML2h α) : Prop :=
  (s._ampE.status = Status.Finished → s._results_0 ≠ none) ∧
  (s._ampN.status = Status.Finished → s._results_1 ≠ none) ∧
  (s.status = Status.Finished → s._results_0 ≠ none ∧ s._results_1 ≠ none)

/-! ## Configuration -/

/-- What `setup` reads of `Processing::Settings`: the lookups `getString` and
`getDouble`, where `none` stands for the exception thrown when the key is not
found. -/
structure Settings (α : Type) where
  getString : String → Option String
  getDouble : String → Option α

/-- Modelled from the spec: the method `fromString` that the library macro
`MAKEENUM` gives `CombinerProc`; the names are those of `ENAMES` in the source,
`"max"`, `"avg"` and `"min"`, and any other string is refused. -/
def CombinerProc.fromString (s : String) : Option CombinerProc :=
  if s = "max" then some CombinerProc.Maximum
  else if s = "avg" then some CombinerProc.Average
  else if s = "min" then some CombinerProc.Minimum
  else none

/-- The end of `AmplitudeProcessor_ML2h::setup`: the clipping threshold is read
from `amplitudes.MLh.ClippingThreshold`, else from the deprecated
`MLh.ClippingThreshold`, else set to 99999999999, stored in `_ampN` and copied
to `_ampE`; then `setup` returns true. -/
def AmplitudeProcessor_ML2h.setup.clipping {α : Type} [LinearOrderedField α]
    (self : AmplitudeProcessor_ML2h α) (settings : Settings α) :
    Bool × AmplitudeProcessor_ML2h α :=
  let threshold : α :=
    match settings.getDouble "amplitudes.MLh.ClippingThreshold" with
    | some x => x
    | none =>
      match settings.getDouble "MLh.ClippingThreshold" with
      | some x => x
      | none => 99999999999.0
  let self := { self with _ampN := { self._ampN with ClippingThreshold := some threshold } }
  let self := { self with
    _ampE := { self._ampE with ClippingThreshold := self._ampN.ClippingThreshold } }
  (true, self)

/-- The method `AmplitudeProcessor_ML2h::setup`. The flags `baseSetup`,
`ampNSetup` and `ampESetup` are what the library calls
`Processing::AmplitudeProcessor::setup`, `_ampN.setup` and `_ampE.setup`
return; the copies of the type and of the stream configurations into the units
concern members outside this state. The policy is read from
`amplitudes.MLh.maxavg`, else from the deprecated `MLh.maxavg`. -/
def AmplitudeProcessor_ML2h.setup {α : Type} [LinearOrderedField α]
    (self : AmplitudeProcessor_ML2h α) (settings : Settings α)
    (baseSetup ampNSetup ampESetup : Bool) : Bool × AmplitudeProcessor_ML2h α :=
  if !baseSetup then (false, self)
  else if !ampNSetup || !ampESetup then (false, self)
  else
    match settings.getString "amplitudes.MLh.maxavg" with
    | some s =>
      match CombinerProc.fromString s with
      | none => (false, self)
      | some c => AmplitudeProcessor_ML2h.setup.clipping { self with _combiner := c } settings
    | none =>
      match settings.getString "MLh.maxavg" with
      | some s =>
        match CombinerProc.fromString s with
        | none => (false, self)
        | some c => AmplitudeProcessor_ML2h.setup.clipping { self with _combiner := c } settings
      | none => AmplitudeProcessor_ML2h.setup.clipping self settings

/-! ## Parsing of the calibration table -/

/-- The C function `isspace` in the default locale: space, and the characters
9 to 13 (tab, line feed, vertical tab, form feed, carriage return). -/
def isspace (c : Char) : Bool :=
  c.toNat = 32 || (9 ≤ c.toNat && c.toNat ≤ 13)

/-- A `std::istringstream`: the characters not yet read and the fail bit. -/
structure istringstream where
  buf : List Char
  fail : Bool
  deriving DecidableEq, Repr

/-- The extraction `stream >> str` of a `std::string`: on a failed stream
nothing happens; otherwise leading white space is skipped, and if the end is
reached the stream fails and `str` keeps its content; otherwise `str` is
replaced by the characters up to the next white space. The result holds the
stream and `str` after the extraction. -/
def istringstream.extract (self : istringstream) (str : List Char) :
    istringstream × List Char :=
  if self.fail then (self, str)
  else
    match self.buf.dropWhile isspace with
    | [] => ({ buf := [], fail := true }, str)
    | c :: rest =>
      ({ buf := (c :: rest).dropWhile (fun x => !isspace x), fail := false },
        (c :: rest).takeWhile (fun x => !isspace x))

/-- The strings that the successive calls `getline(iss_params, paramset, ';')`
deliver until one fails: the pieces between the semicolons; a call fails when
no character is left, so that nothing follows a final semicolon. -/
def getlines : List Char → List (List Char)
  | [] => []
  | c :: cs =>
    if c = ';' then [] :: getlines cs
    else
      match getlines cs with
      | [] => [[c]]
      | l :: ls => (c :: l) :: ls

/-- The loop of `initParameters` over the parameter sets still to come.
`range_str`, `A_str` and `B_str` are the strings declared before the loop,
which keep their content from one parameter set to the next; `fromString` is
the library function `Core::fromString` for a number. The result holds the
returned flag and `paramlist` after the call. -/
def initParameters.loop {α : Type} [LinearOrderedField α] (fromString : String → Option α) :
    List (List Char) → List Char → List Char → List Char → List (param_struct α) →
      Bool × List (param_struct α)
  | [], _, _, _, paramlist => (true, paramlist)
  | paramset :: rest, range_str, A_str, B_str, paramlist =>
    let iss_paramset : istringstream := { buf := paramset, fail := false }
    let r1 := iss_paramset.extract range_str
    let r2 := r1.1.extract A_str
    match fromString (String.mk r1.2) with
    | none => (false, paramlist)
    | some dist =>
      if String.mk r2.2 = "nomag" then
        initParameters.loop fromString rest r1.2 r2.2 B_str
          (paramlist ++ [{ dist := dist, A := 0, B := 0, nomag := true }])
      else
        match fromString (String.mk r2.2) with
        | none => (false, paramlist)
        | some A =>
          let r3 := r2.1.extract B_str
          match fromString (String.mk r3.2) with
          | none => (false, paramlist)
          | some B =>
            initParameters.loop fromString rest r1.2 r2.2 r3.2
              (paramlist ++ [{ dist := dist, A := A, B := B, nomag := false }])

/-- The method `MagnitudeProcessor_ML::initParameters`. The result holds the
returned flag and `paramlist` after the call. -/
def initParameters {α : Type} [LinearOrderedField α] (fromString : String → Option α)
    (paramlist : List (param_struct α)) (params : String) :
    Bool × List (param_struct α) :=
  initParameters.loop fromString (getlines params.data) [] [] [] paramlist

/-- The method `MagnitudeProcessor_ML::setup`: the list is cleared and filled
from `magnitudes.MLh.params`, else from the deprecated `MLh.params`; with
neither key the list stays empty and `setup` returns true. The call of the
base class `setup`, whose result is not used, and the advisory on the maximum
depth concern members outside this state. -/
def MagnitudeProcessor_ML.setup {α : Type} [LinearOrderedField α]
    (fromString : String → Option α)
    (self : MagnitudeProcessor_ML α) (settings : Settings α) :
    Bool × MagnitudeProcessor_ML α :=
  let self := { self with list_of_parametersets := [] }
  match settings.getString "magnitudes.MLh.params" with
  | some params =>
    let r := initParameters fromString self.list_of_parametersets params
    if !r.1 then (false, { self with list_of_parametersets := r.2 })
    else (true, { self with list_of_parametersets := r.2 })
  | none =>
    match settings.getString "MLh.params" with
    | some params =>
      let r := initParameters fromString self.list_of_parametersets params
      if !r.1 then (false, { self with list_of_parametersets := r.2 })
      else (true, { self with list_of_parametersets := r.2 })
    | none => (true, self)

/-- A token of a written entry: not empty, without white space and without a
semicolon. -/
def isToken (t : List Char) : Prop :=
  t ≠ [] ∧ ∀ c ∈ t, isspace c = false ∧ c ≠ ';'

/-- An entry as the configuration string writes it: either
`<bound> <A> <B>` or `<bound> nomag`. -/
inductive WrittenEntry where
  | coefficients (bound A B : List Char)
  | nomag (bound : List Char)
  deriving DecidableEq, Repr

/-- The text of a written entry, its tokens separated by one space. -/
def WrittenEntry.text : WrittenEntry → List Char
  | WrittenEntry.coefficients bound A B => bound ++ Char.ofNat 32 :: (A ++ Char.ofNat 32 :: B)
  | WrittenEntry.nomag bound => bound ++ Char.ofNat 32 :: ['n', 'o', 'm', 'a', 'g']

/-- A written entry is well formed, with the table entry `v` as its meaning,
when its tokens are tokens, its numbers parse to the fields of `v`, the token
`A` of the three-token form is not `nomag`, and `v` has `nomag = false` for the
three-token form and `A = 0`, `B = 0`, `nomag = true` for the `nomag` form. -/
def WrittenEntry.wellFormed {α : Type} [LinearOrderedField α]
    (fromString : String → Option α) (e : WrittenEntry) (v : param_struct α) : Prop :=
  match e with
  | WrittenEntry.coefficients bound A B =>
    isToken bound ∧ isToken A ∧ isToken B ∧ String.mk A ≠ "nomag" ∧
      fromString (String.mk bound) = some v.dist ∧ fromString (String.mk A) = some v.A ∧
      fromString (String.mk B) = some v.B ∧ v.nomag = false
  | WrittenEntry.nomag bound =>
    isToken bound ∧ fromString (String.mk bound) = some v.dist ∧
      v.A = 0 ∧ v.B = 0 ∧ v.nomag = true

/-- The texts joined by semicolons. -/
def joinEntries : List (List Char) → List Char
  | [] => []
  | t :: ts =>
    match ts with
    | [] => t
    | _ :: _ => t ++ ';' :: joinEntries ts

/-! ## Theorems: calibration lookup -/

/-- Loop invariant of `selectParameters`: after the scan either nothing was
selected and no scanned entry qualified, or the selected entry is a scanned
entry below the initial `last_dist`, at or above the distance, and no scanned
entry at or above the distance is smaller. -/
theorem selectParameters.foldl_spec {α : Type} [LinearOrderedField α] (distance : α)
    (l : List (param_struct α)) (st : α × param_struct α) :
    (l.foldl (selectParameters.step distance) st = st ∧
        ∀ p ∈ l, ¬ (p.dist < st.1 ∧ distance ≤ p.dist)) ∨
      ((l.foldl (selectParameters.step distance) st).2 ∈ l ∧
        (l.foldl (selectParameters.step distance) st).1
          = (l.foldl (selectParameters.step distance) st).2.dist ∧
        (l.foldl (selectParameters.step distance) st).2.dist < st.1 ∧
        distance ≤ (l.foldl (selectParameters.step distance) st).2.dist ∧
        ∀ p ∈ l, distance ≤ p.dist →
          (l.foldl (selectParameters.step distance) st).2.dist ≤ p.dist) := by
  induction l generalizing st with
  | nil => left; simp
  | cons p ps ih =>
    rw [List.foldl_cons]
    by_cases hc : p.dist < st.1 ∧ distance ≤ p.dist
    · have hstep : selectParameters.step distance st p = (p.dist, p) := by
        simp [selectParameters.step, hc.1, hc.2]
      rw [hstep]
      right
      rcases ih (p.dist, p) with ⟨heq, hnone⟩ | ⟨hmem, hfst, hlt, hge, hmin⟩
      · rw [heq]
        refine ⟨List.mem_cons_self _ _, rfl, hc.1, hc.2, ?_⟩
        intro q hq hqd
        rcases List.mem_cons.1 hq with rfl | hq
        · exact le_rfl
        · have := hnone q hq
          simp only [not_and] at this
          by_contra hcon
          exact this (lt_of_not_le hcon) hqd
      · refine ⟨List.mem_cons_of_mem _ hmem, hfst, lt_trans hlt hc.1, hge, ?_⟩
        intro q hq hqd
        rcases List.mem_cons.1 hq with rfl | hq
        · exact le_of_lt hlt
        · exact hmin q hq hqd
    · have hstep : selectParameters.step distance st p = st := by
        unfold selectParameters.step
        rw [if_neg]
        simpa using hc
      rw [hstep]
      rcases ih st with ⟨heq, hnone⟩ | ⟨hmem, hfst, hlt, hge, hmin⟩
      · left
        refine ⟨heq, ?_⟩
        intro q hq
        rcases List.mem_cons.1 hq with rfl | hq
        · exact hc
        · exact hnone q hq
      · right
        refine ⟨List.mem_cons_of_mem _ hmem, hfst, hlt, hge, ?_⟩
        intro q hq hqd
        rcases List.mem_cons.1 hq with rfl | hq
        · have h1 : ¬ q.dist < st.1 := fun h => hc ⟨h, hqd⟩
          exact le_trans (le_of_lt hlt) (not_lt.1 h1)
        · exact hmin q hq hqd

/-- C1 (as stated, refuted): the table with the single entry of bound 2000000
has an entry at or above the distance 0, yet the lookup returns the synthetic
default entry, which is not an entry of the table. -/
theorem selectParameters_large_bound_counterexample :
    (∃ e ∈ [(⟨2000000, 1, 1, false⟩ : param_struct ℚ)], e.dist ≥ 0) ∧
      selectParameters (0 : ℚ) [⟨2000000, 1, 1, false⟩] = ⟨0, 0, 0, true⟩ ∧
      selectParameters (0 : ℚ) [⟨2000000, 1, 1, false⟩]
        ∉ [(⟨2000000, 1, 1, false⟩ : param_struct ℚ)] := by
  refine ⟨⟨_, List.mem_singleton_self _, by norm_num⟩, ?_, ?_⟩ <;>
    norm_num [selectParameters, selectParameters.step]

/-- C1 (amended): if at least one entry has a bound at or above the distance
and below the initial `last_dist` of 1000000, the lookup returns an entry of
the table whose bound is at or above the distance and is the smallest among
all entries with a bound at or above the distance. -/
theorem selectParameters_tightest {α : Type} [LinearOrderedField α] (distance : α)
    (paramlist : List (param_struct α))
    (h : ∃ e ∈ paramlist, e.dist ≥ distance ∧ e.dist < 1000000) :
    selectParameters distance paramlist ∈ paramlist ∧
      (selectParameters distance paramlist).dist ≥ distance ∧
      ∀ e ∈ paramlist, e.dist ≥ distance →
        (selectParameters distance paramlist).dist ≤ e.dist := by
  obtain ⟨e, he, hed, helt⟩ := h
  rcases selectParameters.foldl_spec distance paramlist
      (1000000, { nomag := true, dist := 0, A := 0, B := 0 }) with
    ⟨_, hnone⟩ | ⟨hmem, _, _, hge, hmin⟩
  · exact absurd ⟨helt, hed⟩ (hnone e he)
  · exact ⟨hmem, hge, hmin⟩

/-- Witness for C1 (amended) on the table `{60, 700}` at distance 600. -/
theorem selectParameters_tightest_witness :
    selectParameters (600 : ℚ) [⟨60, 1, 2, false⟩, ⟨700, 3, 4, false⟩]
        ∈ [(⟨60, 1, 2, false⟩ : param_struct ℚ), ⟨700, 3, 4, false⟩] ∧
      (selectParameters (600 : ℚ) [⟨60, 1, 2, false⟩, ⟨700, 3, 4, false⟩]).dist ≥ 600 ∧
      ∀ e ∈ [(⟨60, 1, 2, false⟩ : param_struct ℚ), ⟨700, 3, 4, false⟩], e.dist ≥ 600 →
        (selectParameters (600 : ℚ) [⟨60, 1, 2, false⟩, ⟨700, 3, 4, false⟩]).dist ≤ e.dist :=
  selectParameters_tightest 600 [⟨60, 1, 2, false⟩, ⟨700, 3, 4, false⟩]
    ⟨⟨700, 3, 4, false⟩, by simp, by norm_num, by norm_num⟩

/-! ## Theorems: averaging of amplitude values -/

/-- The literal `0.5` is one half. -/
theorem half_eq {α : Type} [LinearOrderedField α] : (0.5 : α) = 1 / 2 := by
  norm_num

/-- The averaged value is the arithmetic mean of the two values. -/
theorem average_value_eq {α : Type} [LinearOrderedField α] (v0 v1 : AmplitudeValue α) :
    (v0.average v1).value = (v0.value + v1.value) / 2 := by
  have hm : (v0.value + v1.value) * (0.5 : α) = (v0.value + v1.value) / 2 := by
    rw [half_eq]; ring
  simp only [AmplitudeValue.average, hm]

/-- The lower uncertainty computed by `average`, with a missing uncertainty
counted as 0. -/
theorem average_lower_eq {α : Type} [LinearOrderedField α] (v0 v1 : AmplitudeValue α) :
    (v0.average v1).lowerUncertainty =
      some (max 0
        (max
          (max ((v0.value + v1.value) / 2 - (v0.value - v0.lowerUncertainty.getD 0))
               ((v0.value + v1.value) / 2 - (v0.value + v0.upperUncertainty.getD 0)))
          (max ((v0.value + v1.value) / 2 - (v1.value - v1.lowerUncertainty.getD 0))
               ((v0.value + v1.value) / 2 - (v1.value + v1.upperUncertainty.getD 0))))) := by
  obtain ⟨a, l0, u0⟩ := v0
  obtain ⟨b, l1, u1⟩ := v1
  have hm : (a + b) * (0.5 : α) = (a + b) / 2 := by rw [half_eq]; ring
  cases l0 <;> cases u0 <;> cases l1 <;> cases u1 <;>
    simp only [AmplitudeValue.average, hm, Option.getD_none, Option.getD_some, sub_zero,
      add_zero, max_assoc]

/-- The upper uncertainty computed by `average`: every assignment to `u`
starts again from `l`, so only the last one counts, and the result is the
maximum of the lower uncertainty and of the upper bound of `v1` minus the mean. -/
theorem average_upper_eq {α : Type} [LinearOrderedField α] (v0 v1 : AmplitudeValue α) :
    (v0.average v1).upperUncertainty =
      some (max ((v0.average v1).lowerUncertainty.getD 0)
        (v1.value + v1.upperUncertainty.getD 0 - (v0.value + v1.value) / 2)) := by
  obtain ⟨a, l0, u0⟩ := v0
  obtain ⟨b, l1, u1⟩ := v1
  have hm : (a + b) * (0.5 : α) = (a + b) / 2 := by rw [half_eq]; ring
  cases l0 <;> cases u0 <;> cases l1 <;> cases u1 <;>
    simp only [AmplitudeValue.average, hm, Option.getD_none, Option.getD_some, sub_zero,
      add_zero]

/-- C5: for all inputs, with a missing uncertainty counted as 0, the averaged
value is `(v0.value + v1.value) / 2` and the lower uncertainty is the maximum of
0 and of `mean - b` over the four bounds `b` (lower and upper bound of each
input). -/
theorem average_value_and_lower {α : Type} [LinearOrderedField α]
    (v0 v1 : AmplitudeValue α) :
    (v0.average v1).value = (v0.value + v1.value) / 2 ∧
      (v0.average v1).lowerUncertainty =
        some (max 0
          (max
            (max ((v0.value + v1.value) / 2 - (v0.value - v0.lowerUncertainty.getD 0))
                 ((v0.value + v1.value) / 2 - (v0.value + v0.upperUncertainty.getD 0)))
            (max ((v0.value + v1.value) / 2 - (v1.value - v1.lowerUncertainty.getD 0))
                 ((v0.value + v1.value) / 2 - (v1.value + v1.upperUncertainty.getD 0))))) :=
  ⟨average_value_eq v0 v1, average_lower_eq v0 v1⟩

/-- C6 (code at the failing input): for `v0 = 10` with upper uncertainty 5 and
`v1 = 10` without uncertainties the mean is 10 and the largest `b - mean` over
the four bounds is 5, but `average` returns the upper uncertainty 0. -/
theorem average_upper_failing_input :
    (AmplitudeValue.average (α := ℚ) ⟨10, none, some 5⟩ ⟨10, none, none⟩).upperUncertainty
        = some 0 ∧
      max (0 : ℚ) (max (max ((10 - 0) - (10 + 10) / 2) ((10 + 5) - (10 + 10) / 2))
        (max ((10 - 0) - (10 + 10) / 2) ((10 + 0) - (10 + 10) / 2))) = 5 := by
  constructor <;> norm_num [AmplitudeValue.average]

/-- C7 (code at the failing input): for `v0 = 10 -1/+5` and `v1 = 12 -1/+1`
the result is `11 -2/+2`; its lower end 9 reaches the smallest lower bound 9,
but its upper end 13 stays below the largest upper bound 15. -/
theorem average_encloses_failing_input :
    AmplitudeValue.average (α := ℚ) ⟨10, some 1, some 5⟩ ⟨12, some 1, some 1⟩
        = ⟨11, some 2, some 2⟩ ∧
      (11 : ℚ) - 2 ≤ min (10 - 1) (12 - 1) ∧
      (11 : ℚ) + 2 < max (10 + 5) (12 + 1) := by
  refine ⟨?_, ?_, ?_⟩ <;> norm_num [AmplitudeValue.average]

/-- The lower half of the enclosure: for all inputs the lower end of the
result is at or below the lower bounds of both inputs. -/
theorem average_encloses_lower {α : Type} [LinearOrderedField α] (v0 v1 : AmplitudeValue α) :
    (v0.average v1).value - (v0.average v1).lowerUncertainty.getD 0
      ≤ min (v0.value - v0.lowerUncertainty.getD 0) (v1.value - v1.lowerUncertainty.getD 0) := by
  rw [average_lower_eq, average_value_eq, Option.getD_some, le_min_iff]
  constructor
  · have h := le_trans (le_trans (le_max_left _ _) (le_max_left _ _))
      (le_max_right (0 : α)
        (max
          (max ((v0.value + v1.value) / 2 - (v0.value - v0.lowerUncertainty.getD 0))
               ((v0.value + v1.value) / 2 - (v0.value + v0.upperUncertainty.getD 0)))
          (max ((v0.value + v1.value) / 2 - (v1.value - v1.lowerUncertainty.getD 0))
               ((v0.value + v1.value) / 2 - (v1.value + v1.upperUncertainty.getD 0)))))
    linarith
  · have h := le_trans (le_trans (le_max_left _ _) (le_max_right _ _))
      (le_max_right (0 : α)
        (max
          (max ((v0.value + v1.value) / 2 - (v0.value - v0.lowerUncertainty.getD 0))
               ((v0.value + v1.value) / 2 - (v0.value + v0.upperUncertainty.getD 0)))
          (max ((v0.value + v1.value) / 2 - (v1.value - v1.lowerUncertainty.getD 0))
               ((v0.value + v1.value) / 2 - (v1.value + v1.upperUncertainty.getD 0)))))
    linarith

/-- C8 (as stated, refuted): for `v0 = 10 ± 1` and `v1 = 14 ± 2` the mean is
12 and the lower uncertainty is 3, not `max(1, 2) + |10 - 14| / 2 = 4`. -/
theorem average_symmetric_counterexample :
    (AmplitudeValue.average (α := ℚ) ⟨10, some 1, some 1⟩ ⟨14, some 2, some 2⟩).value = 12 ∧
      (AmplitudeValue.average (α := ℚ) ⟨10, some 1, some 1⟩ ⟨14, some 2, some 2⟩).lowerUncertainty
        = some 3 ∧
      (AmplitudeValue.average (α := ℚ) ⟨10, some 1, some 1⟩ ⟨14, some 2, some 2⟩).lowerUncertainty
        ≠ some (max 1 2 + |10 - 14| / 2) := by
  refine ⟨?_, ?_, ?_⟩ <;> norm_num [AmplitudeValue.average]

/-- C8 (amended): for symmetric inputs `v0 ± u0` and `v1 ± u1` with
`u0, u1 ≥ 0` the result value is the mean and the lower uncertainty is
`max(u0 + (v1 - v0) / 2, u1 + (v0 - v1) / 2)`, which is at most
`max(u0, u1) + |v0 - v1| / 2`. -/
theorem average_symmetric_lower {α : Type} [LinearOrderedField α] (v0 v1 u0 u1 : α)
    (h0 : 0 ≤ u0) (h1 : 0 ≤ u1) :
    (AmplitudeValue.average ⟨v0, some u0, some u0⟩ ⟨v1, some u1, some u1⟩).value
        = (v0 + v1) / 2 ∧
      (AmplitudeValue.average ⟨v0, some u0, some u0⟩ ⟨v1, some u1, some u1⟩).lowerUncertainty
        = some (max (u0 + (v1 - v0) / 2) (u1 + (v0 - v1) / 2)) ∧
      max (u0 + (v1 - v0) / 2) (u1 + (v0 - v1) / 2) ≤ max u0 u1 + |v0 - v1| / 2 := by
  refine ⟨average_value_eq _ _, ?_, ?_⟩
  · rw [average_lower_eq]
    simp only [Option.getD_some, Option.some.injEq]
    apply le_antisymm
    · refine max_le ?_ (max_le (max_le ?_ ?_) (max_le ?_ ?_))
      · rcases le_total v0 v1 with h | h
        · exact le_trans (by linarith) (le_max_left _ _)
        · exact le_trans (by linarith) (le_max_right _ _)
      · exact le_trans (by linarith) (le_max_left _ _)
      · exact le_trans (by linarith) (le_max_left _ _)
      · exact le_trans (by linarith) (le_max_right _ _)
      · exact le_trans (by linarith) (le_max_right _ _)
    · refine max_le ?_ ?_
      · exact le_trans (le_trans (le_trans (by linarith) (le_max_left _ _)) (le_max_left _ _))
          (le_max_right _ _)
      · exact le_trans (le_trans (le_trans (by linarith) (le_max_left _ _)) (le_max_right _ _))
          (le_max_right _ _)
  · refine max_le ?_ ?_
    · have := le_max_left u0 u1
      have := le_abs_self (v0 - v1)
      have := neg_abs_le (v0 - v1)
      linarith
    · have := le_max_right u0 u1
      have := le_abs_self (v0 - v1)
      linarith

/-- Witness for C8 (amended): `10 ± 1` and `14 ± 2` give mean 12 and lower
uncertainty `max(1 + 2, 2 - 2) = 3`. -/
theorem average_symmetric_lower_witness :
    (AmplitudeValue.average (α := ℚ) ⟨10, some 1, some 1⟩ ⟨14, some 2, some 2⟩).value
        = (10 + 14) / 2 ∧
      (AmplitudeValue.average (α := ℚ) ⟨10, some 1, some 1⟩ ⟨14, some 2, some 2⟩).lowerUncertainty
        = some (max (1 + (14 - 10) / 2) (2 + (10 - 14) / 2)) ∧
      max ((1 : ℚ) + (14 - 10) / 2) (2 + (10 - 14) / 2) ≤ max 1 2 + |10 - 14| / 2 :=
  average_symmetric_lower 10 14 1 2 (by norm_num) (by norm_num)

/-! ## Theorems: averaging of amplitude times -/

/-- C9: the averaged reference is the midpoint of the two references, the
result has `begin ≤ 0 ≤ end`, the window `[reference + begin, reference + end]`
contains the four absolute timestamps `t0.reference + t0.begin`,
`t0.reference + t0.end`, `t1.reference + t1.begin`, `t1.reference + t1.end`,
and `begin` and `end` are the minimum and the maximum of those four and the new
reference, taken relative to the new reference. -/
theorem average_time_window {α : Type} [LinearOrderedField α] (t0 t1 : AmplitudeTime α) :
    (t0.average t1).reference = (t0.reference + t1.reference) / 2 ∧
      (t0.average t1).begin ≤ 0 ∧ 0 ≤ (t0.average t1).end_ ∧
      (∀ x ∈ [t0.reference + t0.begin, t0.reference + t0.end_,
              t1.reference + t1.begin, t1.reference + t1.end_],
        (t0.average t1).reference + (t0.average t1).begin ≤ x ∧
          x ≤ (t0.average t1).reference + (t0.average t1).end_) ∧
      (t0.average t1).begin =
        min ((t0.reference + t1.reference) / 2)
            (min (min (t0.reference + t0.begin) (t0.reference + t0.end_))
                 (min (t1.reference + t1.begin) (t1.reference + t1.end_)))
          - (t0.reference + t1.reference) / 2 ∧
      (t0.average t1).end_ =
        max ((t0.reference + t1.reference) / 2)
            (max (max (t0.reference + t0.begin) (t0.reference + t0.end_))
                 (max (t1.reference + t1.begin) (t1.reference + t1.end_)))
          - (t0.reference + t1.reference) / 2 := by
  have hm : (t0.reference + t1.reference) * (0.5 : α) = (t0.reference + t1.reference) / 2 := by
    rw [half_eq]; ring
  simp only [AmplitudeTime.average, hm, List.mem_cons, List.mem_singleton, List.not_mem_nil,
    or_false, forall_eq_or_imp, forall_eq, add_sub_cancel, sub_nonpos, sub_nonneg,
    min_le_iff, le_max_iff, le_refl, true_or, or_true, and_self, true_and, min_assoc, max_assoc]

/-! ## Theorems: magnitude estimator -/

/-- The status returned by `compute_ML_sed` is `OK` exactly when the table is
not empty, the amplitude is positive and the looked-up entry gives a
magnitude. -/
theorem compute_ML_sed_ok_iff {α : Type} [LinearOrderedField α] (lib : Library α)
    (self : MagnitudeProcessor_ML α) (amplitude delta depth mag : α) :
    (self.compute_ML_sed lib amplitude delta depth mag).1 = MagnitudeStatus.OK ↔
      self.list_of_parametersets ≠ [] ∧ 0 < amplitude ∧
        (selectParameters (lib.sqrt (lib.deg2km delta ^ 2 + depth ^ 2))
          self.list_of_parametersets).nomag = false := by
  unfold MagnitudeProcessor_ML.compute_ML_sed
  simp only [← sq]
  by_cases h1 : self.list_of_parametersets.length = 0
  · simp [h1, List.length_eq_zero.1 h1]
  · have h1n : self.list_of_parametersets ≠ [] := fun h => h1 (by simp [h])
    by_cases h2 : amplitude ≤ 0
    · simp [h1, h2, not_lt.2 h2]
    · by_cases h3 : (selectParameters (lib.sqrt (lib.deg2km delta ^ 2 + depth ^ 2))
          self.list_of_parametersets).nomag = true
      · simp [h1, h2, h3]
      · simp [h1, h2, h3, h1n, not_le.1 h2]

/-- The value written by `compute_ML_sed` when it returns `OK`. -/
theorem compute_ML_sed_ok_value {α : Type} [LinearOrderedField α] (lib : Library α)
    (self : MagnitudeProcessor_ML α) (amplitude delta depth mag : α)
    (h : (self.compute_ML_sed lib amplitude delta depth mag).1 = MagnitudeStatus.OK) :
    (self.compute_ML_sed lib amplitude delta depth mag).2.1 =
      lib.log10 amplitude
        + (selectParameters (lib.sqrt (lib.deg2km delta ^ 2 + depth ^ 2))
            self.list_of_parametersets).A * lib.sqrt (lib.deg2km delta ^ 2 + depth ^ 2)
        + (selectParameters (lib.sqrt (lib.deg2km delta ^ 2 + depth ^ 2))
            self.list_of_parametersets).B := by
  unfold MagnitudeProcessor_ML.compute_ML_sed at h ⊢
  simp only [← sq] at h ⊢
  by_cases h1 : self.list_of_parametersets.length = 0
  · simp [h1] at h
  · by_cases h2 : amplitude ≤ 0
    · simp [h1, h2] at h
    · by_cases h3 : (selectParameters (lib.sqrt (lib.deg2km delta ^ 2 + depth ^ 2))
          self.list_of_parametersets).nomag = true
      · simp [h1, h2, h3] at h
      · simp [h1, h2, h3]

/-- C2: the status of `computeMagnitude` is `OK` if and only if
`0 ≤ delta ≤ 20`, the amplitude converts to millimetres, the table is not
empty, the converted amplitude is positive and the lookup at the hypocentral
distance `sqrt(deg2km(delta)^2 + depth^2)` returns an entry with
`nomag = false`; and whenever the status is `OK` the output value is
`log10(amplitude) + A * hypocentral + B` for the converted amplitude and the
`A` and `B` of that entry. -/
theorem computeMagnitude_ok {α : Type} [LinearOrderedField α] (lib : Library α)
    (self : MagnitudeProcessor_ML α) (amplitude : α) (unit : String)
    (period snr delta depth value : α) :
    ((self.computeMagnitude lib amplitude unit period snr delta depth value).1
        = MagnitudeStatus.OK ↔
      0 ≤ delta ∧ delta ≤ 20 ∧
        ∃ amplitudeMm, lib.convertAmplitude amplitude unit "mm" = some amplitudeMm ∧
          self.list_of_parametersets ≠ [] ∧ 0 < amplitudeMm ∧
          (selectParameters (lib.sqrt (lib.deg2km delta ^ 2 + depth ^ 2))
            self.list_of_parametersets).nomag = false) ∧
    ((self.computeMagnitude lib amplitude unit period snr delta depth value).1
        = MagnitudeStatus.OK →
      ∃ amplitudeMm, lib.convertAmplitude amplitude unit "mm" = some amplitudeMm ∧
        (self.computeMagnitude lib amplitude unit period snr delta depth value).2.1 =
          lib.log10 amplitudeMm
            + (selectParameters (lib.sqrt (lib.deg2km delta ^ 2 + depth ^ 2))
                self.list_of_parametersets).A * lib.sqrt (lib.deg2km delta ^ 2 + depth ^ 2)
            + (selectParameters (lib.sqrt (lib.deg2km delta ^ 2 + depth ^ 2))
                self.list_of_parametersets).B) := by
  unfold MagnitudeProcessor_ML.computeMagnitude
  simp only [DELTA_MIN, DELTA_MAX, ExpectedAmplitudeUnit]
  by_cases hd : delta < 0 ∨ delta > 20
  · rw [if_pos hd]
    refine ⟨⟨fun h => by simp at h, fun h => ?_⟩, fun h => by simp at h⟩
    rcases hd with hd | hd
    · exact absurd h.1 (not_le.2 hd)
    · exact absurd h.2.1 (not_le.2 hd)
  · rw [if_neg hd]
    have hd0 : 0 ≤ delta := not_lt.1 (fun h => hd (Or.inl h))
    have hd20 : delta ≤ 20 := not_lt.1 (fun h => hd (Or.inr h))
    cases hconv : lib.convertAmplitude amplitude unit "mm" with
    | none => simp
    | some amm =>
      simp only [Option.some.injEq, exists_eq_left']
      refine ⟨?_, fun h => compute_ML_sed_ok_value lib self amm delta depth value h⟩
      rw [compute_ML_sed_ok_iff]
      simp [hd0, hd20]

/-- Witness for C2 over the real numbers, with `deg2km` a multiplication by
111.195, the real square root and the real logarithm to base 10: amplitude
1 mm at 5 degrees and 10 km depth, on the table `{60, 700}`, gives `OK` with
the coefficients of the entry 700. -/
theorem computeMagnitude_ok_witness :
    (MagnitudeProcessor_ML.computeMagnitude (α := ℝ)
        ⟨fun d => d * 111.195, Real.sqrt, Real.logb 10,
          fun a u _ => if u = "mm" then some a else none⟩
        ⟨[⟨60, 0.018, 2.17, false⟩, ⟨700, 0.0038, 3.02, false⟩], ⟨0, 0, 0, true⟩⟩
        1 "mm" 0 0 5 10 0).1 = MagnitudeStatus.OK ∧
      (MagnitudeProcessor_ML.computeMagnitude (α := ℝ)
        ⟨fun d => d * 111.195, Real.sqrt, Real.logb 10,
          fun a u _ => if u = "mm" then some a else none⟩
        ⟨[⟨60, 0.018, 2.17, false⟩, ⟨700, 0.0038, 3.02, false⟩], ⟨0, 0, 0, true⟩⟩
        1 "mm" 0 0 5 10 0).2.1
        = 0.0038 * Real.sqrt ((5 * 111.195) ^ 2 + 10 ^ 2) + 3.02 := by
  have h60 : (60 : ℝ) < Real.sqrt ((5 * 111.195) ^ 2 + 10 ^ 2) := by
    rw [Real.lt_sqrt (by norm_num)]; norm_num
  have h700 : Real.sqrt ((5 * 111.195) ^ 2 + 10 ^ 2) ≤ (700 : ℝ) := by
    rw [Real.sqrt_le_left (by norm_num)]; norm_num
  have hsel : selectParameters (Real.sqrt ((5 * 111.195) ^ 2 + 10 ^ 2))
      [(⟨60, 0.018, 2.17, false⟩ : param_struct ℝ), ⟨700, 0.0038, 3.02, false⟩]
      = ⟨700, 0.0038, 3.02, false⟩ := by
    have h1 : (700 : ℝ) < 1000000 := by norm_num
    simp [selectParameters, selectParameters.step, not_le.2 h60, h700, h1]
  have hthm := computeMagnitude_ok (α := ℝ)
    ⟨fun d => d * 111.195, Real.sqrt, Real.logb 10,
      fun a u _ => if u = "mm" then some a else none⟩
    ⟨[⟨60, 0.018, 2.17, false⟩, ⟨700, 0.0038, 3.02, false⟩], ⟨0, 0, 0, true⟩⟩
    1 "mm" 0 0 5 10 0
  have hok := hthm.1.2 ⟨by norm_num, by norm_num, 1, by simp, by simp, by norm_num, by
    simp only [hsel]⟩
  refine ⟨hok, ?_⟩
  obtain ⟨amm, hconv, hval⟩ := hthm.2 hok
  have hamm : amm = 1 := by simpa using hconv.symm
  rw [hval, hamm]
  simp only [hsel, Real.logb_one, zero_add]

/-- C3 (as stated, refuted): with amplitude 0 in millimetres the status is
`DistanceOutOfRange` at 25 degrees, and `IncompleteConfiguration` at 5 degrees
on the empty table; neither is `Error`. -/
theorem computeMagnitude_zero_amplitude_counterexample :
    (MagnitudeProcessor_ML.computeMagnitude (α := ℝ)
        ⟨fun d => d * 111.195, Real.sqrt, Real.logb 10,
          fun a u _ => if u = "mm" then some a else none⟩
        ⟨[⟨60, 0.018, 2.17, false⟩, ⟨700, 0.0038, 3.02, false⟩], ⟨0, 0, 0, true⟩⟩
        0 "mm" 0 0 25 10 0).1 = MagnitudeStatus.DistanceOutOfRange ∧
      (MagnitudeProcessor_ML.computeMagnitude (α := ℝ)
        ⟨fun d => d * 111.195, Real.sqrt, Real.logb 10,
          fun a u _ => if u = "mm" then some a else none⟩
        ⟨[], ⟨0, 0, 0, true⟩⟩
        0 "mm" 0 0 5 10 0).1 = MagnitudeStatus.IncompleteConfiguration := by
  constructor
  · have h0 : (25 : ℝ) < 0 ∨ (25 : ℝ) > 20 := Or.inr (by norm_num)
    simp only [MagnitudeProcessor_ML.computeMagnitude, DELTA_MIN, DELTA_MAX, if_pos h0]
  · have h1 : ¬ ((5 : ℝ) < 0 ∨ (5 : ℝ) > 20) := by norm_num
    simp [MagnitudeProcessor_ML.computeMagnitude, MagnitudeProcessor_ML.compute_ML_sed,
      DELTA_MIN, DELTA_MAX, ExpectedAmplitudeUnit, h1]

/-- C3 (amended): with amplitude 0, whenever `0 ≤ delta ≤ 20`, the unit
conversion succeeds with a non-positive converted amplitude and the table is
not empty, `computeMagnitude` returns `Error`, writes 0 to the output value
and leaves the processor unchanged. -/
theorem computeMagnitude_zero_amplitude {α : Type} [LinearOrderedField α] (lib : Library α)
    (self : MagnitudeProcessor_ML α) (unit : String)
    (period snr delta depth value amplitudeMm : α)
    (hmin : 0 ≤ delta) (hmax : delta ≤ 20)
    (hconv : lib.convertAmplitude 0 unit "mm" = some amplitudeMm) (hamp : amplitudeMm ≤ 0)
    (htab : self.list_of_parametersets ≠ []) :
    self.computeMagnitude lib 0 unit period snr delta depth value
      = (MagnitudeStatus.Error, 0, self) := by
  have hd : ¬ (delta < 0 ∨ delta > 20) := by
    rintro (h | h)
    · exact absurd hmin (not_le.2 h)
    · exact absurd hmax (not_le.2 h)
  have hlen : ¬ self.list_of_parametersets.length = 0 := fun h =>
    htab (List.length_eq_zero.1 h)
  unfold MagnitudeProcessor_ML.computeMagnitude
  simp only [DELTA_MIN, DELTA_MAX, ExpectedAmplitudeUnit]
  rw [if_neg hd, hconv]
  simp only [MagnitudeProcessor_ML.compute_ML_sed, if_neg hlen, if_pos hamp]

/-- Witness for C3 (amended): amplitude 0 mm at 5 degrees on the table
`{60, 700}`. -/
theorem computeMagnitude_zero_amplitude_witness :
    MagnitudeProcessor_ML.computeMagnitude (α := ℝ)
        ⟨fun d => d * 111.195, Real.sqrt, Real.logb 10,
          fun a u _ => if u = "mm" then some a else none⟩
        ⟨[⟨60, 0.018, 2.17, false⟩, ⟨700, 0.0038, 3.02, false⟩], ⟨0, 0, 0, true⟩⟩
        0 "mm" 0 0 5 10 7
      = (MagnitudeStatus.Error, 0,
          ⟨[⟨60, 0.018, 2.17, false⟩, ⟨700, 0.0038, 3.02, false⟩], ⟨0, 0, 0, true⟩⟩) :=
  computeMagnitude_zero_amplitude (α := ℝ)
    ⟨fun d => d * 111.195, Real.sqrt, Real.logb 10,
      fun a u _ => if u = "mm" then some a else none⟩
    ⟨[⟨60, 0.018, 2.17, false⟩, ⟨700, 0.0038, 3.02, false⟩], ⟨0, 0, 0, true⟩⟩
    "mm" 0 0 5 10 7 0 (by norm_num) (by norm_num) (by simp) le_rfl (by simp)

/-- C4: with `delta < 0` or `delta > 20`, `computeMagnitude` returns
`DistanceOutOfRange` for every amplitude, unit, depth and table; the result is
the same whatever the conversion and lookup functions are, the output value
keeps its content on entry, and the processor, including the parameter set
that a lookup would store, is unchanged. -/
theorem computeMagnitude_distance_gate {α : Type} [LinearOrderedField α] (lib : Library α)
    (self : MagnitudeProcessor_ML α) (amplitude : α) (unit : String)
    (period snr delta depth value : α) (h : delta < 0 ∨ delta > 20) :
    self.computeMagnitude lib amplitude unit period snr delta depth value
      = (MagnitudeStatus.DistanceOutOfRange, value, self) := by
  unfold MagnitudeProcessor_ML.computeMagnitude
  simp only [DELTA_MIN, DELTA_MAX]
  rw [if_pos h]

/-- Witness for C4: 25 degrees is outside `[0, 20]`; the output value 7 and
the processor are returned as they were. -/
theorem computeMagnitude_distance_gate_witness :
    MagnitudeProcessor_ML.computeMagnitude (α := ℝ)
        ⟨fun d => d * 111.195, Real.sqrt, Real.logb 10,
          fun a u _ => if u = "mm" then some a else none⟩
        ⟨[⟨60, 0.018, 2.17, false⟩, ⟨700, 0.0038, 3.02, false⟩], ⟨0, 0, 0, true⟩⟩
        1 "mm" 0 0 25 10 7
      = (MagnitudeStatus.DistanceOutOfRange, 7,
          ⟨[⟨60, 0.018, 2.17, false⟩, ⟨700, 0.0038, 3.02, false⟩], ⟨0, 0, 0, true⟩⟩) :=
  computeMagnitude_distance_gate (α := ℝ)
    ⟨fun d => d * 111.195, Real.sqrt, Real.logb 10,
      fun a u _ => if u = "mm" then some a else none⟩
    ⟨[⟨60, 0.018, 2.17, false⟩, ⟨700, 0.0038, 3.02, false⟩], ⟨0, 0, 0, true⟩⟩
    1 "mm" 0 0 25 10 7 (Or.inr (by norm_num))

/-! ## Theorems: dual channel combiner -/

/-- A first delivery for channel N into an unfinished combiner without stored
results stores the result at index 1 and changes nothing else. -/
theorem newAmplitude_first_N {α : Type} [LinearOrderedField α]
    (s : AmplitudeProcessor_ML2h α) (rN : Result α)
    (hfin : s.isFinished = false) (h0 : s._results_0 = none) :
    s.newAmplitude Proc.ampN rN
      = { s with _results_1 := some { value := rN.amplitude, time := rN.time } } := by
  simp [AmplitudeProcessor_ML2h.newAmplitude, hfin, h0]

/-- A first delivery for channel E into an unfinished combiner without stored
results stores the result at index 0 and changes nothing else. -/
theorem newAmplitude_first_E {α : Type} [LinearOrderedField α]
    (s : AmplitudeProcessor_ML2h α) (rE : Result α)
    (hfin : s.isFinished = false) (h1 : s._results_1 = none) :
    s.newAmplitude Proc.ampE rE
      = { s with _results_0 := some { value := rE.amplitude, time := rE.time } } := by
  simp [AmplitudeProcessor_ML2h.newAmplitude, hfin, h1]

/-- A finished combiner ignores every delivery. -/
theorem newAmplitude_finished {α : Type} [LinearOrderedField α]
    (s : AmplitudeProcessor_ML2h α) (proc : Proc) (res : Result α)
    (hfin : s.isFinished = true) : s.newAmplitude proc res = s := by
  simp [AmplitudeProcessor_ML2h.newAmplitude, hfin]

/-- A delivery for channel N into an unfinished combiner that holds the result
of E stores the result, sets the status to `Finished` with value 100 and emits
one result. -/
theorem newAmplitude_second_N {α : Type} [LinearOrderedField α]
    (s : AmplitudeProcessor_ML2h α) (rN : Result α) (r0 : ComponentResult α)
    (hfin : s.isFinished = false) (h0 : s._results_0 = some r0) :
    ∃ newRes : Result α, s.newAmplitude Proc.ampN rN
      = { s with _results_1 := some { value := rN.amplitude, time := rN.time },
                 status := Status.Finished, statusValue := 100,
                 emitted := s.emitted ++ [newRes] } := by
  cases hp : s._combiner <;>
    simp [AmplitudeProcessor_ML2h.newAmplitude, AmplitudeProcessor_ML2h.setStatus,
      AmplitudeProcessor_ML2h.emitAmplitude, hfin, h0, hp]

/-- A delivery for channel E into an unfinished combiner that holds the result
of N stores the result, sets the status to `Finished` with value 100 and emits
one result. -/
theorem newAmplitude_second_E {α : Type} [LinearOrderedField α]
    (s : AmplitudeProcessor_ML2h α) (rE : Result α) (r1 : ComponentResult α)
    (hfin : s.isFinished = false) (h1 : s._results_1 = some r1) :
    ∃ newRes : Result α, s.newAmplitude Proc.ampE rE
      = { s with _results_0 := some { value := rE.amplitude, time := rE.time },
                 status := Status.Finished, statusValue := 100,
                 emitted := s.emitted ++ [newRes] } := by
  cases hp : s._combiner <;>
    simp [AmplitudeProcessor_ML2h.newAmplitude, AmplitudeProcessor_ML2h.setStatus,
      AmplitudeProcessor_ML2h.emitAmplitude, hfin, h1, hp]

/-- What a sequence of deliveries for channel N does: the units, the policy
and the stored result of E are untouched; a finished combiner, or an empty
sequence, changes nothing; otherwise the result of N is stored, and either
the result of E is absent and status and emitted results stay as they are, or
it is present and the combiner becomes `Finished` having emitted one result. -/
theorem foldl_newAmplitude_N {α : Type} [LinearOrderedField α]
    (l : List (Result α)) (t : AmplitudeProcessor_ML2h α) :
    ((l.foldl (fun s res => s.newAmplitude Proc.ampN res) t)._ampN = t._ampN ∧
      (l.foldl (fun s res => s.newAmplitude Proc.ampN res) t)._ampE = t._ampE ∧
      (l.foldl (fun s res => s.newAmplitude Proc.ampN res) t)._combiner = t._combiner ∧
      (l.foldl (fun s res => s.newAmplitude Proc.ampN res) t)._results_0 = t._results_0) ∧
    (t.isFinished = true ∨ l = [] →
      l.foldl (fun s res => s.newAmplitude Proc.ampN res) t = t) ∧
    (t.isFinished = false → l ≠ [] → t._results_0 = none →
      (l.foldl (fun s res => s.newAmplitude Proc.ampN res) t).status = t.status ∧
      (l.foldl (fun s res => s.newAmplitude Proc.ampN res) t).statusValue = t.statusValue ∧
      (l.foldl (fun s res => s.newAmplitude Proc.ampN res) t).emitted = t.emitted ∧
      (l.foldl (fun s res => s.newAmplitude Proc.ampN res) t)._results_1 ≠ none) ∧
    (t.isFinished = false → l ≠ [] → t._results_0 ≠ none →
      (l.foldl (fun s res => s.newAmplitude Proc.ampN res) t).status = Status.Finished ∧
      (l.foldl (fun s res => s.newAmplitude Proc.ampN res) t).statusValue = 100 ∧
      (∃ r, (l.foldl (fun s res => s.newAmplitude Proc.ampN res) t).emitted
        = t.emitted ++ [r]) ∧
      (l.foldl (fun s res => s.newAmplitude Proc.ampN res) t)._results_1 ≠ none) := by
  induction l generalizing t with
  | nil => simp
  | cons r rs ih =>
    rw [List.foldl_cons]
    cases hfin : t.isFinished
    · cases h0 : t._results_0 with
      | none =>
        have h1 := newAmplitude_first_N t r hfin h0
        have hfin1 : (t.newAmplitude Proc.ampN r).isFinished = false := by
          rw [h1]; exact hfin
        have h01 : (t.newAmplitude Proc.ampN r)._results_0 = none := by
          rw [h1]; exact h0
        obtain ⟨⟨ia, ib, ic, id⟩, ie, ig, _⟩ := ih (t.newAmplitude Proc.ampN r)
        refine ⟨⟨?_, ?_, ?_, ?_⟩, ?_, ?_, ?_⟩
        · rw [ia, h1]
        · rw [ib, h1]
        · rw [ic, h1]
        · rw [id, h1]; exact h0
        · simp
        · intro _ _ _
          by_cases hrs : rs = []
          · subst hrs
            simp [h1]
          · obtain ⟨ja, jb, jc, jd⟩ := ig hfin1 hrs h01
            refine ⟨?_, ?_, ?_, jd⟩
            · rw [ja, h1]
            · rw [jb, h1]
            · rw [jc, h1]
        · intro _ _ hne
          exact absurd rfl hne
      | some r0 =>
        obtain ⟨newRes, h1⟩ := newAmplitude_second_N t r r0 hfin h0
        have hfin1 : (t.newAmplitude Proc.ampN r).isFinished = true := by
          rw [h1]; rfl
        obtain ⟨_, ie, _, _⟩ := ih (t.newAmplitude Proc.ampN r)
        rw [ie (Or.inl hfin1), h1]
        refine ⟨⟨rfl, rfl, rfl, h0⟩, ?_, ?_, ?_⟩
        · simp
        · intro _ _ hne
          exact absurd hne (by simp)
        · intro _ _ _
          exact ⟨rfl, rfl, ⟨newRes, rfl⟩, by simp⟩
    · obtain ⟨_, ie, _, _⟩ := ih (t.newAmplitude Proc.ampN r)
      rw [newAmplitude_finished t Proc.ampN r hfin] at ie ⊢
      rw [ie (Or.inl hfin)]
      simp

/-- What a sequence of deliveries for channel E does: the units, the policy
and the stored result of N are untouched; a finished combiner, or an empty
sequence, changes nothing; otherwise the result of E is stored, and either
the result of N is absent and status and emitted results stay as they are, or
it is present and the combiner becomes `Finished` having emitted one result. -/
theorem foldl_newAmplitude_E {α : Type} [LinearOrderedField α]
    (l : List (Result α)) (t : AmplitudeProcessor_ML2h α) :
    ((l.foldl (fun s res => s.newAmplitude Proc.ampE res) t)._ampN = t._ampN ∧
      (l.foldl (fun s res => s.newAmplitude Proc.ampE res) t)._ampE = t._ampE ∧
      (l.foldl (fun s res => s.newAmplitude Proc.ampE res) t)._combiner = t._combiner ∧
      (l.foldl (fun s res => s.newAmplitude Proc.ampE res) t)._results_1 = t._results_1) ∧
    (t.isFinished = true ∨ l = [] →
      l.foldl (fun s res => s.newAmplitude Proc.ampE res) t = t) ∧
    (t.isFinished = false → l ≠ [] → t._results_1 = none →
      (l.foldl (fun s res => s.newAmplitude Proc.ampE res) t).status = t.status ∧
      (l.foldl (fun s res => s.newAmplitude Proc.ampE res) t).statusValue = t.statusValue ∧
      (l.foldl (fun s res => s.newAmplitude Proc.ampE res) t).emitted = t.emitted ∧
      (l.foldl (fun s res => s.newAmplitude Proc.ampE res) t)._results_0 ≠ none) ∧
    (t.isFinished = false → l ≠ [] → t._results_1 ≠ none →
      (l.foldl (fun s res => s.newAmplitude Proc.ampE res) t).status = Status.Finished ∧
      (l.foldl (fun s res => s.newAmplitude Proc.ampE res) t).statusValue = 100 ∧
      (∃ r, (l.foldl (fun s res => s.newAmplitude Proc.ampE res) t).emitted
        = t.emitted ++ [r]) ∧
      (l.foldl (fun s res => s.newAmplitude Proc.ampE res) t)._results_0 ≠ none) := by
  induction l generalizing t with
  | nil => simp
  | cons r rs ih =>
    rw [List.foldl_cons]
    cases hfin : t.isFinished
    · cases h0 : t._results_1 with
      | none =>
        have h1 := newAmplitude_first_E t r hfin h0
        have hfin1 : (t.newAmplitude Proc.ampE r).isFinished = false := by
          rw [h1]; exact hfin
        have h01 : (t.newAmplitude Proc.ampE r)._results_1 = none := by
          rw [h1]; exact h0
        obtain ⟨⟨ia, ib, ic, id⟩, ie, ig, _⟩ := ih (t.newAmplitude Proc.ampE r)
        refine ⟨⟨?_, ?_, ?_, ?_⟩, ?_, ?_, ?_⟩
        · rw [ia, h1]
        · rw [ib, h1]
        · rw [ic, h1]
        · rw [id, h1]; exact h0
        · simp
        · intro _ _ _
          by_cases hrs : rs = []
          · subst hrs
            simp [h1]
          · obtain ⟨ja, jb, jc, jd⟩ := ig hfin1 hrs h01
            refine ⟨?_, ?_, ?_, jd⟩
            · rw [ja, h1]
            · rw [jb, h1]
            · rw [jc, h1]
        · intro _ _ hne
          exact absurd rfl hne
      | some r0 =>
        obtain ⟨newRes, h1⟩ := newAmplitude_second_E t r r0 hfin h0
        have hfin1 : (t.newAmplitude Proc.ampE r).isFinished = true := by
          rw [h1]; rfl
        obtain ⟨_, ie, _, _⟩ := ih (t.newAmplitude Proc.ampE r)
        rw [ie (Or.inl hfin1), h1]
        refine ⟨⟨rfl, rfl, rfl, h0⟩, ?_, ?_, ?_⟩
        · simp
        · intro _ _ hne
          exact absurd hne (by simp)
        · intro _ _ _
          exact ⟨rfl, rfl, ⟨newRes, rfl⟩, by simp⟩
    · obtain ⟨_, ie, _, _⟩ := ih (t.newAmplitude Proc.ampE r)
      rw [newAmplitude_finished t Proc.ampE r hfin] at ie ⊢
      rw [ie (Or.inl hfin)]
      simp

/-- What a call into the unit `_ampN` does to the combiner: the unit takes the
status of the call, the other unit, the policy and the stored result of E are
untouched; if nothing is published or the combiner is finished, nothing else
changes; otherwise the result of N is stored, and either the result of E is
absent and status and emitted results stay, or it is present and the combiner
becomes `Finished` having emitted one result. -/
theorem call_ampN_spec {α : Type} [LinearOrderedField α]
    (s : AmplitudeProcessor_ML2h α) (c : UnitCall α) :
    ((s.call_ampN c)._ampN = { s._ampN with status := c.status, statusValue := c.statusValue } ∧
      (s.call_ampN c)._ampE = s._ampE ∧
      (s.call_ampN c)._combiner = s._combiner ∧
      (s.call_ampN c)._results_0 = s._results_0) ∧
    (s.isFinished = true ∨ c.published = [] →
      (s.call_ampN c).status = s.status ∧
      (s.call_ampN c).statusValue = s.statusValue ∧
      (s.call_ampN c).emitted = s.emitted ∧
      (s.call_ampN c)._results_1 = s._results_1) ∧
    (s.isFinished = false → c.published ≠ [] → s._results_0 = none →
      (s.call_ampN c).status = s.status ∧
      (s.call_ampN c).statusValue = s.statusValue ∧
      (s.call_ampN c).emitted = s.emitted ∧
      (s.call_ampN c)._results_1 ≠ none) ∧
    (s.isFinished = false → c.published ≠ [] → s._results_0 ≠ none →
      (s.call_ampN c).status = Status.Finished ∧
      (s.call_ampN c).statusValue = 100 ∧
      (∃ r, (s.call_ampN c).emitted = s.emitted ++ [r]) ∧
      (s.call_ampN c)._results_1 ≠ none) := by
  obtain ⟨⟨ia, ib, ic, id⟩, ie, ig, ih⟩ := foldl_newAmplitude_N c.published
    { s with _ampN := { s._ampN with status := c.status, statusValue := c.statusValue } }
  refine ⟨⟨ia, ib, ic, id⟩, ?_, ig, ih⟩
  intro h
  unfold AmplitudeProcessor_ML2h.call_ampN
  rw [ie h]
  exact ⟨rfl, rfl, rfl, rfl⟩

/-- What a call into the unit `_ampE` does to the combiner: the unit takes the
status of the call, the other unit, the policy and the stored result of N are
untouched; if nothing is published or the combiner is finished, nothing else
changes; otherwise the result of E is stored, and either the result of N is
absent and status and emitted results stay, or it is present and the combiner
becomes `Finished` having emitted one result. -/
theorem call_ampE_spec {α : Type} [LinearOrderedField α]
    (s : AmplitudeProcessor_ML2h α) (c : UnitCall α) :
    ((s.call_ampE c)._ampE = { s._ampE with status := c.status, statusValue := c.statusValue } ∧
      (s.call_ampE c)._ampN = s._ampN ∧
      (s.call_ampE c)._combiner = s._combiner ∧
      (s.call_ampE c)._results_1 = s._results_1) ∧
    (s.isFinished = true ∨ c.published = [] →
      (s.call_ampE c).status = s.status ∧
      (s.call_ampE c).statusValue = s.statusValue ∧
      (s.call_ampE c).emitted = s.emitted ∧
      (s.call_ampE c)._results_0 = s._results_0) ∧
    (s.isFinished = false → c.published ≠ [] → s._results_1 = none →
      (s.call_ampE c).status = s.status ∧
      (s.call_ampE c).statusValue = s.statusValue ∧
      (s.call_ampE c).emitted = s.emitted ∧
      (s.call_ampE c)._results_0 ≠ none) ∧
    (s.isFinished = false → c.published ≠ [] → s._results_1 ≠ none →
      (s.call_ampE c).status = Status.Finished ∧
      (s.call_ampE c).statusValue = 100 ∧
      (∃ r, (s.call_ampE c).emitted = s.emitted ++ [r]) ∧
      (s.call_ampE c)._results_0 ≠ none) := by
  obtain ⟨⟨ia, ib, ic, id⟩, ie, ig, ih⟩ := foldl_newAmplitude_E c.published
    { s with _ampE := { s._ampE with status := c.status, statusValue := c.statusValue } }
  refine ⟨⟨ib, ia, ic, id⟩, ?_, ig, ih⟩
  intro h
  unfold AmplitudeProcessor_ML2h.call_ampE
  rw [ie h]
  exact ⟨rfl, rfl, rfl, rfl⟩

/-- C10: starting from an unfinished combiner without stored results, with the
used components set as the constructor sets them and the policy `Maximum` or
`Minimum`, delivering channel results with distinct amplitude values in either
order emits exactly one result; its amplitude (value and both uncertainties)
and time are those of the channel with the strictly greater value under
`Maximum`, of the channel with the strictly smaller value under `Minimum`, and
its component is `FirstHorizontal` when that channel is N and
`SecondHorizontal` when it is E. -/
theorem newAmplitude_max_min_distinct {α : Type} [LinearOrderedField α]
    (s : AmplitudeProcessor_ML2h α) (rN rE : Result α)
    (hfin : s.isFinished = false)
    (h0 : s._results_0 = none) (h1 : s._results_1 = none)
    (hE : s._ampE.usedComponent = UsedComponent.SecondHorizontal)
    (hN : s._ampN.usedComponent = UsedComponent.FirstHorizontal)
    (hpol : s._combiner = CombinerProc.Maximum ∨ s._combiner = CombinerProc.Minimum)
    (hne : rN.amplitude.value ≠ rE.amplitude.value) :
    ∀ out : AmplitudeProcessor_ML2h α,
      out = (s.newAmplitude Proc.ampN rN).newAmplitude Proc.ampE rE ∨
        out = (s.newAmplitude Proc.ampE rE).newAmplitude Proc.ampN rN →
      ∃ r : Result α, out.emitted = s.emitted ++ [r] ∧
        ((s._combiner = CombinerProc.Maximum ∧ rE.amplitude.value < rN.amplitude.value ∨
            s._combiner = CombinerProc.Minimum ∧ rN.amplitude.value < rE.amplitude.value) →
          r.amplitude = rN.amplitude ∧ r.time = rN.time ∧
            r.component = UsedComponent.FirstHorizontal) ∧
        ((s._combiner = CombinerProc.Maximum ∧ rN.amplitude.value < rE.amplitude.value ∨
            s._combiner = CombinerProc.Minimum ∧ rE.amplitude.value < rN.amplitude.value) →
          r.amplitude = rE.amplitude ∧ r.time = rE.time ∧
            r.component = UsedComponent.SecondHorizontal) := by
  intro out hout
  have hfin2 : ¬ (Status.InProgress < s.status) := by
    simpa [AmplitudeProcessor_ML2h.isFinished] using hfin
  have hlt : rN.amplitude.value < rE.amplitude.value ∨ rE.amplitude.value < rN.amplitude.value :=
    lt_or_gt_of_ne hne
  rcases hout with rfl | rfl
  · rw [newAmplitude_first_N s rN hfin h0]
    rcases hpol with hp | hp <;> rcases hlt with h | h <;>
      simp [AmplitudeProcessor_ML2h.newAmplitude, AmplitudeProcessor_ML2h.isFinished,
        AmplitudeProcessor_ML2h.setStatus, AmplitudeProcessor_ML2h.emitAmplitude,
        hfin2, hp, h, hE, hN, le_of_lt h, not_le.2 h, not_lt.2 (le_of_lt h)]
  · rw [newAmplitude_first_E s rE hfin h1]
    rcases hpol with hp | hp <;> rcases hlt with h | h <;>
      simp [AmplitudeProcessor_ML2h.newAmplitude, AmplitudeProcessor_ML2h.isFinished,
        AmplitudeProcessor_ML2h.setStatus, AmplitudeProcessor_ML2h.emitAmplitude,
        hfin2, hp, h, hE, hN, le_of_lt h, not_le.2 h, not_lt.2 (le_of_lt h)]

/-- Witness for C10: on the freshly constructed combiner (policy `Maximum`),
N delivers the value 5 and E the value 3; delivering N then E emits exactly one
result, which carries the amplitude and time of N and the component
`FirstHorizontal`. -/
theorem newAmplitude_max_min_distinct_witness :
    ∃ r : Result ℚ,
      (((AmplitudeProcessor_ML2h.construct (α := ℚ)).newAmplitude Proc.ampN
          ⟨1, UsedComponent.FirstHorizontal, ⟨5, some 1, some 2⟩, ⟨100, -1, 2⟩, 1, 3⟩).newAmplitude
          Proc.ampE
          ⟨2, UsedComponent.SecondHorizontal, ⟨3, none, none⟩, ⟨101, -2, 1⟩, 1, 3⟩).emitted
        = [r] ∧
      r.amplitude = ⟨5, some 1, some 2⟩ ∧ r.time = ⟨100, -1, 2⟩ ∧
      r.component = UsedComponent.FirstHorizontal := by
  obtain ⟨r, hr, hwinN, _⟩ := newAmplitude_max_min_distinct
    (AmplitudeProcessor_ML2h.construct (α := ℚ))
    ⟨1, UsedComponent.FirstHorizontal, ⟨5, some 1, some 2⟩, ⟨100, -1, 2⟩, 1, 3⟩
    ⟨2, UsedComponent.SecondHorizontal, ⟨3, none, none⟩, ⟨101, -2, 1⟩, 1, 3⟩
    rfl rfl rfl rfl rfl (Or.inl rfl) (by norm_num) _ (Or.inl rfl)
  exact ⟨r, by simpa [AmplitudeProcessor_ML2h.construct] using hr,
    hwinN (Or.inl ⟨rfl, by norm_num⟩)⟩

/-- C11: for every policy and every pair of channel results, starting from an
unfinished combiner without stored results, delivering E then N emits exactly
one result, as does delivering N then E, and the two emitted results have the
same amplitude, time, component, period and snr. -/
theorem newAmplitude_order_independent {α : Type} [LinearOrderedField α]
    (s : AmplitudeProcessor_ML2h α) (rN rE : Result α)
    (hfin : s.isFinished = false)
    (h0 : s._results_0 = none) (h1 : s._results_1 = none) :
    ∃ a b : Result α,
      ((s.newAmplitude Proc.ampN rN).newAmplitude Proc.ampE rE).emitted = s.emitted ++ [a] ∧
      ((s.newAmplitude Proc.ampE rE).newAmplitude Proc.ampN rN).emitted = s.emitted ++ [b] ∧
      a.amplitude = b.amplitude ∧ a.time = b.time ∧ a.component = b.component ∧
      a.period = b.period ∧ a.snr = b.snr := by
  have hfin2 : ¬ (Status.InProgress < s.status) := by
    simpa [AmplitudeProcessor_ML2h.isFinished] using hfin
  rw [newAmplitude_first_N s rN hfin h0, newAmplitude_first_E s rE hfin h1]
  cases hp : s._combiner
  · by_cases h : rN.amplitude.value ≤ rE.amplitude.value <;>
      simp [AmplitudeProcessor_ML2h.newAmplitude, AmplitudeProcessor_ML2h.isFinished,
        AmplitudeProcessor_ML2h.setStatus, AmplitudeProcessor_ML2h.emitAmplitude, hfin2, hp, h]
  · simp [AmplitudeProcessor_ML2h.newAmplitude, AmplitudeProcessor_ML2h.isFinished,
      AmplitudeProcessor_ML2h.setStatus, AmplitudeProcessor_ML2h.emitAmplitude, hfin2, hp]
  · by_cases h : rE.amplitude.value ≤ rN.amplitude.value <;>
      simp [AmplitudeProcessor_ML2h.newAmplitude, AmplitudeProcessor_ML2h.isFinished,
        AmplitudeProcessor_ML2h.setStatus, AmplitudeProcessor_ML2h.emitAmplitude, hfin2, hp, h]

/-- Witness for C11: on the freshly constructed combiner with the policy
`Average`, N delivers `5 -1/+2` and E delivers `3`. -/
theorem newAmplitude_order_independent_witness :
    ∃ a b : Result ℚ,
      ((({ AmplitudeProcessor_ML2h.construct with _combiner := CombinerProc.Average } :
            AmplitudeProcessor_ML2h ℚ).newAmplitude Proc.ampN
          ⟨1, UsedComponent.FirstHorizontal, ⟨5, some 1, some 2⟩, ⟨100, -1, 2⟩, 1, 3⟩).newAmplitude
          Proc.ampE
          ⟨2, UsedComponent.SecondHorizontal, ⟨3, none, none⟩, ⟨101, -2, 1⟩, 1, 3⟩).emitted
        = [] ++ [a] ∧
      ((({ AmplitudeProcessor_ML2h.construct with _combiner := CombinerProc.Average } :
            AmplitudeProcessor_ML2h ℚ).newAmplitude Proc.ampE
          ⟨2, UsedComponent.SecondHorizontal, ⟨3, none, none⟩, ⟨101, -2, 1⟩, 1, 3⟩).newAmplitude
          Proc.ampN
          ⟨1, UsedComponent.FirstHorizontal, ⟨5, some 1, some 2⟩, ⟨100, -1, 2⟩, 1, 3⟩).emitted
        = [] ++ [b] ∧
      a.amplitude = b.amplitude ∧ a.time = b.time ∧ a.component = b.component ∧
      a.period = b.period ∧ a.snr = b.snr :=
  newAmplitude_order_independent
    ({ AmplitudeProcessor_ML2h.construct with _combiner := CombinerProc.Average } :
      AmplitudeProcessor_ML2h ℚ)
    ⟨1, UsedComponent.FirstHorizontal, ⟨5, some 1, some 2⟩, ⟨100, -1, 2⟩, 1, 3⟩
    ⟨2, UsedComponent.SecondHorizontal, ⟨3, none, none⟩, ⟨101, -2, 1⟩, 1, 3⟩
    rfl rfl rfl

/-- When neither guard of `feed` fires, `feed` returns true. -/
theorem feed_fst_true {α : Type} [LinearOrderedField α]
    (s : AmplitudeProcessor_ML2h α) (_streamConfig : Component → String)
    (record : Record) (call : UnitCall α)
    (h1 : ¬ (s._ampE.isFinished && s._ampN.isFinished) = true)
    (h2 : ¬ Status.Finished < s.status) :
    (s.feed _streamConfig record call).1 = true := by
  unfold AmplitudeProcessor_ML2h.feed
  rw [if_neg h1, if_neg h2]
  dsimp only
  repeat' split
  all_goals rfl

/-- When a guard of `feed` fires, `feed` returns false and changes nothing. -/
theorem feed_refused {α : Type} [LinearOrderedField α]
    (s : AmplitudeProcessor_ML2h α) (_streamConfig : Component → String)
    (record : Record) (call : UnitCall α)
    (h : (s._ampE.isFinished && s._ampN.isFinished) = true ∨ Status.Finished < s.status) :
    s.feed _streamConfig record call = (false, s) := by
  unfold AmplitudeProcessor_ML2h.feed
  by_cases h1 : (s._ampE.isFinished && s._ampN.isFinished) = true
  · rw [if_pos h1]
  · rcases h with h | h
    · exact absurd h h1
    · rw [if_neg h1, if_pos h]

/-- A record whose channel code matches neither horizontal channel leaves the
combiner unchanged. -/
theorem feed_unmatched {α : Type} [LinearOrderedField α]
    (s : AmplitudeProcessor_ML2h α) (_streamConfig : Component → String)
    (record : Record) (call : UnitCall α)
    (hN : record.channelCode ≠ _streamConfig Component.FirstHorizontalComponent)
    (hE : record.channelCode ≠ _streamConfig Component.SecondHorizontalComponent) :
    (s.feed _streamConfig record call).2 = s := by
  unfold AmplitudeProcessor_ML2h.feed
  rw [if_neg hN, if_neg hE]
  repeat' split
  all_goals rfl

/-- C15: `feed` returns false if and only if both channel units are already
finished or the status of the combiner is greater than `Finished`; when it
returns false the combiner is unchanged whatever the unit would do with the
record, so the record is forwarded to neither unit; otherwise it returns true;
and a record whose channel code matches neither horizontal channel leaves the
combiner, both units included, unchanged. -/
theorem feed_return_value {α : Type} [LinearOrderedField α]
    (s : AmplitudeProcessor_ML2h α) (_streamConfig : Component → String)
    (record : Record) (call : UnitCall α) :
    ((s.feed _streamConfig record call).1 = false ↔
        (s._ampE.isFinished = true ∧ s._ampN.isFinished = true) ∨
          Status.Finished < s.status) ∧
      ((s.feed _streamConfig record call).1 = false →
        (s.feed _streamConfig record call).2 = s) ∧
      ((s.feed _streamConfig record call).1 ≠ false →
        (s.feed _streamConfig record call).1 = true) ∧
      (record.channelCode ≠ _streamConfig Component.FirstHorizontalComponent →
        record.channelCode ≠ _streamConfig Component.SecondHorizontalComponent →
        (s.feed _streamConfig record call).2 = s) := by
  have hiff : (s.feed _streamConfig record call).1 = false ↔
      (s._ampE.isFinished = true ∧ s._ampN.isFinished = true) ∨ Status.Finished < s.status := by
    constructor
    · intro h
      by_contra hcon
      have h1 : ¬ (s._ampE.isFinished && s._ampN.isFinished) = true := by
        rw [Bool.and_eq_true]
        exact fun h1 => hcon (Or.inl h1)
      have h2 : ¬ Status.Finished < s.status := fun h2 => hcon (Or.inr h2)
      rw [feed_fst_true s _streamConfig record call h1 h2] at h
      exact Bool.noConfusion h
    · intro h
      rw [← Bool.and_eq_true] at h
      rw [feed_refused s _streamConfig record call h]
  refine ⟨hiff, ?_, ?_, feed_unmatched s _streamConfig record call⟩
  · intro h
    have h3 := hiff.1 h
    rw [← Bool.and_eq_true] at h3
    rw [feed_refused s _streamConfig record call h3]
  · intro h
    simpa using h

/-- Witness for C15: on the constructed combiner with both units finished,
`feed` returns false and changes nothing; a record of the vertical channel
`HHZ` fed to the constructed combiner changes nothing either. -/
theorem feed_return_value_witness :
    (({ AmplitudeProcessor_ML2h.construct with
          _ampE := ⟨Status.Finished, 100, UsedComponent.SecondHorizontal, none⟩
          _ampN := ⟨Status.Failed 3, 0, UsedComponent.FirstHorizontal, none⟩ } :
        AmplitudeProcessor_ML2h ℚ).feed
        (fun c => match c with
          | Component.VerticalComponent => "HHZ"
          | Component.FirstHorizontalComponent => "HHN"
          | Component.SecondHorizontalComponent => "HHE")
        ⟨"HHN"⟩ ⟨Status.InProgress, 50, []⟩).2
      = { AmplitudeProcessor_ML2h.construct with
          _ampE := ⟨Status.Finished, 100, UsedComponent.SecondHorizontal, none⟩
          _ampN := ⟨Status.Failed 3, 0, UsedComponent.FirstHorizontal, none⟩ } ∧
    ((AmplitudeProcessor_ML2h.construct (α := ℚ)).feed
        (fun c => match c with
          | Component.VerticalComponent => "HHZ"
          | Component.FirstHorizontalComponent => "HHN"
          | Component.SecondHorizontalComponent => "HHE")
        ⟨"HHZ"⟩ ⟨Status.InProgress, 50, []⟩).2
      = AmplitudeProcessor_ML2h.construct :=
  ⟨(feed_return_value _ _ _ _).2.1
      ((feed_return_value _ _ _ _).1.2 (Or.inl ⟨by decide, by decide⟩)),
    (feed_return_value _ _ _ _).2.2.2 (by decide) (by decide)⟩

/-! ## Theorems: calibration lookup, continued -/

/-- C19: for every table, the empty one included, and every distance such that
no entry has a bound at or above the distance, the lookup returns the
synthetic entry with `nomag = true`, `A = 0` and `B = 0` (and bound 0). -/
theorem selectParameters_miss {α : Type} [LinearOrderedField α] (distance : α)
    (paramlist : List (param_struct α))
    (h : ∀ e ∈ paramlist, ¬ e.dist ≥ distance) :
    selectParameters distance paramlist = { nomag := true, dist := 0, A := 0, B := 0 } ∧
      (selectParameters distance paramlist).nomag = true ∧
      (selectParameters distance paramlist).A = 0 ∧
      (selectParameters distance paramlist).B = 0 := by
  have hsel : selectParameters distance paramlist
      = { nomag := true, dist := 0, A := 0, B := 0 } := by
    rcases selectParameters.foldl_spec distance paramlist
        (1000000, { nomag := true, dist := 0, A := 0, B := 0 }) with
      ⟨heq, _⟩ | ⟨hmem, _, _, hge, _⟩
    · unfold selectParameters
      dsimp only
      rw [heq]
    · exact absurd hge (h _ hmem)
  rw [hsel]
  exact ⟨rfl, rfl, rfl, rfl⟩

/-- Witness for C19: the table `{60, 700}` at distance 750. -/
theorem selectParameters_miss_witness :
    selectParameters (750 : ℚ) [⟨60, 1, 2, false⟩, ⟨700, 3, 4, false⟩]
        = { nomag := true, dist := 0, A := 0, B := 0 } ∧
      (selectParameters (750 : ℚ) [⟨60, 1, 2, false⟩, ⟨700, 3, 4, false⟩]).nomag = true ∧
      (selectParameters (750 : ℚ) [⟨60, 1, 2, false⟩, ⟨700, 3, 4, false⟩]).A = 0 ∧
      (selectParameters (750 : ℚ) [⟨60, 1, 2, false⟩, ⟨700, 3, 4, false⟩]).B = 0 :=
  selectParameters_miss 750 [⟨60, 1, 2, false⟩, ⟨700, 3, 4, false⟩] (by
    intro e he
    simp only [List.mem_cons, List.mem_singleton, List.not_mem_nil, or_false] at he
    rcases he with rfl | rfl <;> norm_num)

/-! ## Theorems: reprocess -/

/-- C16 (as stated, refuted): after `reprocess` in which N ends `InProgress`
and E ends `WaitingForData`, nothing being published, the combiner is not
finished and its status is `WaitingForData`, not `InProgress`. -/
theorem reprocess_in_progress_counterexample :
    ((AmplitudeProcessor_ML2h.construct (α := ℚ)).reprocess none none
        ⟨Status.InProgress, 40, []⟩ ⟨Status.WaitingForData, 0, []⟩).status
        = Status.WaitingForData ∧
      ((AmplitudeProcessor_ML2h.construct (α := ℚ)).reprocess none none
        ⟨Status.InProgress, 40, []⟩ ⟨Status.WaitingForData, 0, []⟩).isFinished = false ∧
      ((AmplitudeProcessor_ML2h.construct (α := ℚ)).reprocess none none
        ⟨Status.InProgress, 40, []⟩ ⟨Status.WaitingForData, 0, []⟩)._ampN.status
        = Status.InProgress ∧
      ((AmplitudeProcessor_ML2h.construct (α := ℚ)).reprocess none none
        ⟨Status.InProgress, 40, []⟩ ⟨Status.WaitingForData, 0, []⟩)._ampE.status
        = Status.WaitingForData := by
  refine ⟨?_, ?_, ?_, ?_⟩ <;> rfl

/-- The two unit calls of `reprocess`, made on a combiner with the status
`WaitingForData` and no stored results: if the calls do not both publish, the
combiner is not finished afterwards and the units carry the statuses of their
calls. -/
theorem reprocess_calls {α : Type} [LinearOrderedField α]
    (s2 : AmplitudeProcessor_ML2h α) (callN callE : UnitCall α)
    (h2st : s2.status = Status.WaitingForData)
    (h20 : s2._results_0 = none) (h21 : s2._results_1 = none)
    (h : callN.published = [] ∨ callE.published = []) :
    ((s2.call_ampN callN).call_ampE callE).isFinished = false ∧
      ((s2.call_ampN callN).call_ampE callE)._ampN.status = callN.status ∧
      ((s2.call_ampN callN).call_ampE callE)._ampN.statusValue = callN.statusValue ∧
      ((s2.call_ampN callN).call_ampE callE)._ampE.status = callE.status ∧
      ((s2.call_ampN callN).call_ampE callE)._ampE.statusValue = callE.statusValue := by
  have h2fin : s2.isFinished = false := by
    unfold AmplitudeProcessor_ML2h.isFinished
    rw [h2st]; rfl
  obtain ⟨⟨na, nb, _, nd⟩, ne, ng, _⟩ := call_ampN_spec s2 callN
  obtain ⟨⟨ea, eb, _, ed⟩, ee, eg, _⟩ := call_ampE_spec (s2.call_ampN callN) callE
  have h3st : (s2.call_ampN callN).status = Status.WaitingForData := by
    by_cases hp : callN.published = []
    · rw [(ne (Or.inr hp)).1, h2st]
    · rw [(ng h2fin hp h20).1, h2st]
  have h3fin : (s2.call_ampN callN).isFinished = false := by
    unfold AmplitudeProcessor_ML2h.isFinished
    rw [h3st]; rfl
  have h4st : ((s2.call_ampN callN).call_ampE callE).status = Status.WaitingForData := by
    by_cases hp : callE.published = []
    · rw [(ee (Or.inr hp)).1, h3st]
    · have hpN : callN.published = [] := h.resolve_right hp
      have h31 : (s2.call_ampN callN)._results_1 = none := by
        rw [(ne (Or.inr hpN)).2.2.2, h21]
      rw [(eg h3fin hp h31).1, h3st]
  refine ⟨?_, ?_, ?_, ?_, ?_⟩
  · unfold AmplitudeProcessor_ML2h.isFinished
    rw [h4st]; rfl
  · rw [eb, na]
  · rw [eb, na]
  · rw [ea]
  · rw [ea]

/-- C16 (amended): when the two unit calls of `reprocess` do not both publish
(so that the combiner is not finished when they have returned), the units end
with the statuses of their calls and the status and status value of the
combiner are those of N if the status of N is greater than `Finished`, and
otherwise those of E if the status of E is not `Finished`; in particular E
`InProgress` with N `WaitingForData` gives `InProgress`, while N `InProgress`
with E `WaitingForData` gives `WaitingForData`. -/
theorem reprocess_status {α : Type} [LinearOrderedField α]
    (s : AmplitudeProcessor_ML2h α) (searchBegin searchEnd : Option α)
    (callN callE : UnitCall α)
    (h : callN.published = [] ∨ callE.published = []) :
    (s.reprocess searchBegin searchEnd callN callE)._ampN.status = callN.status ∧
      (s.reprocess searchBegin searchEnd callN callE)._ampE.status = callE.status ∧
      (Status.Finished < callN.status →
        (s.reprocess searchBegin searchEnd callN callE).status = callN.status ∧
        (s.reprocess searchBegin searchEnd callN callE).statusValue = callN.statusValue) ∧
      (¬ Status.Finished < callN.status → callE.status ≠ Status.Finished →
        (s.reprocess searchBegin searchEnd callN callE).status = callE.status ∧
        (s.reprocess searchBegin searchEnd callN callE).statusValue = callE.statusValue) ∧
      (callN.status = Status.WaitingForData → callE.status = Status.InProgress →
        (s.reprocess searchBegin searchEnd callN callE).status = Status.InProgress) ∧
      (callN.status = Status.InProgress → callE.status = Status.WaitingForData →
        (s.reprocess searchBegin searchEnd callN callE).status = Status.WaitingForData) := by
  obtain ⟨s4, hs4⟩ : ∃ s4 : AmplitudeProcessor_ML2h α, s4 =
      (({ s.setStatus Status.WaitingForData 0 with
          _results_0 := none, _results_1 := none } : AmplitudeProcessor_ML2h α).call_ampN
        callN).call_ampE callE := ⟨_, rfl⟩
  obtain ⟨hfin, hN, hNv, hE, hEv⟩ := reprocess_calls
    ({ s.setStatus Status.WaitingForData 0 with
          _results_0 := none, _results_1 := none } : AmplitudeProcessor_ML2h α)
    callN callE rfl rfl rfl h
  rw [← hs4] at hfin hN hNv hE hEv
  have key : s.reprocess searchBegin searchEnd callN callE =
      if (!s4.isFinished) = true then
        if Status.Finished < s4._ampN.status then
          s4.setStatus s4._ampN.status s4._ampN.statusValue
        else
          s4.setStatus s4._ampE.status s4._ampE.statusValue
      else s4 := by
    rw [hs4]; rfl
  rw [hfin, hN, hNv, hE, hEv] at key
  simp only [Bool.not_false, if_true] at key
  have hpos : Status.Finished < callN.status →
      (s.reprocess searchBegin searchEnd callN callE).status = callN.status ∧
      (s.reprocess searchBegin searchEnd callN callE).statusValue = callN.statusValue := by
    intro hlt
    rw [key, if_pos hlt]
    exact ⟨rfl, rfl⟩
  have hneg : ¬ Status.Finished < callN.status →
      (s.reprocess searchBegin searchEnd callN callE).status = callE.status ∧
      (s.reprocess searchBegin searchEnd callN callE).statusValue = callE.statusValue := by
    intro hlt
    rw [key, if_neg hlt]
    exact ⟨rfl, rfl⟩
  refine ⟨?_, ?_, hpos, fun h _ => hneg h, ?_, ?_⟩
  · rw [key]; split
    · exact hN
    · exact hN
  · rw [key]; split
    · exact hE
    · exact hE
  · intro h1 h2
    have hlt : ¬ Status.Finished < callN.status := by rw [h1]; decide
    rw [(hneg hlt).1, h2]
  · intro h1 h2
    have hlt : ¬ Status.Finished < callN.status := by rw [h1]; decide
    rw [(hneg hlt).1, h2]

/-- Witness for C16 (amended): on the constructed combiner, N ends
`WaitingForData` and E ends `InProgress` without publishing; the status of the
combiner is `InProgress`. -/
theorem reprocess_status_witness :
    ((AmplitudeProcessor_ML2h.construct (α := ℚ)).reprocess none none
        ⟨Status.WaitingForData, 0, []⟩ ⟨Status.InProgress, 40, []⟩).status
      = Status.InProgress :=
  (reprocess_status (AmplitudeProcessor_ML2h.construct (α := ℚ)) none none
    ⟨Status.WaitingForData, 0, []⟩ ⟨Status.InProgress, 40, []⟩ (Or.inl rfl)).2.2.2.2.1 rfl rfl

/-! ## Theorems: runs of feed calls -/

/-- A call into the unit `_ampN`, made while that unit is not finished and
publishing only on `Finished`, keeps the invariant of the run. -/
theorem call_ampN_invariant {α : Type} [LinearOrderedField α]
    (e0 : List (Result α)) (s : AmplitudeProcessor_ML2h α) (c : UnitCall α)
    (hinv : s.RunInvariant e0) (hN : s._ampN.isFinished = false) (hc : c.completion) :
    (s.call_ampN c).RunInvariant e0 := by
  obtain ⟨ia, ib, ic, id, ie⟩ := hinv
  have hfin : s.isFinished = false := by
    cases h : s.isFinished
    · rfl
    · rw [(ic h).2] at hN
      exact Bool.noConfusion hN
  have h1 : s._results_1 = none := by
    by_contra h
    have hst := ib h
    unfold AmplitudeProcessor_MLh.isFinished at hN
    rw [hst] at hN
    exact Bool.noConfusion hN
  have hem : s.emitted = e0 := id (Or.inr h1)
  obtain ⟨⟨fa, fb, _, fd⟩, ge, gg, gh⟩ := call_ampN_spec s c
  have hstN : (s.call_ampN c)._ampN.status = c.status := by rw [fa]
  by_cases hp : c.published = []
  · obtain ⟨j1, _, j3, j4⟩ := ge (Or.inr hp)
    have hfin' : (s.call_ampN c).isFinished = false := by
      unfold AmplitudeProcessor_ML2h.isFinished at hfin ⊢
      rw [j1]; exact hfin
    refine ⟨?_, ?_, ?_, ?_, ?_⟩
    · intro h; rw [fd] at h; rw [fb]; exact ia h
    · intro h; rw [j4] at h; exact absurd h1 h
    · intro h; rw [hfin'] at h; exact Bool.noConfusion h
    · intro _; rw [j3]; exact hem
    · intro _ h; rw [j4] at h; exact absurd h1 h
  · have hcs : c.status = Status.Finished := hc hp
    by_cases h0 : s._results_0 = none
    · obtain ⟨j1, _, j3, j4⟩ := gg hfin hp h0
      have hfin' : (s.call_ampN c).isFinished = false := by
        unfold AmplitudeProcessor_ML2h.isFinished at hfin ⊢
        rw [j1]; exact hfin
      refine ⟨?_, ?_, ?_, ?_, ?_⟩
      · intro h; rw [fd] at h; rw [fb]; exact ia h
      · intro _; rw [hstN]; exact hcs
      · intro h; rw [hfin'] at h; exact Bool.noConfusion h
      · intro _; rw [j3]; exact hem
      · intro h _; rw [fd] at h; exact absurd h0 h
    · obtain ⟨j1, _, ⟨r, j3⟩, j4⟩ := gh hfin hp h0
      refine ⟨?_, ?_, ?_, ?_, ?_⟩
      · intro h; rw [fd] at h; rw [fb]; exact ia h
      · intro _; rw [hstN]; exact hcs
      · intro _
        have hE : (s.call_ampN c)._ampE.status = Status.Finished := by
          rw [fb]; exact ia h0
        unfold AmplitudeProcessor_MLh.isFinished
        rw [hE, hstN, hcs]
        exact ⟨rfl, rfl⟩
      · rintro (h | h)
        · rw [fd] at h; exact absurd h h0
        · exact absurd h j4
      · intro _ _
        exact ⟨j1, r, by rw [j3, hem]⟩

/-- A call into the unit `_ampE`, made while that unit is not finished and
publishing only on `Finished`, keeps the invariant of the run. -/
theorem call_ampE_invariant {α : Type} [LinearOrderedField α]
    (e0 : List (Result α)) (s : AmplitudeProcessor_ML2h α) (c : UnitCall α)
    (hinv : s.RunInvariant e0) (hN : s._ampE.isFinished = false) (hc : c.completion) :
    (s.call_ampE c).RunInvariant e0 := by
  obtain ⟨ia, ib, ic, id, ie⟩ := hinv
  have hfin : s.isFinished = false := by
    cases h : s.isFinished
    · rfl
    · rw [(ic h).1] at hN
      exact Bool.noConfusion hN
  have h1 : s._results_0 = none := by
    by_contra h
    have hst := ia h
    unfold AmplitudeProcessor_MLh.isFinished at hN
    rw [hst] at hN
    exact Bool.noConfusion hN
  have hem : s.emitted = e0 := id (Or.inl h1)
  obtain ⟨⟨fa, fb, _, fd⟩, ge, gg, gh⟩ := call_ampE_spec s c
  have hstN : (s.call_ampE c)._ampE.status = c.status := by rw [fa]
  by_cases hp : c.published = []
  · obtain ⟨j1, _, j3, j4⟩ := ge (Or.inr hp)
    have hfin' : (s.call_ampE c).isFinished = false := by
      unfold AmplitudeProcessor_ML2h.isFinished at hfin ⊢
      rw [j1]; exact hfin
    refine ⟨?_, ?_, ?_, ?_, ?_⟩
    · intro h; rw [j4] at h; exact absurd h1 h
    · intro h; rw [fd] at h; rw [fb]; exact ib h
    · intro h; rw [hfin'] at h; exact Bool.noConfusion h
    · intro _; rw [j3]; exact hem
    · intro h _; rw [j4] at h; exact absurd h1 h
  · have hcs : c.status = Status.Finished := hc hp
    by_cases h0 : s._results_1 = none
    · obtain ⟨j1, _, j3, j4⟩ := gg hfin hp h0
      have hfin' : (s.call_ampE c).isFinished = false := by
        unfold AmplitudeProcessor_ML2h.isFinished at hfin ⊢
        rw [j1]; exact hfin
      refine ⟨?_, ?_, ?_, ?_, ?_⟩
      · intro _; rw [hstN]; exact hcs
      · intro h; rw [fd] at h; rw [fb]; exact ib h
      · intro h; rw [hfin'] at h; exact Bool.noConfusion h
      · intro _; rw [j3]; exact hem
      · intro _ h; rw [fd] at h; exact absurd h0 h
    · obtain ⟨j1, _, ⟨r, j3⟩, j4⟩ := gh hfin hp h0
      refine ⟨?_, ?_, ?_, ?_, ?_⟩
      · intro _; rw [hstN]; exact hcs
      · intro h; rw [fd] at h; rw [fb]; exact ib h
      · intro _
        have hE : (s.call_ampE c)._ampN.status = Status.Finished := by
          rw [fb]; exact ib h0
        unfold AmplitudeProcessor_MLh.isFinished
        rw [hE, hstN, hcs]
        exact ⟨rfl, rfl⟩
      · rintro (h | h)
        · exact absurd h j4
        · rw [fd] at h; exact absurd h h0
      · intro _ _
        exact ⟨j1, r, by rw [j3, hem]⟩

/-- Setting the status of an unfinished combiner keeps the invariant of the
run, provided a finished status is only set when both units are finished. -/
theorem setStatus_invariant {α : Type} [LinearOrderedField α]
    (e0 : List (Result α)) (s : AmplitudeProcessor_ML2h α) (st : Status) (v : α)
    (hinv : s.RunInvariant e0) (hfin : s.isFinished = false)
    (hst : Status.InProgress < st →
      s._ampE.isFinished = true ∧ s._ampN.isFinished = true) :
    (s.setStatus st v).RunInvariant e0 := by
  obtain ⟨ia, ib, _, id, ie⟩ := hinv
  refine ⟨ia, ib, ?_, id, ?_⟩
  · intro h
    apply hst
    simpa [AmplitudeProcessor_ML2h.isFinished, AmplitudeProcessor_ML2h.setStatus] using h
  · intro h0 h1
    have h2 := (ie h0 h1).1
    unfold AmplitudeProcessor_ML2h.isFinished at hfin
    rw [h2] at hfin
    exact absurd hfin (by decide)

/-- A unit whose status is `InProgress` is not finished. -/
theorem not_isFinished_of_inProgress {α : Type} (u : AmplitudeProcessor_MLh α)
    (h : u.status = Status.InProgress) : u.isFinished = false := by
  unfold AmplitudeProcessor_MLh.isFinished
  rw [h]; rfl

/-- One `feed` call whose unit call publishes only on `Finished` keeps the
invariant of the run. -/
theorem feed_invariant {α : Type} [LinearOrderedField α]
    (e0 : List (Result α)) (s : AmplitudeProcessor_ML2h α)
    (_streamConfig : Component → String) (record : Record) (c : UnitCall α)
    (hinv : s.RunInvariant e0) (hc : c.completion) :
    (s.feed _streamConfig record c).2.RunInvariant e0 := by
  unfold AmplitudeProcessor_ML2h.feed
  dsimp only
  split
  · exact hinv
  split
  · exact hinv
  split
  · split
    · rename_i hN
      have hN' : s._ampN.isFinished = false := by simpa using hN
      have hinv' := call_ampN_invariant e0 s c hinv hN' hc
      split
      · rename_i hip
        refine setStatus_invariant e0 _ _ _ hinv' ?_ (fun h => absurd h (by decide))
        cases hf : (s.call_ampN c).isFinished
        · rfl
        · have := (hinv'.2.2.1 hf).2
          rw [not_isFinished_of_inProgress _ hip] at this
          exact Bool.noConfusion this
      · split
        · rename_i hboth
          rw [Bool.and_eq_true] at hboth
          split
          · rename_i hnf
            have hnf' : (s.call_ampN c).isFinished = false := by simpa using hnf
            split
            · exact setStatus_invariant e0 _ _ _ hinv' hnf' (fun _ => ⟨hboth.2, hboth.1⟩)
            · exact setStatus_invariant e0 _ _ _ hinv' hnf' (fun _ => ⟨hboth.2, hboth.1⟩)
          · exact hinv'
        · exact hinv'
    · exact hinv
  · split
    · split
      · rename_i hE
        have hE' : s._ampE.isFinished = false := by simpa using hE
        have hinv' := call_ampE_invariant e0 s c hinv hE' hc
        split
        · rename_i hip
          refine setStatus_invariant e0 _ _ _ hinv' ?_ (fun h => absurd h (by decide))
          cases hf : (s.call_ampE c).isFinished
          · rfl
          · have := (hinv'.2.2.1 hf).1
            rw [not_isFinished_of_inProgress _ hip] at this
            exact Bool.noConfusion this
        · split
          · rename_i hboth
            rw [Bool.and_eq_true] at hboth
            split
            · rename_i hnf
              have hnf' : (s.call_ampE c).isFinished = false := by simpa using hnf
              split
              · exact setStatus_invariant e0 _ _ _ hinv' hnf' (fun _ => ⟨hboth.1, hboth.2⟩)
              · exact setStatus_invariant e0 _ _ _ hinv' hnf' (fun _ => ⟨hboth.1, hboth.2⟩)
            · exact hinv'
          · exact hinv'
      · exact hinv
    · exact hinv

/-- A run of `feed` calls whose unit calls publish only on `Finished` keeps the
invariant of the run. -/
theorem feeds_invariant {α : Type} [LinearOrderedField α]
    (e0 : List (Result α)) (_streamConfig : Component → String)
    (calls : List (FeedCall α)) (s : AmplitudeProcessor_ML2h α)
    (hinv : s.RunInvariant e0) (hc : ∀ c ∈ calls, c.call.completion) :
    (s.feeds _streamConfig calls).RunInvariant e0 := by
  induction calls generalizing s with
  | nil => exact hinv
  | cons c cs ih =>
    unfold AmplitudeProcessor_ML2h.feeds
    rw [List.foldl_cons]
    exact ih _ (feed_invariant e0 s _streamConfig c.record c.call hinv
      (hc c (List.mem_cons_self _ _))) (fun c' hc' => hc c' (List.mem_cons_of_mem _ hc'))

/-- A combiner without stored results that is not finished satisfies the
invariant of the run that starts there. -/
theorem invariant_start {α : Type} [LinearOrderedField α] (s : AmplitudeProcessor_ML2h α)
    (hfin : s.isFinished = false) (h0 : s._results_0 = none) (h1 : s._results_1 = none) :
    s.RunInvariant s.emitted := by
  refine ⟨fun h => absurd h0 h, fun h => absurd h1 h, ?_, fun _ => rfl, fun h => absurd h0 h⟩
  intro h
  rw [hfin] at h
  exact Bool.noConfusion h

/-- A delivery that emits a result leaves both results stored. -/
theorem newAmplitude_emits_on_second {α : Type} [LinearOrderedField α]
    (t : AmplitudeProcessor_ML2h α) (proc : Proc) (res : Result α)
    (h : (t.newAmplitude proc res).emitted ≠ t.emitted) :
    (t.newAmplitude proc res)._results_0 ≠ none ∧
      (t.newAmplitude proc res)._results_1 ≠ none := by
  cases hf : t.isFinished
  · cases proc <;> cases h0 : t._results_0 <;> cases h1 : t._results_1 <;>
      simp [AmplitudeProcessor_ML2h.newAmplitude, AmplitudeProcessor_ML2h.setStatus,
        AmplitudeProcessor_ML2h.emitAmplitude, hf, h0, h1] at h ⊢
  · rw [newAmplitude_finished t proc res hf] at h
    exact absurd rfl h

/-- C12: in every run of `feed` calls that starts from an unfinished combiner
without stored results and in which the units publish only on reaching
`Finished`, at most one result is emitted; nothing is emitted while a channel
result is missing, and a delivery that emits finds a result missing and leaves
both stored; once both results are stored the combiner is `Finished`, exactly
one result has been emitted, and every later `newAmplitude` or `feed` call
leaves the combiner, its emitted results, stored results and status included,
unchanged. -/
theorem merge_fires_once {α : Type} [LinearOrderedField α]
    (s0 : AmplitudeProcessor_ML2h α) (_streamConfig : Component → String)
    (calls : List (FeedCall α))
    (hfin : s0.isFinished = false)
    (h0 : s0._results_0 = none) (h1 : s0._results_1 = none)
    (hc : ∀ c ∈ calls, c.call.completion) :
    ((s0.feeds _streamConfig calls).emitted = s0.emitted ∨
        ∃ r, (s0.feeds _streamConfig calls).emitted = s0.emitted ++ [r]) ∧
      ((s0.feeds _streamConfig calls)._results_0 = none ∨
          (s0.feeds _streamConfig calls)._results_1 = none →
        (s0.feeds _streamConfig calls).emitted = s0.emitted) ∧
      (∀ proc res,
        ((s0.feeds _streamConfig calls).newAmplitude proc res).emitted
            ≠ (s0.feeds _streamConfig calls).emitted →
          ((s0.feeds _streamConfig calls)._results_0 = none ∨
            (s0.feeds _streamConfig calls)._results_1 = none) ∧
          ((s0.feeds _streamConfig calls).newAmplitude proc res)._results_0 ≠ none ∧
          ((s0.feeds _streamConfig calls).newAmplitude proc res)._results_1 ≠ none) ∧
      ((s0.feeds _streamConfig calls)._results_0 ≠ none →
        (s0.feeds _streamConfig calls)._results_1 ≠ none →
          (s0.feeds _streamConfig calls).status = Status.Finished ∧
          (∃ r, (s0.feeds _streamConfig calls).emitted = s0.emitted ++ [r]) ∧
          (∀ proc res, (s0.feeds _streamConfig calls).newAmplitude proc res
            = s0.feeds _streamConfig calls) ∧
          (∀ record call, (s0.feeds _streamConfig calls).feed _streamConfig record call
            = (false, s0.feeds _streamConfig calls))) := by
  have hinv := feeds_invariant s0.emitted _streamConfig calls s0
    (invariant_start s0 hfin h0 h1) hc
  generalize s0.feeds _streamConfig calls = s at hinv ⊢
  obtain ⟨ia, ib, _, id, ie⟩ := hinv
  have hlate : s._results_0 ≠ none → s._results_1 ≠ none →
      s.status = Status.Finished ∧ (∃ r, s.emitted = s0.emitted ++ [r]) ∧
      (∀ proc res, s.newAmplitude proc res = s) ∧
      (∀ record call, s.feed _streamConfig record call = (false, s)) := by
    intro hr0 hr1
    obtain ⟨hst, hem⟩ := ie hr0 hr1
    refine ⟨hst, hem, ?_, ?_⟩
    · intro proc res
      apply newAmplitude_finished
      unfold AmplitudeProcessor_ML2h.isFinished
      rw [hst]; rfl
    · intro record call
      apply feed_refused
      left
      unfold AmplitudeProcessor_MLh.isFinished
      rw [ia hr0, ib hr1]; rfl
  refine ⟨?_, id, ?_, hlate⟩
  · by_cases hr0 : s._results_0 = none
    · exact Or.inl (id (Or.inl hr0))
    · by_cases hr1 : s._results_1 = none
      · exact Or.inl (id (Or.inr hr1))
      · exact Or.inr (ie hr0 hr1).2
  · intro proc res hne
    refine ⟨?_, newAmplitude_emits_on_second s proc res hne⟩
    by_contra hcon
    rw [not_or] at hcon
    rw [(hlate hcon.1 hcon.2).2.2.1 proc res] at hne
    exact hne rfl

/-- Witness for C12: on the constructed combiner, N is fed twice and finishes
publishing the value 5, E finishes publishing the value 3, and one more record
of E follows; both results are stored, the status is `Finished`, exactly one
result has been emitted and a further `feed` call is refused. -/
theorem merge_fires_once_witness :
    ((AmplitudeProcessor_ML2h.construct (α := ℚ)).feeds
        (fun c => match c with
          | Component.VerticalComponent => "HHZ"
          | Component.FirstHorizontalComponent => "HHN"
          | Component.SecondHorizontalComponent => "HHE")
        [⟨⟨"HHN"⟩, ⟨Status.InProgress, 50, []⟩⟩,
         ⟨⟨"HHN"⟩, ⟨Status.Finished, 100,
            [⟨1, UsedComponent.FirstHorizontal, ⟨5, some 1, some 2⟩, ⟨100, -1, 2⟩, 1, 3⟩]⟩⟩,
         ⟨⟨"HHE"⟩, ⟨Status.Finished, 100,
            [⟨2, UsedComponent.SecondHorizontal, ⟨3, none, none⟩, ⟨101, -2, 1⟩, 1, 3⟩]⟩⟩,
         ⟨⟨"HHE"⟩, ⟨Status.InProgress, 10, []⟩⟩]).status = Status.Finished ∧
      ∃ r, ((AmplitudeProcessor_ML2h.construct (α := ℚ)).feeds
        (fun c => match c with
          | Component.VerticalComponent => "HHZ"
          | Component.FirstHorizontalComponent => "HHN"
          | Component.SecondHorizontalComponent => "HHE")
        [⟨⟨"HHN"⟩, ⟨Status.InProgress, 50, []⟩⟩,
         ⟨⟨"HHN"⟩, ⟨Status.Finished, 100,
            [⟨1, UsedComponent.FirstHorizontal, ⟨5, some 1, some 2⟩, ⟨100, -1, 2⟩, 1, 3⟩]⟩⟩,
         ⟨⟨"HHE"⟩, ⟨Status.Finished, 100,
            [⟨2, UsedComponent.SecondHorizontal, ⟨3, none, none⟩, ⟨101, -2, 1⟩, 1, 3⟩]⟩⟩,
         ⟨⟨"HHE"⟩, ⟨Status.InProgress, 10, []⟩⟩]).emitted = [] ++ [r] := by
  have h := (merge_fires_once (AmplitudeProcessor_ML2h.construct (α := ℚ))
    (fun c => match c with
      | Component.VerticalComponent => "HHZ"
      | Component.FirstHorizontalComponent => "HHN"
      | Component.SecondHorizontalComponent => "HHE")
    [⟨⟨"HHN"⟩, ⟨Status.InProgress, 50, []⟩⟩,
     ⟨⟨"HHN"⟩, ⟨Status.Finished, 100,
        [⟨1, UsedComponent.FirstHorizontal, ⟨5, some 1, some 2⟩, ⟨100, -1, 2⟩, 1, 3⟩]⟩⟩,
     ⟨⟨"HHE"⟩, ⟨Status.Finished, 100,
        [⟨2, UsedComponent.SecondHorizontal, ⟨3, none, none⟩, ⟨101, -2, 1⟩, 1, 3⟩]⟩⟩,
     ⟨⟨"HHE"⟩, ⟨Status.InProgress, 10, []⟩⟩]
    rfl rfl rfl (by
      intro c hc
      simp only [List.mem_cons, List.mem_singleton, List.not_mem_nil, or_false] at hc
      rcases hc with rfl | rfl | rfl | rfl
      · exact fun h => absurd rfl h
      · exact fun _ => rfl
      · exact fun _ => rfl
      · exact fun h => absurd rfl h)).2.2.2 (by decide) (by decide)
  exact ⟨h.1, h.2.1⟩

/-- A `feed` call forwarded to `_ampN` that finishes this unit while `_ampE` is
already finished, on an unfinished combiner and without a merge during the
call: the combiner takes the status of `_ampN` if the status of `_ampE` is
`Finished`, and the status of `_ampE` otherwise. -/
theorem feed_N_second {α : Type} [LinearOrderedField α]
    (s : AmplitudeProcessor_ML2h α) (_streamConfig : Component → String)
    (record : Record) (c : UnitCall α)
    (hsfin : s.isFinished = false)
    (hcode : record.channelCode = _streamConfig Component.FirstHorizontalComponent)
    (hN : s._ampN.isFinished = false) (hE : s._ampE.isFinished = true)
    (hcfin : Status.InProgress < c.status)
    (hnomerge : c.published = [] ∨ s._results_0 = none) :
    (s.feed _streamConfig record c).2._ampN.status = c.status ∧
    (s._ampE.status = Status.Finished →
      (s.feed _streamConfig record c).2.status = c.status ∧
      (s.feed _streamConfig record c).2.statusValue = c.statusValue) ∧
    (s._ampE.status ≠ Status.Finished →
      (s.feed _streamConfig record c).2.status = s._ampE.status ∧
      (s.feed _streamConfig record c).2.statusValue = s._ampE.statusValue) := by
  obtain ⟨⟨fa, fb, _, _⟩, ge, gg, _⟩ := call_ampN_spec s c
  have hst : (s.call_ampN c).status = s.status := by
    by_cases hp : c.published = []
    · exact (ge (Or.inr hp)).1
    · exact (gg hsfin hp (hnomerge.resolve_left hp)).1
  have hnf : (!(s.call_ampN c).isFinished) = true := by
    unfold AmplitudeProcessor_ML2h.isFinished at hsfin ⊢
    rw [hst, hsfin]; rfl
  have hNst : (s.call_ampN c)._ampN.status = c.status := by rw [fa]
  have hNv : (s.call_ampN c)._ampN.statusValue = c.statusValue := by rw [fa]
  have g1 : ¬ (s._ampE.isFinished && s._ampN.isFinished) = true := by
    rw [hN, hE]; decide
  have g2 : ¬ Status.Finished < s.status := by
    intro h
    have h3 : Status.InProgress < s.status := Nat.lt_trans (by decide) h
    unfold AmplitudeProcessor_ML2h.isFinished at hsfin
    rw [decide_eq_false_iff_not] at hsfin
    exact hsfin h3
  have hN' : (!s._ampN.isFinished) = true := by rw [hN]; rfl
  have hnip : ¬ (s.call_ampN c)._ampN.status = Status.InProgress := by
    rw [hNst]
    intro h
    rw [h] at hcfin
    exact absurd hcfin (by decide)
  have hboth : ((s.call_ampN c)._ampN.isFinished && (s.call_ampN c)._ampE.isFinished) = true := by
    rw [fb, hE, Bool.and_true]
    unfold AmplitudeProcessor_MLh.isFinished
    rw [hNst]
    exact decide_eq_true hcfin
  have key : (s.feed _streamConfig record c).2 =
      if (s.call_ampN c)._ampE.status = Status.Finished then
        (s.call_ampN c).setStatus (s.call_ampN c)._ampN.status
          (s.call_ampN c)._ampN.statusValue
      else
        (s.call_ampN c).setStatus (s.call_ampN c)._ampE.status
          (s.call_ampN c)._ampE.statusValue := by
    unfold AmplitudeProcessor_ML2h.feed
    rw [if_neg g1, if_neg g2, if_pos hcode, if_pos hN']
    dsimp only
    rw [if_neg hnip, if_pos hboth, if_pos hnf]
    split <;> rfl
  rw [fb, hNst, hNv] at key
  refine ⟨?_, ?_, ?_⟩
  · rw [key]
    split <;> exact hNst
  · intro h
    rw [key, if_pos h]
    exact ⟨rfl, rfl⟩
  · intro h
    rw [key, if_neg h]
    exact ⟨rfl, rfl⟩

/-- A `feed` call forwarded to `_ampE` that finishes this unit while `_ampN` is
already finished, on an unfinished combiner and without a merge during the
call: the combiner takes the status of `_ampE` if the status of `_ampN` is
`Finished`, and the status of `_ampN` otherwise. -/
theorem feed_E_second {α : Type} [LinearOrderedField α]
    (s : AmplitudeProcessor_ML2h α) (_streamConfig : Component → String)
    (record : Record) (c : UnitCall α)
    (hsfin : s.isFinished = false)
    (hcodeN : record.channelCode ≠ _streamConfig Component.FirstHorizontalComponent)
    (hcode : record.channelCode = _streamConfig Component.SecondHorizontalComponent)
    (hN : s._ampE.isFinished = false) (hE : s._ampN.isFinished = true)
    (hcfin : Status.InProgress < c.status)
    (hnomerge : c.published = [] ∨ s._results_1 = none) :
    (s.feed _streamConfig record c).2._ampE.status = c.status ∧
    (s._ampN.status = Status.Finished →
      (s.feed _streamConfig record c).2.status = c.status ∧
      (s.feed _streamConfig record c).2.statusValue = c.statusValue) ∧
    (s._ampN.status ≠ Status.Finished →
      (s.feed _streamConfig record c).2.status = s._ampN.status ∧
      (s.feed _streamConfig record c).2.statusValue = s._ampN.statusValue) := by
  obtain ⟨⟨fa, fb, _, _⟩, ge, gg, _⟩ := call_ampE_spec s c
  have hst : (s.call_ampE c).status = s.status := by
    by_cases hp : c.published = []
    · exact (ge (Or.inr hp)).1
    · exact (gg hsfin hp (hnomerge.resolve_left hp)).1
  have hnf : (!(s.call_ampE c).isFinished) = true := by
    unfold AmplitudeProcessor_ML2h.isFinished at hsfin ⊢
    rw [hst, hsfin]; rfl
  have hNst : (s.call_ampE c)._ampE.status = c.status := by rw [fa]
  have hNv : (s.call_ampE c)._ampE.statusValue = c.statusValue := by rw [fa]
  have g1 : ¬ (s._ampE.isFinished && s._ampN.isFinished) = true := by
    rw [hN, hE]; decide
  have g2 : ¬ Status.Finished < s.status := by
    intro h
    have h3 : Status.InProgress < s.status := Nat.lt_trans (by decide) h
    unfold AmplitudeProcessor_ML2h.isFinished at hsfin
    rw [decide_eq_false_iff_not] at hsfin
    exact hsfin h3
  have hN' : (!s._ampE.isFinished) = true := by rw [hN]; rfl
  have hnip : ¬ (s.call_ampE c)._ampE.status = Status.InProgress := by
    rw [hNst]
    intro h
    rw [h] at hcfin
    exact absurd hcfin (by decide)
  have hboth : ((s.call_ampE c)._ampE.isFinished && (s.call_ampE c)._ampN.isFinished) = true := by
    rw [fb, hE, Bool.and_true]
    unfold AmplitudeProcessor_MLh.isFinished
    rw [hNst]
    exact decide_eq_true hcfin
  have key : (s.feed _streamConfig record c).2 =
      if (s.call_ampE c)._ampN.status = Status.Finished then
        (s.call_ampE c).setStatus (s.call_ampE c)._ampE.status
          (s.call_ampE c)._ampE.statusValue
      else
        (s.call_ampE c).setStatus (s.call_ampE c)._ampN.status
          (s.call_ampE c)._ampN.statusValue := by
    unfold AmplitudeProcessor_ML2h.feed
    rw [if_neg g1, if_neg g2, if_neg hcodeN, if_pos hcode, if_pos hN']
    dsimp only
    rw [if_neg hnip, if_pos hboth, if_pos hnf]
    split <;> rfl
  rw [fb, hNst, hNv] at key
  refine ⟨?_, ?_, ?_⟩
  · rw [key]
    split <;> exact hNst
  · intro h
    rw [key, if_pos h]
    exact ⟨rfl, rfl⟩
  · intro h
    rw [key, if_neg h]
    exact ⟨rfl, rfl⟩

/-- A status greater than `Finished` is greater than `InProgress`. -/
theorem inProgress_lt_of_finished_lt (st : Status) (h : Status.Finished < st) :
    Status.InProgress < st :=
  Nat.lt_trans (by decide) h

/-- In a state that satisfies the invariant of the run, an unfinished unit
means an unfinished combiner. -/
theorem RunInvariant.not_finished {α : Type} (e0 : List (Result α))
    (s : AmplitudeProcessor_ML2h α) (hinv : s.RunInvariant e0)
    (h : s._ampE.isFinished = false ∨ s._ampN.isFinished = false) :
    s.isFinished = false := by
  cases hf : s.isFinished
  · rfl
  · obtain ⟨hE, hN⟩ := hinv.2.2.1 hf
    rcases h with h | h
    · rw [hE] at h; exact Bool.noConfusion h
    · rw [hN] at h; exact Bool.noConfusion h

/-- C13 (as stated, refuted): E has finished with `Finished` and published its
result; the next record makes N finish with the error status `Failed 3`. After
the call exactly one unit has the status `Finished` and the other an error,
and the status of the combiner is the error `Failed 3`, not `Finished`. -/
theorem feed_mixed_outcome_counterexample :
    ((((AmplitudeProcessor_ML2h.construct (α := ℚ)).feeds
        (fun c => match c with
          | Component.VerticalComponent => "HHZ"
          | Component.FirstHorizontalComponent => "HHN"
          | Component.SecondHorizontalComponent => "HHE")
        [⟨⟨"HHE"⟩, ⟨Status.Finished, 100,
            [⟨2, UsedComponent.SecondHorizontal, ⟨3, none, none⟩, ⟨101, -2, 1⟩, 1, 3⟩]⟩⟩]).feed
        (fun c => match c with
          | Component.VerticalComponent => "HHZ"
          | Component.FirstHorizontalComponent => "HHN"
          | Component.SecondHorizontalComponent => "HHE")
        ⟨"HHN"⟩ ⟨Status.Failed 3, 0, []⟩).2.status = Status.Failed 3) ∧
    ((((AmplitudeProcessor_ML2h.construct (α := ℚ)).feeds
        (fun c => match c with
          | Component.VerticalComponent => "HHZ"
          | Component.FirstHorizontalComponent => "HHN"
          | Component.SecondHorizontalComponent => "HHE")
        [⟨⟨"HHE"⟩, ⟨Status.Finished, 100,
            [⟨2, UsedComponent.SecondHorizontal, ⟨3, none, none⟩, ⟨101, -2, 1⟩, 1, 3⟩]⟩⟩]).feed
        (fun c => match c with
          | Component.VerticalComponent => "HHZ"
          | Component.FirstHorizontalComponent => "HHN"
          | Component.SecondHorizontalComponent => "HHE")
        ⟨"HHN"⟩ ⟨Status.Failed 3, 0, []⟩).2._ampE.status = Status.Finished) ∧
    ((((AmplitudeProcessor_ML2h.construct (α := ℚ)).feeds
        (fun c => match c with
          | Component.VerticalComponent => "HHZ"
          | Component.FirstHorizontalComponent => "HHN"
          | Component.SecondHorizontalComponent => "HHE")
        [⟨⟨"HHE"⟩, ⟨Status.Finished, 100,
            [⟨2, UsedComponent.SecondHorizontal, ⟨3, none, none⟩, ⟨101, -2, 1⟩, 1, 3⟩]⟩⟩]).feed
        (fun c => match c with
          | Component.VerticalComponent => "HHZ"
          | Component.FirstHorizontalComponent => "HHN"
          | Component.SecondHorizontalComponent => "HHE")
        ⟨"HHN"⟩ ⟨Status.Failed 3, 0, []⟩).2._ampN.status = Status.Failed 3) := by
  refine ⟨?_, ?_, ?_⟩ <;> decide

/-- C13 (amended): in a run of `feed` calls that starts from an unfinished
combiner without stored results and in which the units publish only on
reaching `Finished`, whenever a `feed` call makes one unit finish while the
other unit is already finished, and exactly one of the two has the status
`Finished` while the other has an error status (greater than `Finished`), the
status and status value of the combiner after the call are those of the unit
with the error status, for either unit being fed. -/
theorem feed_mixed_outcome {α : Type} [LinearOrderedField α]
    (s0 : AmplitudeProcessor_ML2h α) (_streamConfig : Component → String)
    (calls : List (FeedCall α)) (record : Record) (c : UnitCall α)
    (hfin : s0.isFinished = false)
    (h0 : s0._results_0 = none) (h1 : s0._results_1 = none)
    (hc : ∀ c' ∈ calls, c'.call.completion) (hcc : c.completion) :
    (record.channelCode = _streamConfig Component.FirstHorizontalComponent →
      (s0.feeds _streamConfig calls)._ampN.isFinished = false →
      ((Status.Finished < c.status ∧
          (s0.feeds _streamConfig calls)._ampE.status = Status.Finished →
        ((s0.feeds _streamConfig calls).feed _streamConfig record c).2.status = c.status ∧
        ((s0.feeds _streamConfig calls).feed _streamConfig record c).2.statusValue
          = c.statusValue) ∧
       (c.status = Status.Finished ∧
          Status.Finished < (s0.feeds _streamConfig calls)._ampE.status →
        ((s0.feeds _streamConfig calls).feed _streamConfig record c).2.status
          = (s0.feeds _streamConfig calls)._ampE.status ∧
        ((s0.feeds _streamConfig calls).feed _streamConfig record c).2.statusValue
          = (s0.feeds _streamConfig calls)._ampE.statusValue))) ∧
    (record.channelCode ≠ _streamConfig Component.FirstHorizontalComponent →
      record.channelCode = _streamConfig Component.SecondHorizontalComponent →
      (s0.feeds _streamConfig calls)._ampE.isFinished = false →
      ((Status.Finished < c.status ∧
          (s0.feeds _streamConfig calls)._ampN.status = Status.Finished →
        ((s0.feeds _streamConfig calls).feed _streamConfig record c).2.status = c.status ∧
        ((s0.feeds _streamConfig calls).feed _streamConfig record c).2.statusValue
          = c.statusValue) ∧
       (c.status = Status.Finished ∧
          Status.Finished < (s0.feeds _streamConfig calls)._ampN.status →
        ((s0.feeds _streamConfig calls).feed _streamConfig record c).2.status
          = (s0.feeds _streamConfig calls)._ampN.status ∧
        ((s0.feeds _streamConfig calls).feed _streamConfig record c).2.statusValue
          = (s0.feeds _streamConfig calls)._ampN.statusValue))) := by
  have hinv := feeds_invariant s0.emitted _streamConfig calls s0
    (invariant_start s0 hfin h0 h1) hc
  generalize s0.feeds _streamConfig calls = s at hinv ⊢
  have hfinished : ∀ u : AmplitudeProcessor_MLh α, u.status = Status.Finished →
      u.isFinished = true := by
    intro u hu
    unfold AmplitudeProcessor_MLh.isFinished
    rw [hu]; rfl
  have herror : ∀ u : AmplitudeProcessor_MLh α, Status.Finished < u.status →
      u.isFinished = true ∧ u.status ≠ Status.Finished := by
    intro u hu
    refine ⟨decide_eq_true (inProgress_lt_of_finished_lt _ hu), ?_⟩
    intro h
    rw [h] at hu
    exact absurd hu (by decide)
  have hnopub : Status.Finished < c.status → c.published = [] := by
    intro hlt
    by_contra hp
    have := hcc hp
    rw [this] at hlt
    exact absurd hlt (by decide)
  constructor
  · intro hcode hN
    have hsfin := RunInvariant.not_finished _ s hinv (Or.inr hN)
    constructor
    · rintro ⟨hce, hE⟩
      exact (feed_N_second s _streamConfig record c hsfin hcode hN (hfinished _ hE)
        (inProgress_lt_of_finished_lt _ hce) (Or.inl (hnopub hce))).2.1 hE
    · rintro ⟨hcf, hE⟩
      have hr0 : s._results_0 = none := by
        by_contra h
        exact (herror _ hE).2 (hinv.1 h)
      exact (feed_N_second s _streamConfig record c hsfin hcode hN (herror _ hE).1
        (by rw [hcf]; decide) (Or.inr hr0)).2.2 (herror _ hE).2
  · intro hcodeN hcode hE
    have hsfin := RunInvariant.not_finished _ s hinv (Or.inl hE)
    constructor
    · rintro ⟨hce, hN⟩
      exact (feed_E_second s _streamConfig record c hsfin hcodeN hcode hE (hfinished _ hN)
        (inProgress_lt_of_finished_lt _ hce) (Or.inl (hnopub hce))).2.1 hN
    · rintro ⟨hcf, hN⟩
      have hr1 : s._results_1 = none := by
        by_contra h
        exact (herror _ hN).2 (hinv.2.1 h)
      exact (feed_E_second s _streamConfig record c hsfin hcodeN hcode hE (herror _ hN).1
        (by rw [hcf]; decide) (Or.inr hr1)).2.2 (herror _ hN).2

/-- Witness for C13 (amended): after E has finished with `Finished`, a record
that makes N finish with the error `Failed 3` and status value 7 leaves the
combiner with that error and that value. -/
theorem feed_mixed_outcome_witness :
    ((((AmplitudeProcessor_ML2h.construct (α := ℚ)).feeds
        (fun c => match c with
          | Component.VerticalComponent => "HHZ"
          | Component.FirstHorizontalComponent => "HHN"
          | Component.SecondHorizontalComponent => "HHE")
        [⟨⟨"HHE"⟩, ⟨Status.Finished, 100,
            [⟨2, UsedComponent.SecondHorizontal, ⟨3, none, none⟩, ⟨101, -2, 1⟩, 1, 3⟩]⟩⟩]).feed
        (fun c => match c with
          | Component.VerticalComponent => "HHZ"
          | Component.FirstHorizontalComponent => "HHN"
          | Component.SecondHorizontalComponent => "HHE")
        ⟨"HHN"⟩ ⟨Status.Failed 3, 7, []⟩).2.status = Status.Failed 3) ∧
    ((((AmplitudeProcessor_ML2h.construct (α := ℚ)).feeds
        (fun c => match c with
          | Component.VerticalComponent => "HHZ"
          | Component.FirstHorizontalComponent => "HHN"
          | Component.SecondHorizontalComponent => "HHE")
        [⟨⟨"HHE"⟩, ⟨Status.Finished, 100,
            [⟨2, UsedComponent.SecondHorizontal, ⟨3, none, none⟩, ⟨101, -2, 1⟩, 1, 3⟩]⟩⟩]).feed
        (fun c => match c with
          | Component.VerticalComponent => "HHZ"
          | Component.FirstHorizontalComponent => "HHN"
          | Component.SecondHorizontalComponent => "HHE")
        ⟨"HHN"⟩ ⟨Status.Failed 3, 7, []⟩).2.statusValue = 7) :=
  ((feed_mixed_outcome (AmplitudeProcessor_ML2h.construct (α := ℚ))
    (fun c => match c with
          | Component.VerticalComponent => "HHZ"
          | Component.FirstHorizontalComponent => "HHN"
          | Component.SecondHorizontalComponent => "HHE")
    [⟨⟨"HHE"⟩, ⟨Status.Finished, 100,
        [⟨2, UsedComponent.SecondHorizontal, ⟨3, none, none⟩, ⟨101, -2, 1⟩, 1, 3⟩]⟩⟩]
    ⟨"HHN"⟩ ⟨Status.Failed 3, 7, []⟩ rfl rfl rfl
    (by
      intro c hc
      simp only [List.mem_singleton] at hc
      subst hc
      exact fun _ => rfl)
    (fun h => absurd rfl h)).1 (by decide) (by decide)).1 ⟨by decide, by decide⟩

/-- C14: in a run of `feed` calls that starts from an unfinished combiner
without stored results and in which the units publish only on reaching
`Finished`, whenever a `feed` call makes one unit finish with an error status
while the other unit had already finished with an error status, the status and
status value of the combiner after the call are those of the unit that
finished first, whether N or E is the unit fed last. -/
theorem feed_double_error {α : Type} [LinearOrderedField α]
    (s0 : AmplitudeProcessor_ML2h α) (_streamConfig : Component → String)
    (calls : List (FeedCall α)) (record : Record) (c : UnitCall α)
    (hfin : s0.isFinished = false)
    (h0 : s0._results_0 = none) (h1 : s0._results_1 = none)
    (hc : ∀ c' ∈ calls, c'.call.completion) :
    (record.channelCode = _streamConfig Component.FirstHorizontalComponent →
      (s0.feeds _streamConfig calls)._ampN.isFinished = false →
      Status.Finished < (s0.feeds _streamConfig calls)._ampE.status →
      Status.Finished < c.status →
        ((s0.feeds _streamConfig calls).feed _streamConfig record c).2._ampN.status
          = c.status ∧
        ((s0.feeds _streamConfig calls).feed _streamConfig record c).2.status
          = (s0.feeds _streamConfig calls)._ampE.status ∧
        ((s0.feeds _streamConfig calls).feed _streamConfig record c).2.statusValue
          = (s0.feeds _streamConfig calls)._ampE.statusValue) ∧
    (record.channelCode ≠ _streamConfig Component.FirstHorizontalComponent →
      record.channelCode = _streamConfig Component.SecondHorizontalComponent →
      (s0.feeds _streamConfig calls)._ampE.isFinished = false →
      Status.Finished < (s0.feeds _streamConfig calls)._ampN.status →
      Status.Finished < c.status →
        ((s0.feeds _streamConfig calls).feed _streamConfig record c).2._ampE.status
          = c.status ∧
        ((s0.feeds _streamConfig calls).feed _streamConfig record c).2.status
          = (s0.feeds _streamConfig calls)._ampN.status ∧
        ((s0.feeds _streamConfig calls).feed _streamConfig record c).2.statusValue
          = (s0.feeds _streamConfig calls)._ampN.statusValue) := by
  have hinv := feeds_invariant s0.emitted _streamConfig calls s0
    (invariant_start s0 hfin h0 h1) hc
  generalize s0.feeds _streamConfig calls = s at hinv ⊢
  have herror : ∀ u : AmplitudeProcessor_MLh α, Status.Finished < u.status →
      u.isFinished = true ∧ u.status ≠ Status.Finished := by
    intro u hu
    refine ⟨decide_eq_true (inProgress_lt_of_finished_lt _ hu), ?_⟩
    intro h
    rw [h] at hu
    exact absurd hu (by decide)
  constructor
  · intro hcode hN hE hce
    have hsfin := RunInvariant.not_finished _ s hinv (Or.inr hN)
    have hr0 : s._results_0 = none := by
      by_contra h
      exact (herror _ hE).2 (hinv.1 h)
    have h := feed_N_second s _streamConfig record c hsfin hcode hN (herror _ hE).1
      (inProgress_lt_of_finished_lt _ hce) (Or.inr hr0)
    exact ⟨h.1, h.2.2 (herror _ hE).2⟩
  · intro hcodeN hcode hE hN hce
    have hsfin := RunInvariant.not_finished _ s hinv (Or.inl hE)
    have hr1 : s._results_1 = none := by
      by_contra h
      exact (herror _ hN).2 (hinv.2.1 h)
    have h := feed_E_second s _streamConfig record c hsfin hcodeN hcode hE (herror _ hN).1
      (inProgress_lt_of_finished_lt _ hce) (Or.inr hr1)
    exact ⟨h.1, h.2.2 (herror _ hN).2⟩

/-- Witness for C14: E finishes first with the error `Failed 2` and value 5,
then N finishes with the error `Failed 3` and value 7; the combiner ends with
`Failed 2` and value 5. -/
theorem feed_double_error_witness :
    ((((AmplitudeProcessor_ML2h.construct (α := ℚ)).feeds
        (fun c => match c with
          | Component.VerticalComponent => "HHZ"
          | Component.FirstHorizontalComponent => "HHN"
          | Component.SecondHorizontalComponent => "HHE")
        [⟨⟨"HHE"⟩, ⟨Status.Failed 2, 5, []⟩⟩]).feed
        (fun c => match c with
          | Component.VerticalComponent => "HHZ"
          | Component.FirstHorizontalComponent => "HHN"
          | Component.SecondHorizontalComponent => "HHE")
        ⟨"HHN"⟩ ⟨Status.Failed 3, 7, []⟩).2.status = Status.Failed 2) ∧
    ((((AmplitudeProcessor_ML2h.construct (α := ℚ)).feeds
        (fun c => match c with
          | Component.VerticalComponent => "HHZ"
          | Component.FirstHorizontalComponent => "HHN"
          | Component.SecondHorizontalComponent => "HHE")
        [⟨⟨"HHE"⟩, ⟨Status.Failed 2, 5, []⟩⟩]).feed
        (fun c => match c with
          | Component.VerticalComponent => "HHZ"
          | Component.FirstHorizontalComponent => "HHN"
          | Component.SecondHorizontalComponent => "HHE")
        ⟨"HHN"⟩ ⟨Status.Failed 3, 7, []⟩).2.statusValue = 5) :=
  ((feed_double_error (AmplitudeProcessor_ML2h.construct (α := ℚ))
    (fun c => match c with
          | Component.VerticalComponent => "HHZ"
          | Component.FirstHorizontalComponent => "HHN"
          | Component.SecondHorizontalComponent => "HHE")
    [⟨⟨"HHE"⟩, ⟨Status.Failed 2, 5, []⟩⟩]
    ⟨"HHN"⟩ ⟨Status.Failed 3, 7, []⟩ rfl rfl rfl
    (by
      intro c hc
      simp only [List.mem_singleton] at hc
      subst hc
      exact fun h => absurd rfl h)).1 (by decide) (by decide) (by decide) (by decide)).2

/-! ## Theorems: parsing of the calibration table -/

/-- Skipping a prefix on which the predicate holds, in front of a list that is
empty or starts with a character on which it fails. -/
theorem dropWhile_prefix (p : Char → Bool) (pre l : List Char)
    (hpre : ∀ c ∈ pre, p c = true)
    (hl : l = [] ∨ ∃ c r, l = c :: r ∧ p c = false) :
    (pre ++ l).dropWhile p = l := by
  induction pre with
  | nil =>
    rcases hl with rfl | ⟨c, r, rfl, hc⟩
    · rfl
    · simp [List.dropWhile_cons, hc]
  | cons a pre ih =>
    have ha : p a = true := hpre a (List.mem_cons_self _ _)
    rw [List.cons_append, List.dropWhile_cons, if_pos ha]
    exact ih (fun c hc => hpre c (List.mem_cons_of_mem _ hc))

/-- Taking a prefix on which the predicate holds, in front of a list that is
empty or starts with a character on which it fails. -/
theorem takeWhile_prefix (p : Char → Bool) (pre l : List Char)
    (hpre : ∀ c ∈ pre, p c = true)
    (hl : l = [] ∨ ∃ c r, l = c :: r ∧ p c = false) :
    (pre ++ l).takeWhile p = pre := by
  induction pre with
  | nil =>
    rcases hl with rfl | ⟨c, r, rfl, hc⟩
    · rfl
    · simp [List.takeWhile_cons, hc]
  | cons a pre ih =>
    have ha : p a = true := hpre a (List.mem_cons_self _ _)
    rw [List.cons_append, List.takeWhile_cons, if_pos ha,
      ih (fun c hc => hpre c (List.mem_cons_of_mem _ hc))]

/-- Extracting a token that follows white space and is followed by nothing or
by white space: the string becomes the token and the stream stands behind
it. -/
theorem extract_token (pre w post str : List Char)
    (hpre : ∀ c ∈ pre, isspace c = true) (hw : isToken w)
    (hpost : post = [] ∨ ∃ c r, post = c :: r ∧ isspace c = true) :
    istringstream.extract { buf := pre ++ (w ++ post), fail := false } str
      = ({ buf := post, fail := false }, w) := by
  obtain ⟨hne, hall⟩ := hw
  obtain ⟨c, w', rfl⟩ := List.exists_cons_of_ne_nil hne
  have hc : isspace c = false := (hall c (List.mem_cons_self _ _)).1
  have h1 : (pre ++ (c :: w' ++ post)).dropWhile isspace = c :: w' ++ post :=
    dropWhile_prefix isspace pre _ hpre (Or.inr ⟨c, w' ++ post, rfl, hc⟩)
  have hw2 : ∀ x ∈ c :: w', (fun x => !isspace x) x = true := by
    intro x hx
    simp [(hall x hx).1]
  have hpost2 : post = [] ∨ ∃ x r, post = x :: r ∧ (fun x => !isspace x) x = false := by
    rcases hpost with h | ⟨x, r, h, hx⟩
    · exact Or.inl h
    · exact Or.inr ⟨x, r, h, by simp [hx]⟩
  have h2 := dropWhile_prefix (fun x => !isspace x) (c :: w') post hw2 hpost2
  have h3 := takeWhile_prefix (fun x => !isspace x) (c :: w') post hw2 hpost2
  unfold istringstream.extract
  simp only [Bool.false_eq_true, if_false, h1]
  rw [List.cons_append] at h2 h3 ⊢
  simp only [h2, h3]

/-- The pieces are what repeated `getline` calls deliver: on a string that is
not empty the first piece is the text before the first semicolon, and the
other pieces are those of what follows that semicolon. -/
theorem getlines_eq_getline (c : Char) (cs : List Char) :
    getlines (c :: cs) = (c :: cs).takeWhile (fun x => x ≠ ';') ::
      getlines ((c :: cs).dropWhile (fun x => x ≠ ';')).tail := by
  induction cs generalizing c with
  | nil =>
    by_cases hc : c = ';'
    · simp [getlines, hc]
    · simp [getlines, hc]
  | cons d ds ih =>
    by_cases hc : c = ';'
    · simp [getlines, hc]
    · rw [getlines, if_neg hc, ih d]
      simp [List.takeWhile_cons, List.dropWhile_cons, hc]

/-- The pieces of a string in which a text without semicolon is followed by a
semicolon. -/
theorem getlines_append_semicolon (t rest : List Char) (ht : ∀ c ∈ t, c ≠ ';') :
    getlines (t ++ ';' :: rest) = t :: getlines rest := by
  induction t with
  | nil => simp [getlines]
  | cons c t ih =>
    have hc : c ≠ ';' := ht c (List.mem_cons_self _ _)
    rw [List.cons_append, getlines, if_neg hc,
      ih (fun x hx => ht x (List.mem_cons_of_mem _ hx))]

/-- The pieces of a text without semicolon that is not empty: the text. -/
theorem getlines_single (t : List Char) (hne : t ≠ []) (ht : ∀ c ∈ t, c ≠ ';') :
    getlines t = [t] := by
  induction t with
  | nil => exact absurd rfl hne
  | cons c t ih =>
    have hc : c ≠ ';' := ht c (List.mem_cons_self _ _)
    rw [getlines, if_neg hc]
    cases t with
    | nil => simp [getlines]
    | cons d t =>
      rw [ih (List.cons_ne_nil _ _) (fun x hx => ht x (List.mem_cons_of_mem _ hx))]

/-- The pieces of texts joined by semicolons, each text not empty and without
semicolon: the texts. -/
theorem getlines_joinEntries (ts : List (List Char))
    (h : ∀ t ∈ ts, t ≠ [] ∧ ∀ c ∈ t, c ≠ ';') :
    getlines (joinEntries ts) = ts := by
  induction ts with
  | nil => simp [joinEntries, getlines]
  | cons t ts ih =>
    obtain ⟨hne, hsc⟩ := h t (List.mem_cons_self _ _)
    cases ts with
    | nil =>
      simp only [joinEntries]
      exact getlines_single t hne hsc
    | cons u us =>
      simp only [joinEntries]
      rw [getlines_append_semicolon t _ hsc]
      have := ih (fun x hx => h x (List.mem_cons_of_mem _ hx))
      simp only [joinEntries] at this
      rw [this]

/-- The character 32 is white space. -/
theorem isspace_space : isspace (Char.ofNat 32) = true := by decide

/-- The word `nomag` is a token. -/
theorem isToken_nomag : isToken ['n', 'o', 'm', 'a', 'g'] := by
  refine ⟨by decide, ?_⟩
  decide

/-- The text of a well-formed entry is not empty and holds no semicolon. -/
theorem WrittenEntry.text_spec {α : Type} [LinearOrderedField α]
    (fromString : String → Option α) (e : WrittenEntry) (v : param_struct α)
    (h : e.wellFormed fromString v) :
    e.text ≠ [] ∧ ∀ c ∈ e.text, c ≠ ';' := by
  have hsp : Char.ofNat 32 ≠ ';' := by decide
  cases e with
  | coefficients bound A B =>
    obtain ⟨hb, hA, hB, _⟩ := h
    refine ⟨?_, ?_⟩
    · simp [WrittenEntry.text]
    · intro c hc
      change c ∈ bound ++ Char.ofNat 32 :: (A ++ Char.ofNat 32 :: B) at hc
      rw [List.mem_append, List.mem_cons, List.mem_append, List.mem_cons] at hc
      rcases hc with hc | rfl | hc | rfl | hc
      · exact (hb.2 c hc).2
      · exact hsp
      · exact (hA.2 c hc).2
      · exact hsp
      · exact (hB.2 c hc).2
  | nomag bound =>
    obtain ⟨hb, _⟩ := h
    refine ⟨?_, ?_⟩
    · simp [WrittenEntry.text]
    · intro c hc
      change c ∈ bound ++ Char.ofNat 32 :: ['n', 'o', 'm', 'a', 'g'] at hc
      rw [List.mem_append, List.mem_cons] at hc
      rcases hc with hc | rfl | hc
      · exact (hb.2 c hc).2
      · exact hsp
      · exact (isToken_nomag.2 c hc).2

/-- The loop of `initParameters` over the texts of well-formed entries returns
true and appends the meaning of each entry, in order, whatever the three
strings hold on entry. -/
theorem initParameters.loop_wellFormed {α : Type} [LinearOrderedField α]
    (fromString : String → Option α) (es : List (WrittenEntry × param_struct α))
    (h : ∀ p ∈ es, p.1.wellFormed fromString p.2)
    (range_str A_str B_str : List Char) (paramlist : List (param_struct α)) :
    initParameters.loop fromString (es.map (fun p => p.1.text)) range_str A_str B_str paramlist
      = (true, paramlist ++ es.map (fun p => p.2)) := by
  induction es generalizing range_str A_str B_str paramlist with
  | nil => simp [initParameters.loop]
  | cons p es ih =>
    have hp := h p (List.mem_cons_self _ _)
    have hrest : ∀ q ∈ es, q.1.wellFormed fromString q.2 :=
      fun q hq => h q (List.mem_cons_of_mem _ hq)
    have hsp1 : ∀ c ∈ [Char.ofNat 32], isspace c = true := by
      intro c hc
      rw [List.mem_singleton] at hc
      rw [hc]; exact isspace_space
    obtain ⟨e, v⟩ := p
    obtain ⟨vd, vA, vB, vn⟩ := v
    cases e with
    | coefficients bound A B =>
      obtain ⟨hb, hA, hB, hno, fb, fA, fB, hn⟩ := hp
      simp only at fb fA fB hn
      subst hn
      have e1 : istringstream.extract
          { buf := bound ++ Char.ofNat 32 :: (A ++ Char.ofNat 32 :: B), fail := false } range_str
          = ({ buf := Char.ofNat 32 :: (A ++ Char.ofNat 32 :: B), fail := false }, bound) :=
        extract_token [] bound (Char.ofNat 32 :: (A ++ Char.ofNat 32 :: B)) range_str
          (fun c hc => absurd hc (List.not_mem_nil c)) hb
          (Or.inr ⟨_, _, rfl, isspace_space⟩)
      have e2 : istringstream.extract
          { buf := Char.ofNat 32 :: (A ++ Char.ofNat 32 :: B), fail := false } A_str
          = ({ buf := Char.ofNat 32 :: B, fail := false }, A) :=
        extract_token [Char.ofNat 32] A (Char.ofNat 32 :: B) A_str hsp1 hA
          (Or.inr ⟨_, _, rfl, isspace_space⟩)
      have e3 : istringstream.extract { buf := Char.ofNat 32 :: B, fail := false } B_str
          = ({ buf := [], fail := false }, B) := by
        have := extract_token [Char.ofNat 32] B [] B_str hsp1 hB (Or.inl rfl)
        rwa [List.append_nil] at this
      show initParameters.loop fromString
        ((bound ++ Char.ofNat 32 :: (A ++ Char.ofNat 32 :: B)) ::
          es.map (fun p => p.1.text)) range_str A_str B_str paramlist = _
      rw [initParameters.loop]
      simp only [e1, e2, e3, fb, fA, fB, hno, if_false]
      rw [ih hrest]
      simp
    | nomag bound =>
      obtain ⟨hb, fb, hA, hB, hn⟩ := hp
      simp only at fb hA hB hn
      subst hA hB hn
      have e1 : istringstream.extract
          { buf := bound ++ Char.ofNat 32 :: ['n', 'o', 'm', 'a', 'g'], fail := false } range_str
          = ({ buf := Char.ofNat 32 :: ['n', 'o', 'm', 'a', 'g'], fail := false }, bound) :=
        extract_token [] bound (Char.ofNat 32 :: ['n', 'o', 'm', 'a', 'g']) range_str
          (fun c hc => absurd hc (List.not_mem_nil c)) hb
          (Or.inr ⟨_, _, rfl, isspace_space⟩)
      have e2 : istringstream.extract
          { buf := Char.ofNat 32 :: ['n', 'o', 'm', 'a', 'g'], fail := false } A_str
          = ({ buf := [], fail := false }, ['n', 'o', 'm', 'a', 'g']) := by
        have := extract_token [Char.ofNat 32] ['n', 'o', 'm', 'a', 'g'] [] A_str hsp1
          isToken_nomag (Or.inl rfl)
        rwa [List.append_nil] at this
      have hnm : String.mk ['n', 'o', 'm', 'a', 'g'] = "nomag" := rfl
      show initParameters.loop fromString
        ((bound ++ Char.ofNat 32 :: ['n', 'o', 'm', 'a', 'g']) ::
          es.map (fun p => p.1.text)) range_str A_str B_str paramlist = _
      rw [initParameters.loop]
      simp only [e1, e2, fb, hnm, if_true]
      rw [ih hrest]
      simp

/-- C18: for every list of well-formed entries, each written as
`<bound> <A> <B>` or `<bound> nomag` and joined by semicolons, `initParameters`
returns true and appends exactly one table entry per written entry, in the
written order, with `dist`, `A`, `B` the parsed numbers and `nomag = false` for
the three-token form, and with `A = 0`, `B = 0`, `nomag = true` for the `nomag`
form. -/
theorem initParameters_wellFormed {α : Type} [LinearOrderedField α]
    (fromString : String → Option α) (paramlist : List (param_struct α))
    (es : List (WrittenEntry × param_struct α))
    (h : ∀ p ∈ es, p.1.wellFormed fromString p.2) :
    initParameters fromString paramlist
        (String.mk (joinEntries (es.map (fun p => p.1.text))))
      = (true, paramlist ++ es.map (fun p => p.2)) := by
  unfold initParameters
  rw [getlines_joinEntries]
  · exact initParameters.loop_wellFormed fromString es h [] [] [] paramlist
  · intro t ht
    rw [List.mem_map] at ht
    obtain ⟨p, hp, rfl⟩ := ht
    exact WrittenEntry.text_spec fromString p.1 p.2 (h p hp)

/-- Witness for C18: the string `60 0.018 2.17;700 nomag`, with a number
parser that knows the numbers written in it. -/
theorem initParameters_wellFormed_witness :
    initParameters (α := ℚ)
        (fun s => if s = "60" then some 60 else if s = "0.018" then some 0.018
          else if s = "2.17" then some 2.17 else if s = "700" then some 700
          else if s = "0.0038" then some 0.0038 else none)
        [] "60 0.018 2.17;700 nomag"
      = (true, [] ++ [⟨60, 0.018, 2.17, false⟩, ⟨700, 0, 0, true⟩]) :=
  initParameters_wellFormed (α := ℚ)
    (fun s => if s = "60" then some 60 else if s = "0.018" then some 0.018
      else if s = "2.17" then some 2.17 else if s = "700" then some 700
      else if s = "0.0038" then some 0.0038 else none)
    []
    [(WrittenEntry.coefficients ['6', '0'] ['0', '.', '0', '1', '8'] ['2', '.', '1', '7'],
        ⟨60, 0.018, 2.17, false⟩),
     (WrittenEntry.nomag ['7', '0', '0'], ⟨700, 0, 0, true⟩)]
    (by
      intro p hp
      simp only [List.mem_cons, List.mem_singleton, List.not_mem_nil, or_false] at hp
      rcases hp with rfl | rfl
      · exact ⟨⟨by decide, by decide⟩, ⟨by decide, by decide⟩, ⟨by decide, by decide⟩, by decide,
          rfl, rfl, rfl, rfl⟩
      · exact ⟨⟨by decide, by decide⟩, rfl, rfl, rfl, rfl⟩)

/-- C17 (code at the failing input): in `60 0.018 2.17;700 0.0038` the second
entry has a numeric second token and no third token, yet `initParameters`
returns true and stores the entry with `B = 2.17`, the content `B_str` kept
from the first entry, and `setup` accepts the configuration; the same entry
alone, `700 0.0038`, is refused. -/
theorem initParameters_missing_B_failing_input :
    initParameters (α := ℚ)
        (fun s => if s = "60" then some 60 else if s = "0.018" then some 0.018
          else if s = "2.17" then some 2.17 else if s = "700" then some 700
          else if s = "0.0038" then some 0.0038 else none)
        [] "60 0.018 2.17;700 0.0038"
      = (true, [⟨60, 0.018, 2.17, false⟩, ⟨700, 0.0038, 2.17, false⟩]) ∧
    (MagnitudeProcessor_ML.setup (α := ℚ)
        (fun s => if s = "60" then some 60 else if s = "0.018" then some 0.018
          else if s = "2.17" then some 2.17 else if s = "700" then some 700
          else if s = "0.0038" then some 0.0038 else none)
        ⟨[], ⟨0, 0, 0, true⟩⟩
        ⟨fun k => if k = "magnitudes.MLh.params" then some "60 0.018 2.17;700 0.0038" else none,
          fun _ => none⟩).1 = true ∧
    (initParameters (α := ℚ)
        (fun s => if s = "60" then some 60 else if s = "0.018" then some 0.018
          else if s = "2.17" then some 2.17 else if s = "700" then some 700
          else if s = "0.0038" then some 0.0038 else none)
        [] "700 0.0038").1 = false := by
  refine ⟨?_, ?_, ?_⟩ <;> rfl

/-! ## Theorems: setup of the combiner -/

/-- C20 (as stated, refuted): with the policy setting `avg` under the primary
key, but the setup of the base class failing, `setup` on the constructed
combiner returns false and the policy stays `Maximum`; `Average` is not
selected. -/
theorem setup_policy_counterexample :
    (AmplitudeProcessor_ML2h.construct (α := ℚ)).setup
        ⟨fun k => if k = "amplitudes.MLh.maxavg" then some "avg" else none, fun _ => none⟩
        false true true
      = (false, AmplitudeProcessor_ML2h.construct) ∧
    ((AmplitudeProcessor_ML2h.construct (α := ℚ)).setup
        ⟨fun k => if k = "amplitudes.MLh.maxavg" then some "avg" else none, fun _ => none⟩
        false true true).2._combiner = CombinerProc.Maximum := by
  constructor <;> rfl

/-- C20 (amended): on the constructed combiner, with the policy setting `v`
found under the primary key or, when the primary key is absent, under the
deprecated key: if the setups of the base class and of both units succeed,
`setup` returns true and selects `Maximum`, `Average` or `Minimum` for `max`,
`avg` or `min`; if `v` is any other string, `setup` returns false; and with
neither key present the policy stays `Maximum`. -/
theorem setup_policy {α : Type} [LinearOrderedField α] (settings : Settings α)
    (baseSetup ampNSetup ampESetup : Bool) :
    (∀ v : String,
      (settings.getString "amplitudes.MLh.maxavg" = some v ∨
        (settings.getString "amplitudes.MLh.maxavg" = none ∧
          settings.getString "MLh.maxavg" = some v)) →
      (baseSetup = true → ampNSetup = true → ampESetup = true →
        (v = "max" →
          ((AmplitudeProcessor_ML2h.construct (α := α)).setup settings
            baseSetup ampNSetup ampESetup).1 = true ∧
          ((AmplitudeProcessor_ML2h.construct (α := α)).setup settings
            baseSetup ampNSetup ampESetup).2._combiner = CombinerProc.Maximum) ∧
        (v = "avg" →
          ((AmplitudeProcessor_ML2h.construct (α := α)).setup settings
            baseSetup ampNSetup ampESetup).1 = true ∧
          ((AmplitudeProcessor_ML2h.construct (α := α)).setup settings
            baseSetup ampNSetup ampESetup).2._combiner = CombinerProc.Average) ∧
        (v = "min" →
          ((AmplitudeProcessor_ML2h.construct (α := α)).setup settings
            baseSetup ampNSetup ampESetup).1 = true ∧
          ((AmplitudeProcessor_ML2h.construct (α := α)).setup settings
            baseSetup ampNSetup ampESetup).2._combiner = CombinerProc.Minimum)) ∧
      (v ≠ "max" → v ≠ "avg" → v ≠ "min" →
        ((AmplitudeProcessor_ML2h.construct (α := α)).setup settings
            baseSetup ampNSetup ampESetup).1 = false)) ∧
    (settings.getString "amplitudes.MLh.maxavg" = none →
      settings.getString "MLh.maxavg" = none →
        ((AmplitudeProcessor_ML2h.construct (α := α)).setup settings
            baseSetup ampNSetup ampESetup).2._combiner = CombinerProc.Maximum) := by
  refine ⟨?_, ?_⟩
  · intro v hkey
    refine ⟨?_, ?_⟩
    · intro hb hn he
      subst hb hn he
      refine ⟨?_, ?_, ?_⟩ <;> intro hv <;> subst hv <;>
        rcases hkey with hk | ⟨hk1, hk2⟩ <;>
        simp [AmplitudeProcessor_ML2h.setup, AmplitudeProcessor_ML2h.setup.clipping,
          CombinerProc.fromString, *]
    · intro h1 h2 h3
      cases baseSetup <;> cases ampNSetup <;> cases ampESetup <;>
        rcases hkey with hk | ⟨hk1, hk2⟩ <;>
        simp [AmplitudeProcessor_ML2h.setup, CombinerProc.fromString, *]
  · intro hk1 hk2
    cases baseSetup <;> cases ampNSetup <;> cases ampESetup <;>
      simp [AmplitudeProcessor_ML2h.setup, AmplitudeProcessor_ML2h.setup.clipping,
        AmplitudeProcessor_ML2h.construct, *]

/-- Witness for C20 (amended): the policy `min` under the deprecated key, with
all library setups succeeding, selects `Minimum`. -/
theorem setup_policy_witness :
    ((AmplitudeProcessor_ML2h.construct (α := ℚ)).setup
        ⟨fun k => if k = "MLh.maxavg" then some "min" else none, fun _ => none⟩
        true true true).1 = true ∧
    ((AmplitudeProcessor_ML2h.construct (α := ℚ)).setup
        ⟨fun k => if k = "MLh.maxavg" then some "min" else none, fun _ => none⟩
        true true true).2._combiner = CombinerProc.Minimum :=
  (((setup_policy (α := ℚ)
    ⟨fun k => if k = "MLh.maxavg" then some "min" else none, fun _ => none⟩
    true true true).1 "min" (Or.inr ⟨by decide, by decide⟩)).1 rfl rfl rfl).2.2 rfl

/-! ## Theorems: ties between the channels -/

/-- C23: starting from an unfinished combiner without stored results, with the
used components set as the constructor sets them and the policy `Maximum` or
`Minimum`, delivering channel results with exactly equal amplitude values, in
either order, emits exactly one result; it carries the amplitude (value and
both uncertainties) and the time of E and the component `SecondHorizontal`:
E is stored at index 0 and is the first operand of the comparison. -/
theorem newAmplitude_tie {α : Type} [LinearOrderedField α]
    (s : AmplitudeProcessor_ML2h α) (rN rE : Result α)
    (hfin : s.isFinished = false)
    (h0 : s._results_0 = none) (h1 : s._results_1 = none)
    (hE : s._ampE.usedComponent = UsedComponent.SecondHorizontal)
    (hpol : s._combiner = CombinerProc.Maximum ∨ s._combiner = CombinerProc.Minimum)
    (heq : rN.amplitude.value = rE.amplitude.value) :
    ∀ out : AmplitudeProcessor_ML2h α,
      out = (s.newAmplitude Proc.ampN rN).newAmplitude Proc.ampE rE ∨
        out = (s.newAmplitude Proc.ampE rE).newAmplitude Proc.ampN rN →
      ∃ r : Result α, out.emitted = s.emitted ++ [r] ∧
        r.amplitude = rE.amplitude ∧ r.time = rE.time ∧
        r.component = UsedComponent.SecondHorizontal := by
  intro out hout
  have hfin2 : ¬ (Status.InProgress < s.status) := by
    simpa [AmplitudeProcessor_ML2h.isFinished] using hfin
  rcases hout with rfl | rfl
  · rw [newAmplitude_first_N s rN hfin h0]
    rcases hpol with hp | hp <;>
      simp [AmplitudeProcessor_ML2h.newAmplitude, AmplitudeProcessor_ML2h.isFinished,
        AmplitudeProcessor_ML2h.setStatus, AmplitudeProcessor_ML2h.emitAmplitude,
        hfin2, hp, hE, heq]
  · rw [newAmplitude_first_E s rE hfin h1]
    rcases hpol with hp | hp <;>
      simp [AmplitudeProcessor_ML2h.newAmplitude, AmplitudeProcessor_ML2h.isFinished,
        AmplitudeProcessor_ML2h.setStatus, AmplitudeProcessor_ML2h.emitAmplitude,
        hfin2, hp, hE, heq]

/-- Witness for C23: on the constructed combiner with the policy `Minimum`,
N delivers `5 -1/+2` first and E delivers `5` without uncertainties; the one
emitted result is that of E. -/
theorem newAmplitude_tie_witness :
    ∃ r : Result ℚ,
      ((({ AmplitudeProcessor_ML2h.construct with _combiner := CombinerProc.Minimum } :
            AmplitudeProcessor_ML2h ℚ).newAmplitude Proc.ampN
          ⟨1, UsedComponent.FirstHorizontal, ⟨5, some 1, some 2⟩, ⟨100, -1, 2⟩, 1, 3⟩).newAmplitude
          Proc.ampE
          ⟨2, UsedComponent.SecondHorizontal, ⟨5, none, none⟩, ⟨101, -2, 1⟩, 1, 3⟩).emitted
        = [] ++ [r] ∧
      r.amplitude = ⟨5, none, none⟩ ∧ r.time = ⟨101, -2, 1⟩ ∧
      r.component = UsedComponent.SecondHorizontal :=
  newAmplitude_tie
    ({ AmplitudeProcessor_ML2h.construct with _combiner := CombinerProc.Minimum } :
      AmplitudeProcessor_ML2h ℚ)
    ⟨1, UsedComponent.FirstHorizontal, ⟨5, some 1, some 2⟩, ⟨100, -1, 2⟩, 1, 3⟩
    ⟨2, UsedComponent.SecondHorizontal, ⟨5, none, none⟩, ⟨101, -2, 1⟩, 1, 3⟩
    rfl rfl rfl rfl (Or.inr rfl) rfl _ (Or.inl rfl)

/-! ## Theorems: order of the table entries -/

/-- C22 (as stated, refuted): the table with the two entries `(60, 1, 2)` and
`(60, 3, 4)` and its reversal are reorderings of each other, but at distance
50 the lookup returns `(60, 1, 2)` on the first and `(60, 3, 4)` on the
second: among equal bounds the entry scanned first is kept. -/
theorem selectParameters_reorder_counterexample :
    List.Perm [(⟨60, 1, 2, false⟩ : param_struct ℚ), ⟨60, 3, 4, false⟩]
        [⟨60, 3, 4, false⟩, ⟨60, 1, 2, false⟩] ∧
      selectParameters (50 : ℚ) [⟨60, 1, 2, false⟩, ⟨60, 3, 4, false⟩] = ⟨60, 1, 2, false⟩ ∧
      selectParameters (50 : ℚ) [⟨60, 3, 4, false⟩, ⟨60, 1, 2, false⟩] = ⟨60, 3, 4, false⟩ ∧
      selectParameters (50 : ℚ) [⟨60, 1, 2, false⟩, ⟨60, 3, 4, false⟩]
        ≠ selectParameters (50 : ℚ) [⟨60, 3, 4, false⟩, ⟨60, 1, 2, false⟩] := by
  refine ⟨List.Perm.swap _ _ _, ?_, ?_, ?_⟩ <;>
    norm_num [selectParameters, selectParameters.step]

/-- The two outcomes of the lookup: the synthetic entry when no entry has a
bound at or above the distance and below 1000000, else an entry of the table
with such a bound that is smallest among the bounds at or above the
distance. -/
theorem selectParameters_cases {α : Type} [LinearOrderedField α] (distance : α)
    (l : List (param_struct α)) :
    (selectParameters distance l = { nomag := true, dist := 0, A := 0, B := 0 } ∧
        ∀ p ∈ l, ¬ (p.dist < 1000000 ∧ distance ≤ p.dist)) ∨
      (selectParameters distance l ∈ l ∧
        (selectParameters distance l).dist < 1000000 ∧
        distance ≤ (selectParameters distance l).dist ∧
        ∀ p ∈ l, distance ≤ p.dist → (selectParameters distance l).dist ≤ p.dist) := by
  rcases selectParameters.foldl_spec distance l
      (1000000, { nomag := true, dist := 0, A := 0, B := 0 }) with
    ⟨heq, hnone⟩ | ⟨hmem, _, hlt, hge, hmin⟩
  · left
    refine ⟨?_, hnone⟩
    unfold selectParameters
    dsimp only
    rw [heq]
  · right
    exact ⟨hmem, hlt, hge, hmin⟩

/-- C22 (amended): for every table, every reordering of its entries and every
distance, the lookup returns an entry with the same bound on the original and
on the reordered table; and it returns the same entry, with the same `A`, `B`
and `nomag`, whenever entries of the table with equal bounds are equal. -/
theorem selectParameters_perm {α : Type} [LinearOrderedField α] (distance : α)
    (l l' : List (param_struct α)) (hp : l.Perm l') :
    (selectParameters distance l).dist = (selectParameters distance l').dist ∧
      ((∀ e1 ∈ l, ∀ e2 ∈ l, e1.dist = e2.dist → e1 = e2) →
        selectParameters distance l = selectParameters distance l') := by
  rcases selectParameters_cases distance l with ⟨h1, hn1⟩ | ⟨hm1, hl1, hg1, hmin1⟩
  · rcases selectParameters_cases distance l' with ⟨h2, _⟩ | ⟨hm2, hl2, hg2, _⟩
    · rw [h1, h2]
      exact ⟨rfl, fun _ => rfl⟩
    · exact absurd ⟨hl2, hg2⟩ (hn1 _ (hp.mem_iff.2 hm2))
  · rcases selectParameters_cases distance l' with ⟨_, hn2⟩ | ⟨hm2, _, hg2, hmin2⟩
    · exact absurd ⟨hl1, hg1⟩ (hn2 _ (hp.mem_iff.1 hm1))
    · have hd : (selectParameters distance l).dist = (selectParameters distance l').dist :=
        le_antisymm (hmin1 _ (hp.mem_iff.2 hm2) hg2) (hmin2 _ (hp.mem_iff.1 hm1) hg1)
      exact ⟨hd, fun hu => hu _ hm1 _ (hp.mem_iff.2 hm2) hd⟩

/-- Witness for C22 (amended): the table `{60, 700}` and its reversal at
distance 600. -/
theorem selectParameters_perm_witness :
    (selectParameters (600 : ℚ) [⟨60, 1, 2, false⟩, ⟨700, 3, 4, false⟩]).dist
        = (selectParameters (600 : ℚ) [⟨700, 3, 4, false⟩, ⟨60, 1, 2, false⟩]).dist ∧
      selectParameters (600 : ℚ) [⟨60, 1, 2, false⟩, ⟨700, 3, 4, false⟩]
        = selectParameters (600 : ℚ) [⟨700, 3, 4, false⟩, ⟨60, 1, 2, false⟩] :=
  ⟨(selectParameters_perm 600 [⟨60, 1, 2, false⟩, ⟨700, 3, 4, false⟩]
      [⟨700, 3, 4, false⟩, ⟨60, 1, 2, false⟩] (List.Perm.swap _ _ _)).1,
    (selectParameters_perm 600 [⟨60, 1, 2, false⟩, ⟨700, 3, 4, false⟩]
      [⟨700, 3, 4, false⟩, ⟨60, 1, 2, false⟩] (List.Perm.swap _ _ _)).2 (by
        intro e1 h1 e2 h2 hd
        simp only [List.mem_cons, List.mem_singleton, List.not_mem_nil, or_false] at h1 h2
        rcases h1 with rfl | rfl <;> rcases h2 with rfl | rfl <;>
          first | rfl | (norm_num at hd))⟩

/-! ## Theorems: status and stored results -/

/-- C21 (code at the failing input): on the constructed combiner, `reprocess`
in which N ends `InProgress` without publishing and E ends `Finished`
publishing its result leaves the combiner with the status `Finished` while the
result of N is missing; when N then finishes and publishes, the finished
combiner ignores the result, so that the result of N stays missing and
nothing is ever emitted. -/
theorem reprocess_finished_with_one_result :
    ((AmplitudeProcessor_ML2h.construct (α := ℚ)).reprocess none none
        ⟨Status.InProgress, 40, []⟩
        ⟨Status.Finished, 100,
          [⟨2, UsedComponent.SecondHorizontal, ⟨3, none, none⟩, ⟨101, -2, 1⟩, 1, 3⟩]⟩).status
        = Status.Finished ∧
      ((AmplitudeProcessor_ML2h.construct (α := ℚ)).reprocess none none
        ⟨Status.InProgress, 40, []⟩
        ⟨Status.Finished, 100,
          [⟨2, UsedComponent.SecondHorizontal, ⟨3, none, none⟩, ⟨101, -2, 1⟩, 1, 3⟩]⟩)._results_1
        = none ∧
      ((AmplitudeProcessor_ML2h.construct (α := ℚ)).reprocess none none
        ⟨Status.InProgress, 40, []⟩
        ⟨Status.Finished, 100,
          [⟨2, UsedComponent.SecondHorizontal, ⟨3, none, none⟩, ⟨101, -2, 1⟩, 1, 3⟩]⟩)._results_0
        ≠ none ∧
      ((((AmplitudeProcessor_ML2h.construct (α := ℚ)).reprocess none none
        ⟨Status.InProgress, 40, []⟩
        ⟨Status.Finished, 100,
          [⟨2, UsedComponent.SecondHorizontal, ⟨3, none, none⟩, ⟨101, -2, 1⟩, 1, 3⟩]⟩).feed
        (fun c => match c with
          | Component.VerticalComponent => "HHZ"
          | Component.FirstHorizontalComponent => "HHN"
          | Component.SecondHorizontalComponent => "HHE")
        ⟨"HHN"⟩
        ⟨Status.Finished, 100,
          [⟨1, UsedComponent.FirstHorizontal, ⟨5, some 1, some 2⟩, ⟨100, -1, 2⟩, 1, 3⟩]⟩).2._results_1
        = none) ∧
      ((((AmplitudeProcessor_ML2h.construct (α := ℚ)).reprocess none none
        ⟨Status.InProgress, 40, []⟩
        ⟨Status.Finished, 100,
          [⟨2, UsedComponent.SecondHorizontal, ⟨3, none, none⟩, ⟨101, -2, 1⟩, 1, 3⟩]⟩).feed
        (fun c => match c with
          | Component.VerticalComponent => "HHZ"
          | Component.FirstHorizontalComponent => "HHN"
          | Component.SecondHorizontalComponent => "HHE")
        ⟨"HHN"⟩
        ⟨Status.Finished, 100,
          [⟨1, UsedComponent.FirstHorizontal, ⟨5, some 1, some 2⟩, ⟨100, -1, 2⟩, 1, 3⟩]⟩).2.emitted
        = []) := by
  refine ⟨?_, ?_, ?_, ?_, ?_⟩ <;> decide

/-- A call into the unit `_ampN`, made on an unfinished combiner that does not
hold the result of that unit and publishing only on `Finished`, keeps the
invariant of the run. -/
theorem call_ampN_invariant_of {α : Type} [LinearOrderedField α]
    (e0 : List (Result α)) (s : AmplitudeProcessor_ML2h α) (c : UnitCall α)
    (hinv : s.RunInvariant e0) (hfin : s.isFinished = false) (h1 : s._results_1 = none)
    (hc : c.completion) :
    (s.call_ampN c).RunInvariant e0 := by
  obtain ⟨ia, ib, _, id, _⟩ := hinv
  have hem : s.emitted = e0 := id (Or.inr h1)
  obtain ⟨⟨fa, fb, _, fd⟩, ge, gg, gh⟩ := call_ampN_spec s c
  have hstN : (s.call_ampN c)._ampN.status = c.status := by rw [fa]
  by_cases hp : c.published = []
  · obtain ⟨j1, _, j3, j4⟩ := ge (Or.inr hp)
    have hfin' : (s.call_ampN c).isFinished = false := by
      unfold AmplitudeProcessor_ML2h.isFinished at hfin ⊢
      rw [j1]; exact hfin
    refine ⟨?_, ?_, ?_, ?_, ?_⟩
    · intro h; rw [fd] at h; rw [fb]; exact ia h
    · intro h; rw [j4] at h; exact absurd h1 h
    · intro h; rw [hfin'] at h; exact Bool.noConfusion h
    · intro _; rw [j3]; exact hem
    · intro _ h; rw [j4] at h; exact absurd h1 h
  · have hcs : c.status = Status.Finished := hc hp
    by_cases h0 : s._results_0 = none
    · obtain ⟨j1, _, j3, j4⟩ := gg hfin hp h0
      have hfin' : (s.call_ampN c).isFinished = false := by
        unfold AmplitudeProcessor_ML2h.isFinished at hfin ⊢
        rw [j1]; exact hfin
      refine ⟨?_, ?_, ?_, ?_, ?_⟩
      · intro h; rw [fd] at h; rw [fb]; exact ia h
      · intro _; rw [hstN]; exact hcs
      · intro h; rw [hfin'] at h; exact Bool.noConfusion h
      · intro _; rw [j3]; exact hem
      · intro h _; rw [fd] at h; exact absurd h0 h
    · obtain ⟨j1, _, ⟨r, j3⟩, j4⟩ := gh hfin hp h0
      refine ⟨?_, ?_, ?_, ?_, ?_⟩
      · intro h; rw [fd] at h; rw [fb]; exact ia h
      · intro _; rw [hstN]; exact hcs
      · intro _
        have hE : (s.call_ampN c)._ampE.status = Status.Finished := by
          rw [fb]; exact ia h0
        unfold AmplitudeProcessor_MLh.isFinished
        rw [hE, hstN, hcs]
        exact ⟨rfl, rfl⟩
      · rintro (h | h)
        · rw [fd] at h; exact absurd h h0
        · exact absurd h j4
      · intro _ _
        exact ⟨j1, r, by rw [j3, hem]⟩

/-- A call into the unit `_ampE`, made on an unfinished combiner that does not
hold the result of that unit and publishing only on `Finished`, keeps the
invariant of the run. -/
theorem call_ampE_invariant_of {α : Type} [LinearOrderedField α]
    (e0 : List (Result α)) (s : AmplitudeProcessor_ML2h α) (c : UnitCall α)
    (hinv : s.RunInvariant e0) (hfin : s.isFinished = false) (h1 : s._results_0 = none)
    (hc : c.completion) :
    (s.call_ampE c).RunInvariant e0 := by
  obtain ⟨ia, ib, _, id, _⟩ := hinv
  have hem : s.emitted = e0 := id (Or.inl h1)
  obtain ⟨⟨fa, fb, _, fd⟩, ge, gg, gh⟩ := call_ampE_spec s c
  have hstN : (s.call_ampE c)._ampE.status = c.status := by rw [fa]
  by_cases hp : c.published = []
  · obtain ⟨j1, _, j3, j4⟩ := ge (Or.inr hp)
    have hfin' : (s.call_ampE c).isFinished = false := by
      unfold AmplitudeProcessor_ML2h.isFinished at hfin ⊢
      rw [j1]; exact hfin
    refine ⟨?_, ?_, ?_, ?_, ?_⟩
    · intro h; rw [j4] at h; exact absurd h1 h
    · intro h; rw [fd] at h; rw [fb]; exact ib h
    · intro h; rw [hfin'] at h; exact Bool.noConfusion h
    · intro _; rw [j3]; exact hem
    · intro h _; rw [j4] at h; exact absurd h1 h
  · have hcs : c.status = Status.Finished := hc hp
    by_cases h0 : s._results_1 = none
    · obtain ⟨j1, _, j3, j4⟩ := gg hfin hp h0
      have hfin' : (s.call_ampE c).isFinished = false := by
        unfold AmplitudeProcessor_ML2h.isFinished at hfin ⊢
        rw [j1]; exact hfin
      refine ⟨?_, ?_, ?_, ?_, ?_⟩
      · intro _; rw [hstN]; exact hcs
      · intro h; rw [fd] at h; rw [fb]; exact ib h
      · intro h; rw [hfin'] at h; exact Bool.noConfusion h
      · intro _; rw [j3]; exact hem
      · intro _ h; rw [fd] at h; exact absurd h0 h
    · obtain ⟨j1, _, ⟨r, j3⟩, j4⟩ := gh hfin hp h0
      refine ⟨?_, ?_, ?_, ?_, ?_⟩
      · intro _; rw [hstN]; exact hcs
      · intro h; rw [fd] at h; rw [fb]; exact ib h
      · intro _
        have hE : (s.call_ampE c)._ampN.status = Status.Finished := by
          rw [fb]; exact ib h0
        unfold AmplitudeProcessor_MLh.isFinished
        rw [hE, hstN, hcs]
        exact ⟨rfl, rfl⟩
      · rintro (h | h)
        · exact absurd h j4
        · rw [fd] at h; exact absurd h h0
      · intro _ _
        exact ⟨j1, r, by rw [j3, hem]⟩

/-- A call into the unit `_ampN`, made on an unfinished combiner, the unit
publishing exactly on `Finished`: if the
result of E matched the status of `_ampE` before, the stored results match
the statuses afterwards. -/
theorem call_ampN_match_of {α : Type} [LinearOrderedField α]
    (s : AmplitudeProcessor_ML2h α) (c : UnitCall α)
    (hfin : s.isFinished = false)
    (hother : s._ampE.status = Status.Finished → s._results_0 ≠ none)
    (hc : c.exact) :
    (s.call_ampN c).ResultsMatchStatus := by
  obtain ⟨⟨fa, fb, _, fd⟩, ge, gg, gh⟩ := call_ampN_spec s c
  have hstN : (s.call_ampN c)._ampN.status = c.status := by rw [fa]
  have hnotF : s.status ≠ Status.Finished := by
    intro h
    unfold AmplitudeProcessor_ML2h.isFinished at hfin
    rw [h] at hfin
    exact absurd hfin (by decide)
  refine ⟨?_, ?_, ?_⟩
  ·
    intro h
    rw [fb] at h
    rw [fd]
    exact hother h
  ·
    intro h
    rw [hstN] at h
    have hp := hc.2 h
    by_cases h0 : s._results_0 = none
    · exact (gg hfin hp h0).2.2.2
    · exact (gh hfin hp h0).2.2.2
  · intro h
    by_cases hp : c.published = []
    · rw [(ge (Or.inr hp)).1] at h
      exact absurd h hnotF
    · by_cases h0 : s._results_0 = none
      · rw [(gg hfin hp h0).1] at h
        exact absurd h hnotF
      · exact ⟨by rw [fd]; exact h0, (gh hfin hp h0).2.2.2⟩

/-- A call into the unit `_ampE`, made on an unfinished combiner, the unit
publishing exactly on `Finished`: if the
result of N matched the status of `_ampN` before, the stored results match
the statuses afterwards. -/
theorem call_ampE_match_of {α : Type} [LinearOrderedField α]
    (s : AmplitudeProcessor_ML2h α) (c : UnitCall α)
    (hfin : s.isFinished = false)
    (hother : s._ampN.status = Status.Finished → s._results_1 ≠ none)
    (hc : c.exact) :
    (s.call_ampE c).ResultsMatchStatus := by
  obtain ⟨⟨fa, fb, _, fd⟩, ge, gg, gh⟩ := call_ampE_spec s c
  have hstN : (s.call_ampE c)._ampE.status = c.status := by rw [fa]
  have hnotF : s.status ≠ Status.Finished := by
    intro h
    unfold AmplitudeProcessor_ML2h.isFinished at hfin
    rw [h] at hfin
    exact absurd hfin (by decide)
  refine ⟨?_, ?_, ?_⟩
  ·
    intro h
    rw [hstN] at h
    have hp := hc.2 h
    by_cases h0 : s._results_1 = none
    · exact (gg hfin hp h0).2.2.2
    · exact (gh hfin hp h0).2.2.2
  ·
    intro h
    rw [fb] at h
    rw [fd]
    exact hother h
  · intro h
    by_cases hp : c.published = []
    · rw [(ge (Or.inr hp)).1] at h
      exact absurd h hnotF
    · by_cases h0 : s._results_1 = none
      · rw [(gg hfin hp h0).1] at h
        exact absurd h hnotF
      · exact ⟨(gh hfin hp h0).2.2.2, by rw [fd]; exact h0⟩

/-- Setting the status keeps the match between stored results and statuses
when the status `Finished` is only set with both results stored. -/
theorem setStatus_match {α : Type} [LinearOrderedField α]
    (s : AmplitudeProcessor_ML2h α) (st : Status) (v : α)
    (hm : s.ResultsMatchStatus)
    (hst : st = Status.Finished → s._results_0 ≠ none ∧ s._results_1 ≠ none) :
    (s.setStatus st v).ResultsMatchStatus :=
  ⟨hm.1, hm.2.1, hst⟩

/-- A unit call that publishes exactly on `Finished` publishes only on
`Finished`. -/
theorem UnitCall.exact.completion {α : Type} {c : UnitCall α} (h : c.exact) :
    c.completion := h.1

/-- One `feed` call whose unit call publishes exactly on `Finished` keeps the
match between stored results and statuses, in a state that satisfies the
invariant of the run. -/
theorem feed_match {α : Type} [LinearOrderedField α]
    (e0 : List (Result α)) (s : AmplitudeProcessor_ML2h α)
    (_streamConfig : Component → String) (record : Record) (c : UnitCall α)
    (hinv : s.RunInvariant e0) (hm : s.ResultsMatchStatus) (hc : c.exact) :
    (s.feed _streamConfig record c).2.ResultsMatchStatus := by
  unfold AmplitudeProcessor_ML2h.feed
  dsimp only
  split
  · exact hm
  split
  · exact hm
  split
  · split
    · rename_i hN
      have hN' : s._ampN.isFinished = false := by simpa using hN
      have hfin := RunInvariant.not_finished e0 s hinv (Or.inr hN')
      have hm' := call_ampN_match_of s c hfin hm.1 hc
      split
      · exact setStatus_match _ _ _ hm' (fun h => Status.noConfusion h)
      · split
        · split
          · split
            · rename_i hE
              refine setStatus_match _ _ _ hm' (fun h => ⟨hm'.1 hE, hm'.2.1 h⟩)
            · rename_i hE
              exact setStatus_match _ _ _ hm' (fun h => absurd h hE)
          · exact hm'
        · exact hm'
    · exact hm
  · split
    · split
      · rename_i hE
        have hE' : s._ampE.isFinished = false := by simpa using hE
        have hfin := RunInvariant.not_finished e0 s hinv (Or.inl hE')
        have hm' := call_ampE_match_of s c hfin hm.2.1 hc
        split
        · exact setStatus_match _ _ _ hm' (fun h => Status.noConfusion h)
        · split
          · split
            · split
              · rename_i hN
                refine setStatus_match _ _ _ hm' (fun h => ⟨hm'.1 h, hm'.2.1 hN⟩)
              · rename_i hN
                exact setStatus_match _ _ _ hm' (fun h => absurd h hN)
            · exact hm'
          · exact hm'
      · exact hm
    · exact hm

/-- The two unit calls of `reset`, made on a combiner with the status
`WaitingForData` and no stored results, the units publishing exactly on
`Finished`: afterwards the invariant of the run that starts there holds and
the stored results match the statuses. -/
theorem reset_calls {α : Type} [LinearOrderedField α]
    (s2 : AmplitudeProcessor_ML2h α) (callE callN : UnitCall α)
    (h2st : s2.status = Status.WaitingForData)
    (h20 : s2._results_0 = none) (h21 : s2._results_1 = none)
    (hE : callE.exact) (hN : callN.exact) :
    ((s2.call_ampE callE).call_ampN callN).RunInvariant s2.emitted ∧
      ((s2.call_ampE callE).call_ampN callN).ResultsMatchStatus := by
  have h2fin : s2.isFinished = false := by
    unfold AmplitudeProcessor_ML2h.isFinished
    rw [h2st]; rfl
  have inv2 := invariant_start s2 h2fin h20 h21
  have inv3 := call_ampE_invariant_of s2.emitted s2 callE inv2 h2fin h20 hE.1
  obtain ⟨⟨fa, _, _, fd⟩, ge, gg, _⟩ := call_ampE_spec s2 callE
  have h3st : (s2.call_ampE callE).status = Status.WaitingForData := by
    by_cases hp : callE.published = []
    · rw [(ge (Or.inr hp)).1, h2st]
    · rw [(gg h2fin hp h21).1, h2st]
  have h3fin : (s2.call_ampE callE).isFinished = false := by
    unfold AmplitudeProcessor_ML2h.isFinished
    rw [h3st]; rfl
  have h31 : (s2.call_ampE callE)._results_1 = none := by rw [fd, h21]
  have hother : (s2.call_ampE callE)._ampE.status = Status.Finished →
      (s2.call_ampE callE)._results_0 ≠ none := by
    intro h
    rw [fa] at h
    exact (gg h2fin (hE.2 h) h21).2.2.2
  exact ⟨call_ampN_invariant_of s2.emitted _ callN inv3 h3fin h31 hN.1,
    call_ampN_match_of _ callN h3fin hother hN⟩

/-- After `reset`, the units publishing exactly on `Finished`, the invariant of
the run that starts with the results emitted so far holds and the stored
results match the statuses. -/
theorem reset_invariant {α : Type} [LinearOrderedField α]
    (s : AmplitudeProcessor_ML2h α) (callE callN : UnitCall α)
    (hE : callE.exact) (hN : callN.exact) :
    (s.reset callE callN).RunInvariant s.emitted ∧
      (s.reset callE callN).ResultsMatchStatus :=
  reset_calls
    ({ s.setStatus Status.WaitingForData 0 with
        _results_0 := none, _results_1 := none } : AmplitudeProcessor_ML2h α)
    callE callN rfl rfl rfl hE hN

/-- A sequence of `feed` calls and resets, without `reprocess`, whose unit calls
publish exactly on `Finished` keeps the invariant of a run and the match between stored results
and statuses. -/
theorem steps_invariant {α : Type} [LinearOrderedField α]
    (_streamConfig : Component → String) (events : List (Event α))
    (s : AmplitudeProcessor_ML2h α) (e0 : List (Result α))
    (hinv : s.RunInvariant e0) (hm : s.ResultsMatchStatus)
    (hex : ∀ e ∈ events, e.exact) (hnr : ∀ e ∈ events, e.isReprocess = false) :
    ∃ e1, (s.steps _streamConfig events).RunInvariant e1 ∧
      (s.steps _streamConfig events).ResultsMatchStatus := by
  induction events generalizing s e0 with
  | nil => exact ⟨e0, hinv, hm⟩
  | cons e es ih =>
    have he := hex e (List.mem_cons_self _ _)
    have hes : ∀ e' ∈ es, e'.exact := fun e' h => hex e' (List.mem_cons_of_mem _ h)
    have hnrs : ∀ e' ∈ es, e'.isReprocess = false :=
      fun e' h => hnr e' (List.mem_cons_of_mem _ h)
    have hne := hnr e (List.mem_cons_self _ _)
    unfold AmplitudeProcessor_ML2h.steps
    rw [List.foldl_cons]
    cases e with
    | feed record call =>
      exact ih _ e0 (feed_invariant e0 s _streamConfig record call hinv he.1)
        (feed_match e0 s _streamConfig record call hinv hm he) hes hnrs
    | reset callE callN =>
      exact ih _ s.emitted (reset_invariant s callE callN he.1 he.2).1
        (reset_invariant s callE callN he.1 he.2).2 hes hnrs
    | reprocess searchBegin searchEnd callN callE =>
      exact Bool.noConfusion hne

/-- Without `reprocess` the status invariant holds: in every state reached from
the constructed combiner by `feed` calls and resets, the units publishing
exactly on reaching `Finished`, the status of the combiner is `Finished` if and
only if both channel results are stored. -/
theorem finished_iff_both_results_without_reprocess {α : Type} [LinearOrderedField α]
    (_streamConfig : Component → String) (events : List (Event α))
    (hex : ∀ e ∈ events, e.exact) (hnr : ∀ e ∈ events, e.isReprocess = false) :
    ((AmplitudeProcessor_ML2h.construct (α := α)).steps _streamConfig events).status
        = Status.Finished ↔
      ((AmplitudeProcessor_ML2h.construct (α := α)).steps _streamConfig events)._results_0
          ≠ none ∧
      ((AmplitudeProcessor_ML2h.construct (α := α)).steps _streamConfig events)._results_1
          ≠ none := by
  have hstart : (AmplitudeProcessor_ML2h.construct (α := α)).ResultsMatchStatus :=
    ⟨fun h => Status.noConfusion h, fun h => Status.noConfusion h,
      fun h => Status.noConfusion h⟩
  obtain ⟨e1, hinv, hm⟩ := steps_invariant _streamConfig events
    (AmplitudeProcessor_ML2h.construct (α := α)) _
    (invariant_start _ rfl rfl rfl) hstart hex hnr
  exact ⟨hm.2.2, fun h => (hinv.2.2.2.2 h.1 h.2).1⟩

/-- A call into the unit `_ampN`, made while the result of that unit is not
stored and publishing only on `Finished`, keeps the invariant on the stored
results. -/
theorem call_ampN_stored_of {α : Type} [LinearOrderedField α]
    (s : AmplitudeProcessor_ML2h α) (c : UnitCall α)
    (hinv : s.StoredInvariant) (h1 : s._results_1 = none) (hc : c.completion) :
    (s.call_ampN c).StoredInvariant := by
  obtain ⟨ia, ib, _⟩ := hinv
  obtain ⟨⟨fa, fb, _, fd⟩, ge, gg, gh⟩ := call_ampN_spec s c
  have hstN : (s.call_ampN c)._ampN.status = c.status := by rw [fa]
  by_cases hq : s.isFinished = true ∨ c.published = []
  · obtain ⟨_, _, _, j4⟩ := ge hq
    refine ⟨?_, ?_, ?_⟩
    · intro h; rw [fd] at h; rw [fb]; exact ia h
    · intro h; rw [j4] at h; exact absurd h1 h
    · intro _ h; rw [j4] at h; exact absurd h1 h
  · rw [not_or] at hq
    have hfin : s.isFinished = false := by
      cases h : s.isFinished
      · rfl
      · exact absurd h hq.1
    have hp := hq.2
    have hcs : c.status = Status.Finished := hc hp
    by_cases h0 : s._results_0 = none
    · refine ⟨?_, ?_, ?_⟩
      · intro h; rw [fd] at h; rw [fb]; exact ia h
      · intro _; rw [hstN]; exact hcs
      · intro h _; rw [fd] at h; exact absurd h0 h
    · obtain ⟨j1, _, _, _⟩ := gh hfin hp h0
      refine ⟨?_, ?_, ?_⟩
      · intro h; rw [fd] at h; rw [fb]; exact ia h
      · intro _; rw [hstN]; exact hcs
      · intro _ _; exact j1

/-- A call into the unit `_ampE`, made while the result of that unit is not
stored and publishing only on `Finished`, keeps the invariant on the stored
results. -/
theorem call_ampE_stored_of {α : Type} [LinearOrderedField α]
    (s : AmplitudeProcessor_ML2h α) (c : UnitCall α)
    (hinv : s.StoredInvariant) (h1 : s._results_0 = none) (hc : c.completion) :
    (s.call_ampE c).StoredInvariant := by
  obtain ⟨ia, ib, _⟩ := hinv
  obtain ⟨⟨fa, fb, _, fd⟩, ge, gg, gh⟩ := call_ampE_spec s c
  have hstN : (s.call_ampE c)._ampE.status = c.status := by rw [fa]
  by_cases hq : s.isFinished = true ∨ c.published = []
  · obtain ⟨_, _, _, j4⟩ := ge hq
    refine ⟨?_, ?_, ?_⟩
    · intro h; rw [j4] at h; exact absurd h1 h
    · intro h; rw [fd] at h; rw [fb]; exact ib h
    · intro h _; rw [j4] at h; exact absurd h1 h
  · rw [not_or] at hq
    have hfin : s.isFinished = false := by
      cases h : s.isFinished
      · rfl
      · exact absurd h hq.1
    have hp := hq.2
    have hcs : c.status = Status.Finished := hc hp
    by_cases h0 : s._results_1 = none
    · refine ⟨?_, ?_, ?_⟩
      · intro _; rw [hstN]; exact hcs
      · intro h; rw [fd] at h; rw [fb]; exact ib h
      · intro _ h; rw [fd] at h; exact absurd h0 h
    · obtain ⟨j1, _, _, _⟩ := gh hfin hp h0
      refine ⟨?_, ?_, ?_⟩
      · intro _; rw [hstN]; exact hcs
      · intro h; rw [fd] at h; rw [fb]; exact ib h
      · intro _ _; exact j1

/-- Setting the status keeps the invariant on the stored results when, with
both results stored, the status set is `Finished`. -/
theorem setStatus_stored {α : Type} [LinearOrderedField α]
    (s : AmplitudeProcessor_ML2h α) (st : Status) (v : α)
    (hinv : s.StoredInvariant)
    (hst : s._results_0 ≠ none → s._results_1 ≠ none → st = Status.Finished) :
    (s.setStatus st v).StoredInvariant :=
  ⟨hinv.1, hinv.2.1, hst⟩

/-- With both results stored, a combiner that satisfies the invariant on the
stored results is finished. -/
theorem StoredInvariant.finished {α : Type} (s : AmplitudeProcessor_ML2h α)
    (hinv : s.StoredInvariant) (h0 : s._results_0 ≠ none) (h1 : s._results_1 ≠ none) :
    s.isFinished = true := by
  unfold AmplitudeProcessor_ML2h.isFinished
  rw [hinv.2.2 h0 h1]; rfl

/-- One `feed` call whose unit call publishes only on `Finished` keeps the
invariant on the stored results. -/
theorem feed_stored {α : Type} [LinearOrderedField α]
    (s : AmplitudeProcessor_ML2h α)
    (_streamConfig : Component → String) (record : Record) (c : UnitCall α)
    (hinv : s.StoredInvariant) (hc : c.completion) :
    (s.feed _streamConfig record c).2.StoredInvariant := by
  have hunfinished : ∀ u : AmplitudeProcessor_MLh α, u.isFinished = false →
      u.status ≠ Status.Finished := by
    intro u hu h
    unfold AmplitudeProcessor_MLh.isFinished at hu
    rw [h] at hu
    exact absurd hu (by decide)
  unfold AmplitudeProcessor_ML2h.feed
  dsimp only
  split
  · exact hinv
  split
  · exact hinv
  split
  · split
    · rename_i hN
      have hN' : s._ampN.isFinished = false := by simpa using hN
      have h1 : s._results_1 = none := by
        by_contra h
        exact hunfinished _ hN' (hinv.2.1 h)
      have hinv' := call_ampN_stored_of s c hinv h1 hc
      split
      · rename_i hip
        refine setStatus_stored _ _ _ hinv' (fun _ hr1 => ?_)
        have := hinv'.2.1 hr1
        rw [hip] at this
        exact Status.noConfusion this
      · split
        · split
          · rename_i hnf
            have hnf' : (s.call_ampN c).isFinished = false := by simpa using hnf
            have hcontra : (s.call_ampN c)._results_0 ≠ none →
                (s.call_ampN c)._results_1 ≠ none → False := by
              intro hr0 hr1
              rw [StoredInvariant.finished _ hinv' hr0 hr1] at hnf'
              exact Bool.noConfusion hnf'
            split
            · exact setStatus_stored _ _ _ hinv' (fun a b => absurd (hcontra a b) id)
            · exact setStatus_stored _ _ _ hinv' (fun a b => absurd (hcontra a b) id)
          · exact hinv'
        · exact hinv'
    · exact hinv
  · split
    · split
      · rename_i hE
        have hE' : s._ampE.isFinished = false := by simpa using hE
        have h1 : s._results_0 = none := by
          by_contra h
          exact hunfinished _ hE' (hinv.1 h)
        have hinv' := call_ampE_stored_of s c hinv h1 hc
        split
        · rename_i hip
          refine setStatus_stored _ _ _ hinv' (fun hr0 _ => ?_)
          have := hinv'.1 hr0
          rw [hip] at this
          exact Status.noConfusion this
        · split
          · split
            · rename_i hnf
              have hnf' : (s.call_ampE c).isFinished = false := by simpa using hnf
              have hcontra : (s.call_ampE c)._results_0 ≠ none →
                  (s.call_ampE c)._results_1 ≠ none → False := by
                intro hr0 hr1
                rw [StoredInvariant.finished _ hinv' hr0 hr1] at hnf'
                exact Bool.noConfusion hnf'
              split
              · exact setStatus_stored _ _ _ hinv' (fun a b => absurd (hcontra a b) id)
              · exact setStatus_stored _ _ _ hinv' (fun a b => absurd (hcontra a b) id)
            · exact hinv'
          · exact hinv'
      · exact hinv
    · exact hinv

/-- A combiner without stored results satisfies the invariant on the stored
results. -/
theorem stored_start {α : Type} (s : AmplitudeProcessor_ML2h α)
    (h0 : s._results_0 = none) (h1 : s._results_1 = none) : s.StoredInvariant :=
  ⟨fun h => absurd h0 h, fun h => absurd h1 h, fun h => absurd h0 h⟩

/-- After `reset`, the units publishing only on `Finished`, the invariant on the
stored results holds. -/
theorem reset_stored {α : Type} [LinearOrderedField α]
    (s : AmplitudeProcessor_ML2h α) (callE callN : UnitCall α)
    (hE : callE.completion) (hN : callN.completion) :
    (s.reset callE callN).StoredInvariant := by
  have key : ∀ s2 : AmplitudeProcessor_ML2h α, s2._results_0 = none → s2._results_1 = none →
      ((s2.call_ampE callE).call_ampN callN).StoredInvariant := by
    intro s2 h20 h21
    have inv3 := call_ampE_stored_of s2 callE (stored_start s2 h20 h21) h20 hE
    have h31 : (s2.call_ampE callE)._results_1 = none := by
      rw [(call_ampE_spec s2 callE).1.2.2.2, h21]
    exact call_ampN_stored_of _ callN inv3 h31 hN
  exact key
    ({ s.setStatus Status.WaitingForData 0 with
        _results_0 := none, _results_1 := none } : AmplitudeProcessor_ML2h α) rfl rfl

/-- After `reprocess`, the units publishing only on `Finished`, the invariant on
the stored results holds. -/
theorem reprocess_stored {α : Type} [LinearOrderedField α]
    (s : AmplitudeProcessor_ML2h α) (searchBegin searchEnd : Option α)
    (callN callE : UnitCall α)
    (hN : callN.completion) (hE : callE.completion) :
    (s.reprocess searchBegin searchEnd callN callE).StoredInvariant := by
  have key : ∀ s2 : AmplitudeProcessor_ML2h α, s2._results_0 = none → s2._results_1 = none →
      ((s2.call_ampN callN).call_ampE callE).StoredInvariant := by
    intro s2 h20 h21
    have inv3 := call_ampN_stored_of s2 callN (stored_start s2 h20 h21) h21 hN
    have h30 : (s2.call_ampN callN)._results_0 = none := by
      rw [(call_ampN_spec s2 callN).1.2.2.2, h20]
    exact call_ampE_stored_of _ callE inv3 h30 hE
  obtain ⟨s4, hs4⟩ : ∃ s4 : AmplitudeProcessor_ML2h α, s4 =
      (({ s.setStatus Status.WaitingForData 0 with
          _results_0 := none, _results_1 := none } : AmplitudeProcessor_ML2h α).call_ampN
        callN).call_ampE callE := ⟨_, rfl⟩
  have hinv4 : s4.StoredInvariant := by
    rw [hs4]
    exact key _ rfl rfl
  have hrep : s.reprocess searchBegin searchEnd callN callE =
      if (!s4.isFinished) = true then
        if Status.Finished < s4._ampN.status then
          s4.setStatus s4._ampN.status s4._ampN.statusValue
        else
          s4.setStatus s4._ampE.status s4._ampE.statusValue
      else s4 := by
    rw [hs4]; rfl
  rw [hrep]
  split
  · rename_i hnf
    have hnf' : s4.isFinished = false := by simpa using hnf
    have hcontra : s4._results_0 ≠ none → s4._results_1 ≠ none → False := by
      intro hr0 hr1
      rw [StoredInvariant.finished _ hinv4 hr0 hr1] at hnf'
      exact Bool.noConfusion hnf'
    split
    · exact setStatus_stored _ _ _ hinv4 (fun a b => absurd (hcontra a b) id)
    · exact setStatus_stored _ _ _ hinv4 (fun a b => absurd (hcontra a b) id)
  · exact hinv4

/-- Every sequence of `feed` calls, resets and `reprocess` calls whose unit calls
publish exactly on `Finished` keeps the invariant on the stored results. -/
theorem steps_stored {α : Type} [LinearOrderedField α]
    (_streamConfig : Component → String) (events : List (Event α))
    (s : AmplitudeProcessor_ML2h α) (hinv : s.StoredInvariant)
    (hex : ∀ e ∈ events, e.exact) :
    (s.steps _streamConfig events).StoredInvariant := by
  induction events generalizing s with
  | nil => exact hinv
  | cons e es ih =>
    have he := hex e (List.mem_cons_self _ _)
    have hes : ∀ e' ∈ es, e'.exact := fun e' h => hex e' (List.mem_cons_of_mem _ h)
    unfold AmplitudeProcessor_ML2h.steps
    rw [List.foldl_cons]
    cases e with
    | feed record call =>
      exact ih _ (feed_stored s _streamConfig record call hinv he.1) hes
    | reset callE callN =>
      exact ih _ (reset_stored s callE callN he.1.1 he.2.1) hes
    | reprocess searchBegin searchEnd callN callE =>
      exact ih _ (reprocess_stored s searchBegin searchEnd callN callE he.1.1 he.2.1) hes

/-- One half of the status invariant holds everywhere: in every state reached
from the constructed combiner by `feed` calls, resets and `reprocess` calls, the
units publishing exactly on reaching `Finished`, a combiner that holds both
channel results has the status `Finished`. -/
theorem both_results_imply_finished {α : Type} [LinearOrderedField α]
    (_streamConfig : Component → String) (events : List (Event α))
    (hex : ∀ e ∈ events, e.exact) :
    ((AmplitudeProcessor_ML2h.construct (α := α)).steps _streamConfig events)._results_0
        ≠ none →
    ((AmplitudeProcessor_ML2h.construct (α := α)).steps _streamConfig events)._results_1
        ≠ none →
    ((AmplitudeProcessor_ML2h.construct (α := α)).steps _streamConfig events).status
        = Status.Finished :=
  (steps_stored _streamConfig events _ (stored_start _ rfl rfl) hex).2.2

end MLh
